import Mathlib

/-! # Phytium PCI DMA controller driver (drivers/dma/phytium/phytium-dmac-pci.c)

A shallow embedding of the descriptor / queue / interrupt engine of the driver.

* Machine words are natural numbers, truncated with `% 2 ^ 32` where the C code
  stores into a `u32`.
* The memory-mapped register file is a function from byte offsets (relative to
  `chip->regs`) to 32-bit values; `iowrite32` updates it, `ioread32` reads it back.
* A channel is the C structure `phytium_dma_chan` together with the register file
  it reaches through `chan->chip->regs`.
* The helpers of `drivers/dma/virt-dma.h`, `drivers/dma/dmaengine.h`,
  `include/linux/dmaengine.h` and `include/linux/scatterlist.h` lie outside the driver;
  they are modelled from the spec and marked as such.
-/

namespace PhytiumDma

/-! ## Machine words and the register file -/

/-- Modelled from the spec: the kernel macro `BIT(n)`, the word with only bit `n` set. -/
def BIT (n : Nat) : Nat := 2 ^ n

/-- Modelled from the spec: the kernel macro `min_t(unsigned int, x, y)`. -/
def min_t (x y : Nat) : Nat := if x < y then x else y

/-- The C operator `~` on a 32-bit operand. -/
def not32 (x : Nat) : Nat := 0xFFFFFFFF ^^^ (x % 2 ^ 32)

/-- The memory-mapped register file: byte offset from `chip->regs` to 32-bit value. -/
abbrev Regs := Nat → Nat

/-- Modelled from the spec: `iowrite32(val, addr)`, a 32-bit store into the register
file (writes are fire-and-forget). -/
def iowrite32 (val addr : Nat) (regs : Regs) : Regs :=
  fun a => if a = addr then val % 2 ^ 32 else regs a

/-- Modelled from the spec: `ioread32(addr)`, a 32-bit load from the register file. -/
def ioread32 (addr : Nat) (regs : Regs) : Nat := regs addr % 2 ^ 32

/-! ## Register map (phytium-dmac-pci.h) -/

def DMAC_MAX_CHANNELS : Nat := 4
def COMMON_REG_LEN : Nat := 0
def CHAN_REG_LEN : Nat := 0x40

def DMA_IRQ_MASK : Nat := 0x180
def DMA_IRQ_STATUS : Nat := 0x184
def DMA_SRCPARAM : Nat := 0x400
def DMA_DESTPARAM : Nat := 0x404
def DMA_SRCADDR_L : Nat := 0x408
def DMA_SRCADDR_H : Nat := 0x40C
def DMA_DESTADDR_L : Nat := 0x410
def DMA_DESTADDR_H : Nat := 0x414
def DMA_LENGTH : Nat := 0x418
def DMA_CONTROL : Nat := 0x41C
def DMA_STATUS : Nat := 0x420

def DMA_SRCP_SRC_ID (x : Nat) : Nat := min_t x 0xF
def DMA_DESTP_DEST_ID (x : Nat) : Nat := min_t x 0xF
def DMA_CTRL_START : Nat := BIT 0
def DMA_CTRL_PAUSE : Nat := BIT 1
def DMA_CTRL_SG_EN : Nat := BIT 3
def DMA_CTRL_COND_LEN : Nat := BIT 5
def DMA_CTRL_COND_EOP : Nat := BIT 6
def DMA_CTRL_COND_ERR : Nat := BIT 7
def DMA_CTRL_IRQ_END : Nat := BIT 8
def DMA_CTRL_IRQ_ERR : Nat := BIT 9
def DMA_CTRL_IRQ_EOP : Nat := BIT 10
def DMA_CTRL_IRQ_MASK (x : Nat) : Nat := min_t x 0xF <<< 8
def DMA_CTRL_IRQ_ID (x : Nat) : Nat := min_t x 0x3 <<< 12
def DMA_CTRL_SG_TYPE (x : Nat) : Nat := min_t x 0x3 <<< 24
def DMA_CTRL_SG_ID (x : Nat) : Nat := min_t x 0x5 <<< 26
def DMA_CTRL_SG2_ID (x : Nat) : Nat := min_t x 0x5 <<< 29
def DMA_STAT_END : Nat := BIT 0
def DMA_STAT_EOP : Nat := BIT 1
def DMA_STAT_EOC : Nat := BIT 2
def DMA_STAT_ERR : Nat := BIT 3

/-- Modelled from the spec: the value `IRQ_NONE` of `irqreturn_t` ("not mine"). -/
def IRQ_NONE : Nat := 0
/-- Modelled from the spec: the value `IRQ_HANDLED` of `irqreturn_t`. -/
def IRQ_HANDLED : Nat := 1

/-! ## Types of include/linux/dmaengine.h and include/linux/scatterlist.h -/

/-- Modelled from the spec: `enum dma_transfer_direction` of include/linux/dmaengine.h,
the transfer directions. The constructors are listed in the order of their C values
0..4, so a zero-initialised direction is `DMA_MEM_TO_MEM`. -/
inductive dma_transfer_direction where
  | DMA_MEM_TO_MEM
  | DMA_MEM_TO_DEV
  | DMA_DEV_TO_MEM
  | DMA_DEV_TO_DEV
  | DMA_TRANS_NONE
deriving DecidableEq, Repr

open dma_transfer_direction

/-- Modelled from the spec: `is_slave_direction` of include/linux/dmaengine.h:
the direction has a device on one side. -/
def is_slave_direction (direction : dma_transfer_direction) : Bool :=
  direction == DMA_MEM_TO_DEV || direction == DMA_DEV_TO_MEM

/-- Modelled from the spec: the enumerator `DMA_SLAVE_BUSWIDTH_4_BYTES` of
`enum dma_slave_buswidth` (include/linux/dmaengine.h): each
enumerator of that type has the bus width in bytes as its value. -/
def DMA_SLAVE_BUSWIDTH_4_BYTES : Nat := 4

/-- Modelled from the spec: the fields of `struct dma_slave_config`
(include/linux/dmaengine.h) the driver reads: direction and the fixed device address
of either side. -/
structure dma_slave_config where
  direction : dma_transfer_direction
  src_addr : Nat
  dst_addr : Nat
deriving DecidableEq, Repr

/-- Modelled from the spec: one entry of a `struct scatterlist` array after DMA
mapping: `sg_dma_address`, `sg_dma_len` and the end mark tested by `sg_is_last`. -/
structure scatterlist where
  dma_address : Nat
  dma_length : Nat
  is_last : Bool
deriving DecidableEq, Repr

/-- Modelled from the spec: `sg_dma_address(sg)`, a `dma_addr_t` (64 bits). -/
def sg_dma_address (sg : scatterlist) : Nat := sg.dma_address % 2 ^ 64

/-- Modelled from the spec: `sg_dma_len(sg)`, an `unsigned int`. -/
def sg_dma_len (sg : scatterlist) : Nat := sg.dma_length % 2 ^ 32

/-- Modelled from the spec: `sg_is_last(sg)`, the test for the end mark. -/
def sg_is_last (sg : scatterlist) : Bool := sg.is_last

/-! ## Driver data structures (phytium-dmac-pci.h) -/

/-- The C type `struct phytium_dma_hcfg`; arrays indexed by channel are functions of the index. -/
structure phytium_dma_hcfg where
  nr_channels : Nat
  nr_masters : Nat
  m_data_width : Nat
  block_size : Nat → Nat
  priority : Nat → Nat
  axi_rw_burst_len : Nat
  restrict_axi_burst_len : Bool

/-- The C type `struct phytium_chan_desc`: one entry of a hardware scatter-gather chain. -/
structure phytium_chan_desc where
  desc_status : Nat
  desc_control : Nat
  desc_next_addr_l : Nat
  desc_next_addr_h : Nat
  desc_src_addr_l : Nat
  desc_src_addr_h : Nat
  desc_dst_addr_l : Nat
  desc_dst_addr_h : Nat
deriving DecidableEq, Repr

/-- The C type `struct phytium_dma_desc` with the fields of its embedded `virt_dma_desc`
(`vd.tx.cookie`, `vd.tx.flags`). `cdesc` is the address returned by `kzalloc` for
the chain (0 is NULL); `chain_base` is the adjusted pointer the entries are written
through, and `chain` the entries written there, entry `i` at `chain_base + 32 * i`. -/
structure phytium_dma_desc where
  cookie : Int
  flags : Nat
  cdesc : Nat
  chain_base : Nat
  chain : List phytium_chan_desc
  dma_srcparam : Nat
  dma_destparam : Nat
  dma_srcaddr_l : Nat
  dma_srcaddr_h : Nat
  dma_destaddr_l : Nat
  dma_destaddr_h : Nat
  dma_len : Nat
  dma_ctrl : Nat
  sg_len : Nat
deriving DecidableEq, Repr

/-- Modelled from the spec: `struct virt_dma_chan` of drivers/dma/virt-dma.h, the
state of the queue-helper library: the cookie counters of the embedded
`dma_chan`, the channel lock and the descriptor lists. -/
structure virt_dma_chan where
  cookie : Int
  completed_cookie : Int
  lock : Bool
  desc_allocated : List phytium_dma_desc
  desc_submitted : List phytium_dma_desc
  desc_issued : List phytium_dma_desc
  desc_completed : List phytium_dma_desc
deriving DecidableEq, Repr

/-- The C type `struct phytium_dma_chan`. The last field is not a C field: `hw_active` records
the descriptors handed to the engine (start bit asserted for them by
`phytium_chan_block_xfer_start`) since the start bit of the channel was last clear. -/
structure phytium_dma_chan where
  id : Nat
  releasing : Nat
  vc : virt_dma_chan
  dma_sconfig : dma_slave_config
  is_used : Bool
  is_idle : Bool
  is_paused : Bool
  hw_active : List phytium_dma_desc
deriving DecidableEq, Repr

/-- A channel together with the register file it reaches through
`chan->chip->regs` (`chan->chan_regs` is `chip->regs + chan->id * CHAN_REG_LEN`). -/
structure chan_state where
  chan : phytium_dma_chan
  regs : Regs

/-- The C type `struct phytium_dma_chip` with the channel array of its `phytium_dma`. -/
structure phytium_dma_chip where
  regs : Regs
  hdata : phytium_dma_hcfg
  chan : List phytium_dma_chan

/-! ## Register accessors -/

def phytium_dma_iowrite32 (regs : Regs) (reg val : Nat) : Regs :=
  iowrite32 val reg regs

def phytium_dma_ioread32 (regs : Regs) (reg : Nat) : Nat :=
  ioread32 reg regs

def phytium_chan_iowrite32 (s : chan_state) (reg val : Nat) : chan_state :=
  { s with regs := iowrite32 val (s.chan.id * CHAN_REG_LEN + reg) s.regs }

def phytium_chan_ioread32 (s : chan_state) (reg : Nat) : Nat :=
  ioread32 (s.chan.id * CHAN_REG_LEN + reg) s.regs

def phytium_dma_irq_disable (regs : Regs) : Regs :=
  phytium_dma_iowrite32 regs DMA_IRQ_MASK 0

def phytium_dma_irq_enable (regs : Regs) : Regs :=
  phytium_dma_iowrite32 regs DMA_IRQ_MASK 0x4077FFFF

def phytium_dma_irq_clear (regs : Regs) (irq_status : Nat) : Regs :=
  phytium_dma_iowrite32 regs DMA_IRQ_STATUS irq_status

def phytium_dma_irq_read (regs : Regs) : Nat :=
  phytium_dma_ioread32 regs DMA_IRQ_STATUS

def phytium_dma_irq_mask_read (regs : Regs) : Nat :=
  phytium_dma_ioread32 regs DMA_IRQ_MASK

def phytium_chan_irq_disable (s : chan_state) (irq_mask : Nat) : chan_state :=
  let val := phytium_chan_ioread32 s DMA_CONTROL
  let val := val &&& not32 irq_mask
  phytium_chan_iowrite32 s DMA_CONTROL val

def phytium_chan_irq_set (s : chan_state) (irq_mask : Nat) : chan_state :=
  let val := phytium_chan_ioread32 s DMA_CONTROL
  let val := val &&& not32 (DMA_CTRL_IRQ_MASK 0xF)
  let val := val ||| irq_mask
  let val := val ||| DMA_CTRL_IRQ_ID 1
  phytium_chan_iowrite32 s DMA_CONTROL val

def phytium_chan_irq_clear (s : chan_state) (irq_mask : Nat) : chan_state :=
  let val := phytium_dma_ioread32 s.regs DMA_IRQ_STATUS
  let val := val &&& not32 irq_mask
  phytium_chan_iowrite32 s DMA_IRQ_STATUS val

def phytium_chan_status_read (s : chan_state) : Nat :=
  phytium_chan_ioread32 s DMA_STATUS

/-- The routine `phytium_chan_disable`: clears the start bit; the engine then holds no
descriptor, so `hw_active` is emptied. -/
def phytium_chan_disable (s : chan_state) : chan_state :=
  let val := phytium_chan_ioread32 s DMA_CONTROL
  let val := val &&& not32 DMA_CTRL_START
  let s := phytium_chan_iowrite32 s DMA_CONTROL val
  { s with chan.hw_active := [] }

def phytium_chan_enable (s : chan_state) : chan_state :=
  let val := phytium_chan_ioread32 s DMA_CONTROL
  let val := val ||| DMA_CTRL_START
  phytium_chan_iowrite32 s DMA_CONTROL val

/-- The routine `phytium_desc_get`: `kmalloc_ok` tells whether `kmalloc` returned memory; the
descriptor is cleared by `memset`. -/
def phytium_desc_get (kmalloc_ok : Bool) : Option phytium_dma_desc :=
  if kmalloc_ok then
    some { cookie := 0, flags := 0, cdesc := 0, chain_base := 0, chain := [],
           dma_srcparam := 0, dma_destparam := 0, dma_srcaddr_l := 0, dma_srcaddr_h := 0,
           dma_destaddr_l := 0, dma_destaddr_h := 0, dma_len := 0, dma_ctrl := 0,
           sg_len := 0 }
  else none

def phytium_chan_is_running (s : chan_state) : Bool :=
  let val := phytium_chan_ioread32 s DMA_CONTROL
  if val &&& DMA_CTRL_START ≠ 0 then true else false

/-- The routine `phytium_chan_block_xfer_start`; called in channel-locked context. When the
start bit is asserted for `desc`, `desc` is recorded in `hw_active`. -/
def phytium_chan_block_xfer_start (s : chan_state) (desc : phytium_dma_desc) : chan_state :=
  let s := { s with chan.is_idle := false }
  if phytium_chan_is_running s then s
  else
    let s := phytium_chan_iowrite32 s DMA_SRCPARAM desc.dma_srcparam
    let s := phytium_chan_iowrite32 s DMA_DESTPARAM desc.dma_destparam
    let s := phytium_chan_iowrite32 s DMA_SRCADDR_L desc.dma_srcaddr_l
    let s := phytium_chan_iowrite32 s DMA_SRCADDR_H desc.dma_srcaddr_h
    let s := phytium_chan_iowrite32 s DMA_DESTADDR_L desc.dma_destaddr_l
    let s := phytium_chan_iowrite32 s DMA_DESTADDR_H desc.dma_destaddr_h
    let s := phytium_chan_iowrite32 s DMA_LENGTH desc.dma_len
    let val := phytium_chan_ioread32 s DMA_CONTROL
    let val := val ||| desc.dma_ctrl
    let val := val ||| (DMA_CTRL_COND_LEN ||| DMA_CTRL_COND_EOP ||| DMA_CTRL_COND_ERR)
    let s := phytium_chan_iowrite32 s DMA_CONTROL val
    let irq_mask := DMA_CTRL_IRQ_END ||| DMA_CTRL_IRQ_EOP ||| DMA_CTRL_IRQ_ERR
    let s := phytium_chan_irq_set s irq_mask
    let s := phytium_chan_enable s
    { s with chan.hw_active := s.chan.hw_active ++ [desc] }

/-! ## The queue-helper library (drivers/dma/virt-dma.h, drivers/dma/dmaengine.h) -/

/-- Modelled from the spec: `spin_lock_irqsave(&chan->vc.lock, flags)`, taking the
mutual-exclusion lock of the channel: the lock is recorded as held. -/
def spin_lock_irqsave (s : chan_state) : chan_state :=
  { s with chan.vc.lock := true }

/-- Modelled from the spec: `spin_unlock_irqrestore(&chan->vc.lock, flags)`, releasing
the lock of the channel. -/
def spin_unlock_irqrestore (s : chan_state) : chan_state :=
  { s with chan.vc.lock := false }

/-- Modelled from the spec: the constant `DMA_MIN_COOKIE` of include/linux/dmaengine.h,
the smallest valid cookie. -/
def DMA_MIN_COOKIE : Int := 1

/-- Modelled from the spec: `dma_cookie_assign` (cookie assignment of the queue-helper
library, drivers/dma/dmaengine.h): the next cookie of a signed 32-bit counter,
restarting at `DMA_MIN_COOKIE` when it would leave the positive range. -/
def dma_cookie_assign (vc : virt_dma_chan) : Int :=
  let cookie := if vc.cookie + 1 > 0x7FFFFFFF then vc.cookie + 1 - 2 ^ 32 else vc.cookie + 1
  if cookie < DMA_MIN_COOKIE then DMA_MIN_COOKIE else cookie

/-- Modelled from the spec: `vchan_tx_prep` (virt-dma.h): records the flags and adds
the descriptor at the tail of `desc_allocated` under the channel lock; returns the
descriptor handle. -/
def vchan_tx_prep (s : chan_state) (vd : phytium_dma_desc) (tx_flags : Nat) :
    Option phytium_dma_desc × chan_state :=
  let vd := { vd with flags := tx_flags }
  let s := spin_lock_irqsave s
  let s := { s with chan.vc.desc_allocated := s.chan.vc.desc_allocated ++ [vd] }
  let s := spin_unlock_irqrestore s
  (some vd, s)

/-- Modelled from the spec: `vchan_tx_submit` (virt-dma.c), the `tx_submit` method of
a prepared descriptor, here the one at index `i` of `desc_allocated`: assigns the
next cookie and moves the descriptor to the tail of `desc_submitted`. -/
def vchan_tx_submit (s : chan_state) (i : Nat) : Int × chan_state :=
  match s.chan.vc.desc_allocated[i]? with
  | none => (0, s)
  | some vd =>
    let s := spin_lock_irqsave s
    let cookie := dma_cookie_assign s.chan.vc
    let vd := { vd with cookie := cookie }
    let s := { s with chan.vc.cookie := cookie }
    let s := { s with chan.vc.desc_allocated := s.chan.vc.desc_allocated.eraseIdx i }
    let s := { s with chan.vc.desc_submitted := s.chan.vc.desc_submitted ++ [vd] }
    let s := spin_unlock_irqrestore s
    (cookie, s)

/-- Modelled from the spec: `vchan_issue_pending` (virt-dma.h): splices
`desc_submitted` onto the tail of `desc_issued` and tells whether `desc_issued` is
non-empty. -/
def vchan_issue_pending (vc : virt_dma_chan) : Bool × virt_dma_chan :=
  let vc := { vc with desc_issued := vc.desc_issued ++ vc.desc_submitted, desc_submitted := [] }
  (!vc.desc_issued.isEmpty, vc)

/-- Modelled from the spec: `vchan_next_desc` (virt-dma.h): the first entry of
`desc_issued`, or NULL. -/
def vchan_next_desc (vc : virt_dma_chan) : Option phytium_dma_desc :=
  vc.desc_issued.head?

/-- Modelled from the spec: `vchan_cookie_complete` (virt-dma.h) for a descriptor
already unlinked from its list: `dma_cookie_complete` records its cookie as the last
completed one and clears the cookie of the descriptor, which is then added at the
tail of `desc_completed` for the completion tasklet. -/
def vchan_cookie_complete (vc : virt_dma_chan) (vd : phytium_dma_desc) : virt_dma_chan :=
  let vc := { vc with completed_cookie := vd.cookie }
  let vd := { vd with cookie := 0 }
  { vc with desc_completed := vc.desc_completed ++ [vd] }

/-- Modelled from the spec: `vchan_get_all_descriptors` (virt-dma.h): splices every
descriptor list of the channel onto `head`, leaving the lists empty. -/
def vchan_get_all_descriptors (vc : virt_dma_chan) (head : List phytium_dma_desc) :
    List phytium_dma_desc × virt_dma_chan :=
  (head ++ vc.desc_allocated ++ vc.desc_submitted ++ vc.desc_issued ++ vc.desc_completed,
   { vc with desc_allocated := [], desc_submitted := [], desc_issued := [],
             desc_completed := [] })

/-- Modelled from the spec: `vchan_dma_desc_free_list` (virt-dma.c): unlinks every
descriptor of `head` and hands it to the `desc_free` callback
(`phytium_vchan_desc_put`, which frees it); the channel lists are not touched. -/
def vchan_dma_desc_free_list (vc : virt_dma_chan) (_head : List phytium_dma_desc) :
    virt_dma_chan := vc

/-- Modelled from the spec: the completion tasklet `vchan_complete` (virt-dma.c):
takes every descriptor off `desc_completed`, runs its callback and frees it. -/
def vchan_complete (s : chan_state) : chan_state :=
  let s := spin_lock_irqsave s
  let s := { s with chan.vc.desc_completed := [] }
  spin_unlock_irqrestore s

/-- Modelled from the spec: the values of `enum dma_status` that `dma_cookie_status`
returns. -/
inductive dma_status where
  | DMA_COMPLETE
  | DMA_IN_PROGRESS
deriving DecidableEq, Repr

/-- Modelled from the spec: `dma_async_is_complete` (include/linux/dmaengine.h). -/
def dma_async_is_complete (cookie last_complete last_used : Int) : dma_status :=
  if last_complete ≤ last_used then
    if cookie ≤ last_complete ∨ cookie > last_used then dma_status.DMA_COMPLETE
    else dma_status.DMA_IN_PROGRESS
  else
    if cookie ≤ last_complete ∧ cookie > last_used then dma_status.DMA_COMPLETE
    else dma_status.DMA_IN_PROGRESS

/-- Modelled from the spec: `dma_cookie_status` (drivers/dma/dmaengine.h). -/
def dma_cookie_status (vc : virt_dma_chan) (cookie : Int) : dma_status :=
  let used := vc.cookie
  let complete := vc.completed_cookie
  dma_async_is_complete cookie complete used

/-! ## Channel operations -/

def phytium_chan_start_first_queued (s : chan_state) : chan_state :=
  match vchan_next_desc s.chan.vc with
  | none => s
  | some desc => phytium_chan_block_xfer_start s desc

def phytium_dma_tx_status (s : chan_state) (cookie : Int) : dma_status :=
  dma_cookie_status s.chan.vc cookie

def phytium_dma_issue_pending (s : chan_state) : chan_state :=
  let s := spin_lock_irqsave s
  let r := vchan_issue_pending s.chan.vc
  let s := { s with chan.vc := r.2 }
  let s := if r.1 && s.chan.is_idle then phytium_chan_start_first_queued s else s
  spin_unlock_irqrestore s

def phytium_dma_terminate_all (s : chan_state) : Int × chan_state :=
  let s := spin_lock_irqsave s
  let s := phytium_chan_disable s
  let r := vchan_get_all_descriptors s.chan.vc []
  let s := { s with chan.vc := r.2 }
  let s := { s with chan.vc := vchan_dma_desc_free_list s.chan.vc r.1 }
  let s := spin_unlock_irqrestore s
  (0, s)

def phytium_dma_slave_config (s : chan_state) (sconfig : dma_slave_config) : Int × chan_state :=
  if !is_slave_direction sconfig.direction then (-22, s)
  else (0, { s with chan.dma_sconfig := sconfig })

def phytium_dma_alloc_chan_resources (s : chan_state) : Int × chan_state :=
  if s.chan.is_used then (-16, s)
  else
    let s := { s with chan.is_used := true }
    let s := { s with chan.releasing := 0 }
    (0, s)

/-- Modelled from the spec: `vchan_free_chan_resources` (virt-dma.h): takes every
descriptor off the channel lists under the lock and frees it. -/
def vchan_free_chan_resources (s : chan_state) : chan_state :=
  let s := spin_lock_irqsave s
  let r := vchan_get_all_descriptors s.chan.vc []
  let s := { s with chan.vc := r.2 }
  let s := spin_unlock_irqrestore s
  { s with chan.vc := vchan_dma_desc_free_list s.chan.vc r.1 }

def phytium_dma_free_chan_resources (s : chan_state) : chan_state :=
  let s := { s with chan.releasing := 1 }
  let s := phytium_chan_disable s
  let s := phytium_chan_irq_disable s (DMA_CTRL_IRQ_MASK 0xF)
  let s := vchan_free_chan_resources s
  { s with chan.is_used := false }

/-! ## Descriptor builder -/

/-- The routine `phytium_dma_prep_dma_memcpy`. `hdata` is `chan->chip->hdata` (its `block_size`
entries are `u32`), `kmalloc_ok` the outcome of the allocation in
`phytium_desc_get`. The result is the returned handle (`none` for NULL) and the
channel afterwards. -/
def phytium_dma_prep_dma_memcpy (hdata : phytium_dma_hcfg) (s : chan_state)
    (dst_adr src_adr len flags : Nat) (kmalloc_ok : Bool) :
    Option phytium_dma_desc × chan_state :=
  let sconfig := s.chan.dma_sconfig
  let max_block_ts := hdata.block_size s.chan.id % 2 ^ 32
  if len > max_block_ts then (none, s)
  else
    let xfer_len := len
    let block_ts := xfer_len >>> DMA_SLAVE_BUSWIDTH_4_BYTES
    let xfer_len := (block_ts <<< DMA_SLAVE_BUSWIDTH_4_BYTES) % 2 ^ 64
    match phytium_desc_get kmalloc_ok with
    | none => (none, s)
    | some desc =>
      let params : Option (Nat × Nat) :=
        match sconfig.direction with
        | DMA_MEM_TO_DEV => some (DMA_SRCP_SRC_ID 0, DMA_DESTP_DEST_ID 5)
        | DMA_DEV_TO_MEM => some (DMA_SRCP_SRC_ID 5, DMA_DESTP_DEST_ID 0)
        | _ => none
      match params with
      | none => (none, s)
      | some (srcparam, destparam) =>
        let desc := { desc with dma_srcparam := srcparam, dma_destparam := destparam }
        let desc := { desc with dma_ctrl := desc.dma_ctrl ||| DMA_CTRL_SG_EN }
        let desc := { desc with dma_ctrl := desc.dma_ctrl ||| DMA_CTRL_SG_TYPE 0 }
        let desc := { desc with dma_ctrl := desc.dma_ctrl ||| DMA_CTRL_SG_ID 0 }
        let desc := { desc with dma_ctrl := desc.dma_ctrl ||| DMA_CTRL_SG2_ID 0 }
        let desc := { desc with dma_ctrl := desc.dma_ctrl ||| DMA_CTRL_IRQ_ID 0 }
        let desc := { desc with dma_srcaddr_l := src_adr &&& 0xFFFFFFFF }
        let desc := { desc with dma_srcaddr_h := (src_adr >>> 32) &&& 0xFFFFFFFF }
        let desc := { desc with dma_destaddr_l := dst_adr &&& 0xFFFFFFFF }
        let desc := { desc with dma_destaddr_h := (dst_adr >>> 32) &&& 0xFFFFFFFF }
        let desc := { desc with dma_len := xfer_len % 2 ^ 32 }
        vchan_tx_prep s desc flags

/-- The size in bytes of the packed `struct phytium_chan_desc` (eight `u32`). -/
def sizeof_phytium_chan_desc : Nat := 32

/-- The size passed to `kzalloc` for the chain,
`(sg_len + 1) * sizeof(struct phytium_chan_desc)`: `sg_len + 1` is computed in
`unsigned int` (it wraps to 0 at `sg_len = 0xFFFFFFFF`) and the product in `size_t`. -/
def chain_alloc_size (sg_len : Nat) : Nat :=
  (((sg_len + 1) % 2 ^ 32) * sizeof_phytium_chan_desc) % 2 ^ 64

/-- The entry `chan_desc[i]` before the loop writes it: zero inside the
`chain_alloc_size sg_len` bytes obtained from `kzalloc` at `kz`, and whatever the
memory held (`mem`, by address) outside of them. -/
def chain_entry_before (mem : Nat → phytium_chan_desc) (kz sg_len addr : Nat) :
    phytium_chan_desc :=
  if kz ≤ addr ∧ addr + sizeof_phytium_chan_desc ≤ kz + chain_alloc_size sg_len then
    { desc_status := 0, desc_control := 0, desc_next_addr_l := 0, desc_next_addr_h := 0,
      desc_src_addr_l := 0, desc_src_addr_h := 0, desc_dst_addr_l := 0, desc_dst_addr_h := 0 }
  else mem addr

/-- The body of the `for_each_sg` loop of `phytium_dma_prep_slave_sg` for entry `i`:
the chain entry written for `sg`, or `none` on the path that leaves through
`err_desc_get`. `e` is the entry as found in memory. -/
def sg_entry (virt_to_phys : Nat → Nat) (chan_desc : Nat)
    (direction : dma_transfer_direction) (e : phytium_chan_desc) (i : Nat) (sg : scatterlist) :
    Option phytium_chan_desc :=
  let e : Option phytium_chan_desc :=
    if direction = DMA_MEM_TO_DEV then
      some { e with desc_src_addr_l := sg_dma_address sg &&& 0xFFFFFFFF,
                    desc_src_addr_h := (sg_dma_address sg >>> 32) &&& 0xFFFFFFFF }
    else if direction = DMA_DEV_TO_MEM then
      some { e with desc_dst_addr_l := sg_dma_address sg &&& 0xFFFFFFFF,
                    desc_dst_addr_h := (sg_dma_address sg >>> 32) &&& 0xFFFFFFFF }
    else none
  match e with
  | none => none
  | some e =>
    let e := { e with desc_control := 0 }
    let e := { e with desc_control := e.desc_control ||| (sg_dma_len sg <<< 8) % 2 ^ 32 }
    if sg_is_last sg then
      let e := { e with desc_next_addr_l := 0x01 }
      let e := { e with desc_next_addr_h := 0 }
      some { e with desc_control := e.desc_control ||| (0x03 <<< 4) }
    else
      let next := virt_to_phys (chan_desc + (i + 1) * sizeof_phytium_chan_desc)
      let e := { e with desc_next_addr_l := next &&& 0xFFFFFFFF }
      let e := { e with desc_next_addr_l := e.desc_next_addr_l ||| (0x01 <<< 4) }
      let e := { e with desc_next_addr_l := e.desc_next_addr_l ||| 0x02 }
      some { e with desc_next_addr_h := (next >>> 32) &&& 0xFFFFFFFF }

/-- The `for_each_sg(sgl, sg, sg_len, i)` loop of `phytium_dma_prep_slave_sg`. The
cursor `sg` is the rest of the scatterlist array (`[]` is the NULL cursor, which
`sg_next` yields after the entry carrying the end mark), `n` the iterations left.
Returns the entries written from index `i` on and the updated `total_len`
(a `size_t`), or `none` on the path that leaves through `err_desc_get`. -/
def sg_loop (virt_to_phys : Nat → Nat) (mem : Nat → phytium_chan_desc) (kz sg_len : Nat)
    (chan_desc : Nat) (direction : dma_transfer_direction) :
    List scatterlist → Nat → Nat → Nat → Option (List phytium_chan_desc × Nat)
  | _, 0, _, total_len => some ([], total_len)
  | [], _ + 1, _, total_len => some ([], total_len)
  | sg :: rest, n + 1, i, total_len =>
    let before := chain_entry_before mem kz sg_len (chan_desc + i * sizeof_phytium_chan_desc)
    match sg_entry virt_to_phys chan_desc direction before i sg with
    | none => none
    | some e =>
      let total_len := (total_len + sg_dma_len sg) % 2 ^ 64
      let next := if sg_is_last sg then [] else rest
      match sg_loop virt_to_phys mem kz sg_len chan_desc direction next n (i + 1) total_len with
      | none => none
      | some (es, total) => some (e :: es, total)

/-- The routine `phytium_dma_prep_slave_sg`. `virt_to_phys` is the kernel address translation,
`kmalloc_ok` the outcome of the allocation in `phytium_desc_get`, `kz` the address
returned by `kzalloc` for the chain (0 for NULL) and `mem` the memory around it.
The result is the returned handle (`none` for NULL) and the channel afterwards. -/
def phytium_dma_prep_slave_sg (virt_to_phys : Nat → Nat) (mem : Nat → phytium_chan_desc)
    (s : chan_state) (sgl : List scatterlist) (sg_len : Nat)
    (direction : dma_transfer_direction) (flags : Nat) (kmalloc_ok : Bool) (kz : Nat) :
    Option phytium_dma_desc × chan_state :=
  let sconfig := s.chan.dma_sconfig
  if !is_slave_direction direction || sg_len = 0 then (none, s)
  else if s.chan.releasing ≠ 0 then (none, s)
  else
    match phytium_desc_get kmalloc_ok with
    | none => (none, s)
    | some desc =>
      if kz = 0 then (none, s)
      else
        let desc := { desc with cdesc := kz }
        let offset := kz &&& 0x1F
        let chan_desc :=
          if offset ≠ 0 then (kz + (32 - offset) * sizeof_phytium_chan_desc) % 2 ^ 64 else kz
        match sg_loop virt_to_phys mem kz sg_len chan_desc direction sgl sg_len 0 0 with
        | none => (none, s)
        | some (chain, total_len) =>
          let desc := { desc with chain_base := chan_desc, chain := chain }
          let built : Option phytium_dma_desc :=
            match direction with
            | DMA_MEM_TO_DEV =>
              some { desc with
                dma_srcparam := DMA_SRCP_SRC_ID 0
                dma_destparam := DMA_DESTP_DEST_ID 5
                dma_ctrl := desc.dma_ctrl ||| DMA_CTRL_SG_TYPE 1
                dma_srcaddr_l := virt_to_phys chan_desc &&& 0xFFFFFFFF
                dma_srcaddr_h := (virt_to_phys chan_desc >>> 32) &&& 0xFFFFFFFF
                dma_destaddr_l := sconfig.dst_addr &&& 0xFFFFFFFF
                dma_destaddr_h := (sconfig.dst_addr >>> 32) &&& 0xFFFFFFFF }
            | DMA_DEV_TO_MEM =>
              some { desc with
                dma_srcparam := DMA_SRCP_SRC_ID 5
                dma_destparam := DMA_DESTP_DEST_ID 0
                dma_ctrl := desc.dma_ctrl ||| DMA_CTRL_SG_TYPE 2
                dma_srcaddr_l := sconfig.src_addr &&& 0xFFFFFFFF
                dma_srcaddr_h := (sconfig.src_addr >>> 32) &&& 0xFFFFFFFF
                dma_destaddr_l := virt_to_phys chan_desc &&& 0xFFFFFFFF
                dma_destaddr_h := (virt_to_phys chan_desc >>> 32) &&& 0xFFFFFFFF }
            | _ => none
          match built with
          | none => (none, s)
          | some desc =>
            let desc := { desc with dma_ctrl := desc.dma_ctrl ||| DMA_CTRL_SG_EN }
            let desc := { desc with dma_ctrl := desc.dma_ctrl ||| DMA_CTRL_SG_ID 0 }
            let desc := { desc with dma_ctrl := desc.dma_ctrl ||| DMA_CTRL_SG2_ID 0 }
            let desc := { desc with dma_ctrl := desc.dma_ctrl ||| DMA_CTRL_IRQ_ID 0 }
            let desc := { desc with dma_len := total_len % 2 ^ 32 }
            vchan_tx_prep s desc flags

/-! ## Interrupt dispatch -/

/-- The part of the two completion routines after the lock is taken: mark the
channel idle, stop a still running engine, retire the head of the issued list and
start the next queued descriptor. The result tells whether the end of the routine
was reached (`false` on the early returns). -/
def phytium_chan_block_xfer_complete (s : chan_state) : Bool × chan_state :=
  let s := { s with chan.is_idle := true }
  let s := if phytium_chan_is_running s then phytium_chan_disable s else s
  match vchan_next_desc s.chan.vc with
  | none => (false, s)
  | some vd =>
    let s := { s with chan.vc.desc_issued := s.chan.vc.desc_issued.tail }
    let s := { s with chan.vc := vchan_cookie_complete s.chan.vc vd }
    (true, phytium_chan_start_first_queued s)

/-- The routine `phytium_chan_block_xfer_complete_msi`; runs under the lock taken by
`phytium_dma_interrupt_msi`. -/
def phytium_chan_block_xfer_complete_msi (s : chan_state) : chan_state :=
  (phytium_chan_block_xfer_complete s).2

/-- The routine `phytium_chan_block_xfer_complete_intx`: takes the channel lock itself and
releases it only at the end of the routine. -/
def phytium_chan_block_xfer_complete_intx (s : chan_state) : chan_state :=
  let s := spin_lock_irqsave s
  let r := phytium_chan_block_xfer_complete s
  if r.1 then spin_unlock_irqrestore r.2 else r.2

/-- The test `(chan_status & DMA_STAT_END) | (chan_status & DMA_STAT_EOP) |
(chan_status & DMA_STAT_EOC)` of the two handlers. -/
def chan_status_done (chan_status : Nat) : Bool :=
  ((chan_status &&& DMA_STAT_END) ||| (chan_status &&& DMA_STAT_EOP) |||
    (chan_status &&& DMA_STAT_EOC)) ≠ 0

/-- The routine `phytium_dma_interrupt_msi`, the vectored handler of one channel. -/
def phytium_dma_interrupt_msi (s : chan_state) : Nat × chan_state :=
  let irq_mask := 0xffff
  let mask := DMA_CTRL_IRQ_END ||| DMA_CTRL_IRQ_EOP ||| DMA_CTRL_IRQ_ERR
  let s := spin_lock_irqsave s
  let chan_status := phytium_chan_status_read s
  let irq_status := phytium_dma_irq_read s.regs
  let quirk : Bool := (irq_status &&& irq_mask) = 0
  if quirk && !(((chan_status &&& DMA_STAT_END) ||| (chan_status &&& DMA_STAT_EOP) |||
      (chan_status &&& DMA_STAT_EOC) ||| (chan_status &&& DMA_STAT_ERR)) ≠ 0) then
    (IRQ_NONE, s)
  else
    let irq_status := if quirk then phytium_dma_irq_read s.regs else irq_status
    let s := { s with regs := phytium_dma_irq_disable s.regs }
    let s := phytium_chan_irq_disable s mask
    let s := phytium_chan_irq_clear s mask
    let s := { s with regs := phytium_dma_irq_clear s.regs irq_status }
    let s :=
      if (chan_status &&& DMA_STAT_ERR) ≠ 0 then s
      else if chan_status_done chan_status then phytium_chan_block_xfer_complete_msi s
      else s
    let s := { s with regs := phytium_dma_irq_enable s.regs }
    let s := spin_unlock_irqrestore s
    (IRQ_HANDLED, s)

/-- The body of the channel loop of `phytium_dma_interrupt_intx` for one channel
whose status bit is set. -/
def phytium_dma_interrupt_intx_chan (s : chan_state) : chan_state :=
  let mask := DMA_CTRL_IRQ_END ||| DMA_CTRL_IRQ_EOP ||| DMA_CTRL_IRQ_ERR
  let chan_status := phytium_chan_status_read s
  let s := phytium_chan_irq_disable s mask
  let s :=
    if (chan_status &&& DMA_STAT_ERR) ≠ 0 then s
    else if chan_status_done chan_status then phytium_chan_block_xfer_complete_intx s
    else s
  phytium_chan_irq_set s mask

/-! ## Chip-level operations -/

/-- Runs a channel routine on `chip->dmac->chan[i]` with the register file of the
chip; an index outside the channel array leaves the chip as it is. -/
def chip_on_chan (chip : phytium_dma_chip) (i : Nat) (f : chan_state → chan_state) :
    phytium_dma_chip :=
  match chip.chan[i]? with
  | none => chip
  | some c =>
    let s := f { chan := c, regs := chip.regs }
    { chip with regs := s.regs, chan := chip.chan.set i s.chan }

/-- The view of `chip->dmac->chan[i]` as a channel with the register file. -/
def chip_chan (chip : phytium_dma_chip) (i : Nat) : Option chan_state :=
  match chip.chan[i]? with
  | none => none
  | some c => some { chan := c, regs := chip.regs }

/-- The body of the channel loop of `phytium_dma_hw_init` for channel `i`. -/
def phytium_dma_hw_init_chan (chip : phytium_dma_chip) (i : Nat) : phytium_dma_chip :=
  let chip := chip_on_chan chip i (fun s => phytium_chan_irq_disable s (DMA_CTRL_IRQ_MASK 0xF))
  chip_on_chan chip i phytium_chan_disable

def phytium_dma_hw_init (chip : phytium_dma_chip) : phytium_dma_chip :=
  (List.range chip.hdata.nr_channels).foldl phytium_dma_hw_init_chan chip

/-- One round of the channel loop of `phytium_dma_interrupt_intx`: channel `i` is
skipped unless bit `i` or bit `i + 8` of the chip status is set. -/
def phytium_dma_interrupt_intx_poll (irq_status : Nat) (chip : phytium_dma_chip) (i : Nat) :
    phytium_dma_chip :=
  if (irq_status &&& BIT i) = 0 ∧ (irq_status &&& BIT (i + 8)) = 0 then chip
  else chip_on_chan chip i phytium_dma_interrupt_intx_chan

/-- The routine `phytium_dma_interrupt_intx`, the shared-line handler of the chip. -/
def phytium_dma_interrupt_intx (chip : phytium_dma_chip) : Nat × phytium_dma_chip :=
  let irq_status := phytium_dma_irq_read chip.regs
  let irq_status := irq_status &&& 0xffff
  let irq_mask := phytium_dma_irq_mask_read chip.regs
  if (irq_status &&& irq_mask) = 0 then (IRQ_NONE, chip)
  else
    let chip := { chip with regs := phytium_dma_irq_disable chip.regs }
    let chip := { chip with regs := phytium_dma_irq_clear chip.regs irq_status }
    let chip := (List.range chip.hdata.nr_channels).foldl
      (phytium_dma_interrupt_intx_poll irq_status) chip
    let chip := { chip with regs := phytium_dma_irq_enable chip.regs }
    (IRQ_HANDLED, chip)

/-- The configuration table `phytium_octopus_dma_hdata`; array entries without an
initialiser are zero. -/
def phytium_octopus_dma_hdata : phytium_dma_hcfg :=
  { nr_channels := 4
    nr_masters := 1
    m_data_width := DMA_SLAVE_BUSWIDTH_4_BYTES
    block_size := fun i => if i = 0 then 0x2000000 else if i = 1 then 0x2000000 else 0
    priority := fun i => if i = 0 then 0 else if i = 1 then 1 else 0
    axi_rw_burst_len := 0
    restrict_axi_burst_len := false }

/-- The routine `phytium_pci_prepare`: the suspend-prepare callback. -/
def phytium_pci_prepare (chip : phytium_dma_chip) : Int × phytium_dma_chip :=
  let chip := phytium_dma_hw_init chip
  if (List.range chip.hdata.nr_channels).any
      (fun i => match chip_chan chip i with
        | none => false
        | some s => phytium_chan_is_running s) then
    (-1, chip)
  else (0, chip)

def phytium_pci_suspend_late (chip : phytium_dma_chip) : Int × phytium_dma_chip :=
  (0, phytium_dma_hw_init chip)

def phytium_pci_resume_early (chip : phytium_dma_chip) : Int × phytium_dma_chip :=
  (0, phytium_dma_hw_init chip)

/-- The state `phytium_dma_probe` gives channel `i`: not in use, idle, not paused,
with the lists and cookie counters set up by `vchan_init`. -/
def probe_chan (i : Nat) : phytium_dma_chan :=
  { id := i
    releasing := 0
    vc := { cookie := DMA_MIN_COOKIE, completed_cookie := DMA_MIN_COOKIE, lock := false,
            desc_allocated := [], desc_submitted := [], desc_issued := [],
            desc_completed := [] }
    dma_sconfig := { direction := DMA_MEM_TO_MEM, src_addr := 0, dst_addr := 0 }
    is_used := false
    is_idle := true
    is_paused := false
    hw_active := [] }

/-! ## Observations and the channel transition system -/

/-- The start bit of the channel as stored in the register file. -/
def start_bit (s : chan_state) : Bool :=
  (s.regs (s.chan.id * CHAN_REG_LEN + DMA_CONTROL)).testBit 0

/-- A move of the hardware: the device may rewrite any register (status, progress,
the start bit when a transfer ends); once the start bit is clear the engine holds no
descriptor. -/
def hw_move (s : chan_state) (regs : Regs) : chan_state :=
  let t : chan_state := { s with regs := regs }
  if start_bit t then t else { t with chan.hw_active := [] }

/-- One step of a channel: a call of a driver entry point by the client, an
interrupt handler (the vectored one, or the shared-line one servicing this channel),
the completion tasklet, or a move of the hardware. -/
inductive chan_step : chan_state → chan_state → Prop where
  | slave_config (s : chan_state) (c : dma_slave_config) :
      chan_step s (phytium_dma_slave_config s c).2
  | prep_memcpy (s : chan_state) (hdata : phytium_dma_hcfg) (dst src len flags : Nat)
      (ok : Bool) :
      chan_step s (phytium_dma_prep_dma_memcpy hdata s dst src len flags ok).2
  | prep_slave_sg (s : chan_state) (v2p : Nat → Nat) (mem : Nat → phytium_chan_desc)
      (sgl : List scatterlist) (sg_len : Nat) (dir : dma_transfer_direction) (flags : Nat)
      (ok : Bool) (kz : Nat) :
      chan_step s (phytium_dma_prep_slave_sg v2p mem s sgl sg_len dir flags ok kz).2
  | submit (s : chan_state) (i : Nat) : chan_step s (vchan_tx_submit s i).2
  | issue_pending (s : chan_state) : chan_step s (phytium_dma_issue_pending s)
  | terminate_all (s : chan_state) : chan_step s (phytium_dma_terminate_all s).2
  | interrupt_msi (s : chan_state) : chan_step s (phytium_dma_interrupt_msi s).2
  | interrupt_intx (s : chan_state) : chan_step s (phytium_dma_interrupt_intx_chan s)
  | tasklet (s : chan_state) : chan_step s (vchan_complete s)
  | alloc_chan_resources (s : chan_state) :
      chan_step s (phytium_dma_alloc_chan_resources s).2
  | free_chan_resources (s : chan_state) : chan_step s (phytium_dma_free_chan_resources s)
  | hw (s : chan_state) (regs : Regs) : chan_step s (hw_move s regs)

/-- The states a channel can reach from the state probe leaves it in (software state
`probe_chan i`, start bit cleared by `phytium_dma_hw_init`). -/
inductive chan_reachable : chan_state → Prop where
  | probe (i : Nat) (regs : Regs)
      (h : phytium_chan_is_running { chan := probe_chan i, regs := regs } = false) :
      chan_reachable { chan := probe_chan i, regs := regs }
  | step (s t : chan_state) (hs : chan_reachable s) (ht : chan_step s t) : chan_reachable t

/-- At most one descriptor is held by the engine, and none once the start bit is
clear. -/
def one_active (s : chan_state) : Prop :=
  s.chan.hw_active.length ≤ 1 ∧ (phytium_chan_is_running s = false → s.chan.hw_active = [])

/-- The routine `f` leaves the start bit and the engine record as they are. -/
def keeps_hw (f : chan_state → chan_state) : Prop :=
  ∀ s, start_bit (f s) = start_bit s ∧ (f s).chan.hw_active = s.chan.hw_active ∧
    (f s).chan.id = s.chan.id

/-- The transfer registers of the channel read back the fields of `d`. -/
def regs_hold (s : chan_state) (d : phytium_dma_desc) : Prop :=
  phytium_chan_ioread32 s DMA_SRCPARAM = d.dma_srcparam % 2 ^ 32 ∧
  phytium_chan_ioread32 s DMA_DESTPARAM = d.dma_destparam % 2 ^ 32 ∧
  phytium_chan_ioread32 s DMA_SRCADDR_L = d.dma_srcaddr_l % 2 ^ 32 ∧
  phytium_chan_ioread32 s DMA_SRCADDR_H = d.dma_srcaddr_h % 2 ^ 32 ∧
  phytium_chan_ioread32 s DMA_DESTADDR_L = d.dma_destaddr_l % 2 ^ 32 ∧
  phytium_chan_ioread32 s DMA_DESTADDR_H = d.dma_destaddr_h % 2 ^ 32 ∧
  phytium_chan_ioread32 s DMA_LENGTH = d.dma_len % 2 ^ 32

/-- The descriptor as `dma_cookie_complete` leaves it: its cookie cleared. -/
def retired (d : phytium_dma_desc) : phytium_dma_desc := { d with cookie := 0 }

/-- The channel status read by a handler reports a completion and no error. -/
def reports_completion (s : chan_state) : Prop :=
  (phytium_chan_status_read s &&& DMA_STAT_ERR) = 0 ∧
  chan_status_done (phytium_chan_status_read s) = true

/-- A run of completion interrupts on the vectored line: before each interrupt the
hardware leaves the register file `r`, then `phytium_dma_interrupt_msi` runs. -/
def msi_run : List Regs → chan_state → chan_state
  | [], s => s
  | r :: rs, s => msi_run rs (phytium_dma_interrupt_msi (hw_move s r)).2

/-- Every register file of the run reports a completion without error in the status
register of channel `id`. -/
def all_report_completion (id : Nat) : List Regs → Prop
  | [] => True
  | r :: rs =>
    ((ioread32 (id * CHAN_REG_LEN + DMA_STATUS) r &&& DMA_STAT_ERR) = 0 ∧
      chan_status_done (ioread32 (id * CHAN_REG_LEN + DMA_STATUS) r) = true) ∧
    all_report_completion id rs

/-- The channel has `l` on its issued list with the head of `l` (if any) programmed
and started, and nothing submitted but not yet issued. -/
def head_started (t : chan_state) (l : List phytium_dma_desc) : Prop :=
  t.chan.vc.desc_issued = l ∧
  t.chan.vc.desc_submitted = [] ∧
  t.chan.hw_active = l.take 1 ∧
  phytium_chan_is_running t = !decide (l = []) ∧
  t.chan.is_idle = decide (l = []) ∧
  (∀ d, l.head? = some d → regs_hold t d)

/-- First half of the completion routine: mark the channel idle and stop an engine
that is still running. -/
def xfer_stop (s : chan_state) : chan_state :=
  let s := { s with chan.is_idle := true }
  if phytium_chan_is_running s then phytium_chan_disable s else s

/-- Second half of the completion routine: retire the head of the issued list and
start the next queued descriptor. -/
def xfer_retire (s : chan_state) : Bool × chan_state :=
  match vchan_next_desc s.chan.vc with
  | none => (false, s)
  | some vd =>
    let s := { s with chan.vc.desc_issued := s.chan.vc.desc_issued.tail }
    let s := { s with chan.vc := vchan_cookie_complete s.chan.vc vd }
    (true, phytium_chan_start_first_queued s)

/-- The effect of one completion on the queue of a channel, from `u` to `t`: the head
of the issued list is retired to the completed list with its cookie recorded as
completed, the next issued descriptor (if any) is the one programmed and started,
and the descriptors behind it stay issued. -/
def retires_head (u t : chan_state) : Prop :=
  t.chan.vc.desc_issued = u.chan.vc.desc_issued.tail ∧
  t.chan.vc.desc_completed =
    u.chan.vc.desc_completed ++ (u.chan.vc.desc_issued.take 1).map retired ∧
  t.chan.hw_active = (u.chan.vc.desc_issued.drop 1).take 1 ∧
  t.chan.vc.desc_submitted = u.chan.vc.desc_submitted ∧
  t.chan.vc.desc_allocated = u.chan.vc.desc_allocated ∧
  t.chan.vc.cookie = u.chan.vc.cookie ∧
  t.chan.id = u.chan.id ∧
  (∀ d rest, u.chan.vc.desc_issued = d :: rest → t.chan.vc.completed_cookie = d.cookie) ∧
  (u.chan.vc.desc_issued = [] → t.chan.vc.completed_cookie = u.chan.vc.completed_cookie) ∧
  t.chan.is_idle = decide (u.chan.vc.desc_issued.drop 1 = []) ∧
  phytium_chan_is_running t = !decide (u.chan.vc.desc_issued.drop 1 = []) ∧
  (∀ d, (u.chan.vc.desc_issued.drop 1).head? = some d → regs_hold t d)

/-- The queue, the cookie counters, the idle flag and the engine record of `b` are
those of `a`. -/
def same_queue (a b : chan_state) : Prop :=
  b.chan.vc.desc_issued = a.chan.vc.desc_issued ∧
  b.chan.vc.desc_completed = a.chan.vc.desc_completed ∧
  b.chan.vc.desc_submitted = a.chan.vc.desc_submitted ∧
  b.chan.vc.desc_allocated = a.chan.vc.desc_allocated ∧
  b.chan.vc.cookie = a.chan.vc.cookie ∧
  b.chan.vc.completed_cookie = a.chan.vc.completed_cookie ∧
  b.chan.id = a.chan.id ∧
  b.chan.is_idle = a.chan.is_idle ∧
  b.chan.hw_active = a.chan.hw_active

/-- The start bit and the transfer registers of the channel read the same in `a`
and `b`. -/
def same_xfer_regs (a b : chan_state) : Prop :=
  phytium_chan_is_running b = phytium_chan_is_running a ∧
  ∀ r, DMA_SRCPARAM ≤ r → r < DMA_CONTROL →
    phytium_chan_ioread32 b r = phytium_chan_ioread32 a r

/-- The state in which `phytium_dma_interrupt_msi` classifies the channel status on
the path through the label `next`: lock taken, chip and channel interrupts disabled
and cleared. -/
def interrupt_msi_pre (s : chan_state) : chan_state :=
  let mask := DMA_CTRL_IRQ_END ||| DMA_CTRL_IRQ_EOP ||| DMA_CTRL_IRQ_ERR
  let s := spin_lock_irqsave s
  let irq_status := phytium_dma_irq_read s.regs
  let s := { s with regs := phytium_dma_irq_disable s.regs }
  let s := phytium_chan_irq_disable s mask
  let s := phytium_chan_irq_clear s mask
  { s with regs := phytium_dma_irq_clear s.regs irq_status }

/-! ## A concrete scenario: three memcpy descriptors on channel 0 -/

/-- The register file after reset: every register reads zero. -/
def reset_regs : Regs := fun _ => 0

/-- Channel 0 as probe leaves it. -/
def scen_probe : chan_state := { chan := probe_chan 0, regs := reset_regs }

/-- Channel 0 configured for memory-to-device transfers. -/
def scen_config : chan_state :=
  (phytium_dma_slave_config scen_probe
    { direction := DMA_MEM_TO_DEV, src_addr := 0, dst_addr := 0x28000000 }).2

/-- One memcpy of 4096 bytes prepared on `s` with the table `phytium_octopus_dma_hdata`
(max block size 0x2000000 on channel 0), from the `k`-th source page. -/
def scen_prep (s : chan_state) (k : Nat) : chan_state :=
  (phytium_dma_prep_dma_memcpy phytium_octopus_dma_hdata s 0x28000000
    (0x80000000 + k * 0x1000) 4096 0 true).2

/-- Three memcpy descriptors of 4096 bytes prepared. -/
def scen_prepared : chan_state := scen_prep (scen_prep (scen_prep scen_config 0) 1) 2

/-- The three descriptors submitted, in order. -/
def scen_submitted : chan_state :=
  (vchan_tx_submit (vchan_tx_submit (vchan_tx_submit scen_prepared 0).2 0).2 0).2

/-- After `issue_pending`. -/
def scen_issued : chan_state := phytium_dma_issue_pending scen_submitted

/-- The register file the hardware leaves when the transfer of channel 0 has ended:
start bit clear, status END, chip status bit 0. -/
def done_regs : Regs := fun a => if a = DMA_STATUS then 1 else if a = DMA_IRQ_STATUS then 1 else 0

/-- After one completion interrupt on the vectored line. -/
def scen_completed : chan_state := msi_run [done_regs] scen_issued

/-- The first descriptor terminated while in flight. -/
def scen_terminated : chan_state := (phytium_dma_terminate_all scen_issued).2

/-- A fourth memcpy prepared, submitted and issued after the terminate. -/
def scen_reissued : chan_state :=
  phytium_dma_issue_pending (vchan_tx_submit (scen_prep scen_terminated 3) 0).2

/-- The completion interrupt of the terminated transfer arriving afterwards. -/
def scen_stale : chan_state := (phytium_dma_interrupt_msi (hw_move scen_reissued done_regs)).2

/-- From `r1` to `r2` no register has gained bit 0. -/
def bit0_le (r1 r2 : Regs) : Prop :=
  ∀ a, (r2 a).testBit 0 = true → (r1 a).testBit 0 = true

/-- The channel ids of the channel array of the chip, in order. -/
def chan_ids (chip : phytium_dma_chip) : List Nat := chip.chan.map (fun c => c.id)

/-- The start bit of each of the first `k` channels of the chip is clear. -/
def all_stopped (chip : phytium_dma_chip) (k : Nat) : Prop :=
  ∀ i, i < k → ∀ x, (chan_ids chip)[i]? = some x →
    (chip.regs (x * CHAN_REG_LEN + DMA_CONTROL)).testBit 0 = false

/-- A chip with the four channels of probe whose channel 0 is running
(control register 1) when suspend-prepare is called. -/
def scen_chip_running : phytium_dma_chip :=
  { regs := fun a => if a = DMA_CONTROL then 1 else 0
    hdata := phytium_octopus_dma_hdata
    chan := [{ probe_chan 0 with is_idle := false }, probe_chan 1, probe_chan 2, probe_chan 3] }

/-- The register file the hardware leaves when the transfer of channel 0 failed:
status ERR (together with END), chip status bit 0, start bit still set. -/
def error_regs : Regs :=
  fun a => if a = DMA_STATUS then 9 else if a = DMA_IRQ_STATUS then 1
    else if a = DMA_CONTROL then 1 else 0

/-- The scenario with the first descriptor in flight when the hardware reports an
error. -/
def scen_error : chan_state := hw_move scen_issued error_regs

/-- The scatterlist entries the `for_each_sg` loop visits: at most `n`, stopping
after the entry that carries the end mark. -/
def sg_visited : List scatterlist → Nat → List scatterlist
  | _, 0 => []
  | [], _ + 1 => []
  | sg :: rest, n + 1 => sg :: sg_visited (if sg_is_last sg then [] else rest) n

/-- The end mark is on the last entry of the scatterlist and on no other. -/
def sg_end_marked : List scatterlist → Prop
  | [] => True
  | [sg] => sg.is_last = true
  | sg :: sg1 :: rest => sg.is_last = false ∧ sg_end_marked (sg1 :: rest)

/-- Two mapped segments of 2 GiB each, the second carrying the end mark. -/
def scen_sgl_2g : List scatterlist :=
  [{ dma_address := 0x100000000, dma_length := 0x80000000, is_last := false },
   { dma_address := 0x200000000, dma_length := 0x80000000, is_last := true }]

/-- Two mapped segments of 4096 and 512 bytes. -/
def scen_sgl : List scatterlist :=
  [{ dma_address := 0x80000000, dma_length := 4096, is_last := false },
   { dma_address := 0x80004000, dma_length := 512, is_last := true }]

/-- Chain memory as zero-filled memory. -/
def zero_mem : Nat → phytium_chan_desc := fun _ =>
  { desc_status := 0, desc_control := 0, desc_next_addr_l := 0, desc_next_addr_h := 0,
    desc_src_addr_l := 0, desc_src_addr_h := 0, desc_dst_addr_l := 0, desc_dst_addr_h := 0 }

/-- The descriptor `phytium_dma_prep_slave_sg` returns for `scen_sgl` on the
configured channel 0 (chain memory at 0x1000, identity address translation). -/
def scen_sg_desc : phytium_dma_desc :=
  match (phytium_dma_prep_slave_sg (fun a => a) zero_mem scen_config scen_sgl 2
      DMA_MEM_TO_DEV 0 true 0x1000).1 with
  | some d => d
  | none => { cookie := 0, flags := 0, cdesc := 0, chain_base := 0, chain := [],
              dma_srcparam := 0, dma_destparam := 0, dma_srcaddr_l := 0, dma_srcaddr_h := 0,
              dma_destaddr_l := 0, dma_destaddr_h := 0, dma_len := 0, dma_ctrl := 0,
              sg_len := 0 }

/-! ## Observations on scatter-gather chains -/

/-- The chain entry carries the terminal marker: `desc_next_addr_l` is 0x01,
`desc_next_addr_h` is 0 and bits 4..5 of `desc_control` are set. -/
def carries_terminal (e : phytium_chan_desc) : Prop :=
  e.desc_next_addr_l = 0x01 ∧ e.desc_next_addr_h = 0 ∧ (e.desc_control &&& 0x30) = 0x30

/-- The chain entry carries a link: the validity bits 0x12 are set in
`desc_next_addr_l`. -/
def carries_link (e : phytium_chan_desc) : Prop :=
  (e.desc_next_addr_l &&& 0x12) = 0x12

/-- The 64-bit link word of a chain entry, from its high and low halves. -/
def chain_link (e : phytium_chan_desc) : Nat :=
  e.desc_next_addr_h * 2 ^ 32 + e.desc_next_addr_l

/-- The address a link points to: the link word with its low 5 bits masked. -/
def chain_link_target (e : phytium_chan_desc) : Nat :=
  chain_link e &&& 0xFFFFFFFFFFFFFFE0

/-- The pointer `chan_desc` of `phytium_dma_prep_slave_sg` after the alignment
adjustment of the address `kz` returned by `kzalloc`. -/
def chain_base_of (kz : Nat) : Nat :=
  if (kz &&& 0x1F) ≠ 0 then (kz + (32 - (kz &&& 0x1F)) * sizeof_phytium_chan_desc) % 2 ^ 64
  else kz

/-- The descriptor `phytium_dma_prep_slave_sg` returns for `scen_sgl` on the
configured channel 0 when `kzalloc` returns the address 0x1008 (8 bytes past a
32-byte boundary), with the identity address translation. -/
def scen_sg_unaligned : phytium_dma_desc :=
  match (phytium_dma_prep_slave_sg (fun a => a) zero_mem scen_config scen_sgl 2
      DMA_MEM_TO_DEV 0 true 0x1008).1 with
  | some d => d
  | none => { cookie := 0, flags := 0, cdesc := 0, chain_base := 0, chain := [],
              dma_srcparam := 0, dma_destparam := 0, dma_srcaddr_l := 0, dma_srcaddr_h := 0,
              dma_destaddr_l := 0, dma_destaddr_h := 0, dma_len := 0, dma_ctrl := 0,
              sg_len := 0 }

instance (e : phytium_chan_desc) : Decidable (carries_terminal e) :=
  inferInstanceAs (Decidable (e.desc_next_addr_l = 0x01 ∧ e.desc_next_addr_h = 0 ∧
    (e.desc_control &&& 0x30) = 0x30))

instance (e : phytium_chan_desc) : Decidable (carries_link e) :=
  inferInstanceAs (Decidable ((e.desc_next_addr_l &&& 0x12) = 0x12))

/-- The descriptor `phytium_dma_prep_slave_sg` returns when only the first of the
two entries of `scen_sgl` is passed (`sg_len` 1, as after `dma_map_sg` merged the
mapping into one segment): the end mark stays on the second entry. -/
def scen_sg_short : phytium_dma_desc :=
  match (phytium_dma_prep_slave_sg (fun a => a) zero_mem scen_config scen_sgl 1
      DMA_MEM_TO_DEV 0 true 0x1000).1 with
  | some d => d
  | none => { cookie := 0, flags := 0, cdesc := 0, chain_base := 0, chain := [],
              dma_srcparam := 0, dma_destparam := 0, dma_srcaddr_l := 0, dma_srcaddr_h := 0,
              dma_destaddr_l := 0, dma_destaddr_h := 0, dma_len := 0, dma_ctrl := 0,
              sg_len := 0 }

/-- A chip whose channel 0 is running and has raised bit 0 of the chip status while
the chip interrupt mask is zero. -/
def scen_chip_masked : phytium_dma_chip :=
  { regs := fun a => if a = DMA_CONTROL then 1 else if a = DMA_IRQ_STATUS then 1 else 0
    hdata := phytium_octopus_dma_hdata
    chan := [{ probe_chan 0 with is_idle := false }, probe_chan 1, probe_chan 2, probe_chan 3] }

/-- The value `phytium_chan_block_xfer_start` leaves in the control register: the
old value `old` with the control word `ctrl` of the descriptor and the three
completion conditions set, then the interrupt-enable field replaced by END, EOP, ERR
with interrupt id 1 (`phytium_chan_irq_set`), then the start bit set
(`phytium_chan_enable`). -/
def started_control (old ctrl : Nat) : Nat :=
  let val := (old ||| ctrl ||| (DMA_CTRL_COND_LEN ||| DMA_CTRL_COND_EOP ||| DMA_CTRL_COND_ERR))
    % 2 ^ 32
  let val := ((val &&& not32 (DMA_CTRL_IRQ_MASK 0xF)) |||
    (DMA_CTRL_IRQ_END ||| DMA_CTRL_IRQ_EOP ||| DMA_CTRL_IRQ_ERR) ||| DMA_CTRL_IRQ_ID 1) % 2 ^ 32
  (val ||| DMA_CTRL_START) % 2 ^ 32

/-- The first descriptor of the three-memcpy scenario, as submitted (cookie 2). -/
def scen_head : phytium_dma_desc :=
  { cookie := 2, flags := 0, cdesc := 0, chain_base := 0, chain := [],
    dma_srcparam := 0, dma_destparam := 5, dma_srcaddr_l := 0x80000000, dma_srcaddr_h := 0,
    dma_destaddr_l := 0x28000000, dma_destaddr_h := 0, dma_len := 4096, dma_ctrl := 8,
    sg_len := 0 }

/-- The chain-type field `DMA_CTRL_SG_TYPE` (bits 24..25) of a control word. -/
def sg_type_field (ctrl : Nat) : Nat := (ctrl >>> 24) &&& 0x3

/-- Channel 0 with the memory-to-device scatter-gather request over `scen_sgl`
prepared, submitted and issued (chain type 1). -/
def scen_sg_issued : chan_state :=
  phytium_dma_issue_pending
    (vchan_tx_submit
      (phytium_dma_prep_slave_sg (fun a => a) zero_mem scen_config scen_sgl 2
        DMA_MEM_TO_DEV 0 true 0x1000).2 0).2

/-- The register file the hardware leaves when the scatter-gather transfer has
ended: start bit cleared in the control register, status END, chip status bit 0, all
other registers as programmed. -/
def sg_done_regs : Regs :=
  fun a => if a = DMA_STATUS then 1 else if a = DMA_IRQ_STATUS then 1
    else if a = DMA_CONTROL then scen_sg_issued.regs a &&& 0xFFFFFFFE
    else scen_sg_issued.regs a

/-- After the completion interrupt of the scatter-gather transfer. -/
def scen_sg_completed : chan_state :=
  (phytium_dma_interrupt_msi (hw_move scen_sg_issued sg_done_regs)).2

/-- A memcpy (chain type 0) prepared, submitted and issued afterwards. -/
def scen_memcpy_after_sg : chan_state :=
  phytium_dma_issue_pending (vchan_tx_submit (scen_prep scen_sg_completed 0) 0).2

/-- An idle channel has nothing on its issued list. -/
def idle_queue_empty (s : chan_state) : Prop :=
  s.chan.is_idle = true → s.chan.vc.desc_issued = []

/-- Channel 0 with the first of the three descriptors in the engine and a fourth
memcpy prepared and submitted behind it. -/
def scen_busy_submitted : chan_state := (vchan_tx_submit (scen_prep scen_issued 3) 0).2

/-- Channel 2 as probe leaves it, then configured for memory-to-device transfers. -/
def scen_config_chan2 : chan_state :=
  (phytium_dma_slave_config { chan := probe_chan 2, regs := reset_regs }
    { direction := DMA_MEM_TO_DEV, src_addr := 0, dst_addr := 0x28000000 }).2

/-- Channel 3 as probe leaves it, then configured for memory-to-device transfers. -/
def scen_config_chan3 : chan_state :=
  (phytium_dma_slave_config { chan := probe_chan 3, regs := reset_regs }
    { direction := DMA_MEM_TO_DEV, src_addr := 0, dst_addr := 0x28000000 }).2

/-- A chip with the four channels of probe, all idle with empty lists, on which the
status register of channel 0 still shows END and bit 0 of the chip status is set
(the completion of a transfer whose descriptors `terminate_all` has taken off the
lists), chip interrupts enabled. -/
def scen_chip_spurious : phytium_dma_chip :=
  { regs := fun a => if a = DMA_STATUS then 1 else if a = DMA_IRQ_STATUS then 1
      else if a = DMA_IRQ_MASK then 0x4077FFFF else 0
    hdata := phytium_octopus_dma_hdata
    chan := [probe_chan 0, probe_chan 1, probe_chan 2, probe_chan 3] }

/-- One mapped segment of 16 MiB carrying the end mark. -/
def scen_sgl_16m : List scatterlist :=
  [{ dma_address := 0x80000000, dma_length := 0x1000000, is_last := true }]

/-- The descriptor `phytium_dma_prep_slave_sg` returns for `scen_sgl_16m` on the
configured channel 0 (chain memory at 0x1000, identity address translation). -/
def scen_sg_16m : phytium_dma_desc :=
  match (phytium_dma_prep_slave_sg (fun a => a) zero_mem scen_config scen_sgl_16m 1
      DMA_MEM_TO_DEV 0 true 0x1000).1 with
  | some d => d
  | none => { cookie := 0, flags := 0, cdesc := 0, chain_base := 0, chain := [],
              dma_srcparam := 0, dma_destparam := 0, dma_srcaddr_l := 0, dma_srcaddr_h := 0,
              dma_destaddr_l := 0, dma_destaddr_h := 0, dma_len := 0, dma_ctrl := 0,
              sg_len := 0 }

/-- The length field of a chain entry: bits 8 and above of `desc_control`. -/
def desc_length_field (e : phytium_chan_desc) : Nat := e.desc_control >>> 8

/-- The address pair of the chain entry on the side that is not memory for the
direction (destination for memory-to-device, source for device-to-memory) is zero. -/
def other_side_zero (dir : dma_transfer_direction) (e : phytium_chan_desc) : Prop :=
  (dir = DMA_MEM_TO_DEV → e.desc_dst_addr_l = 0 ∧ e.desc_dst_addr_h = 0) ∧
  (dir = DMA_DEV_TO_MEM → e.desc_src_addr_l = 0 ∧ e.desc_src_addr_h = 0)

/-- The address pair of the chain entry on the memory side for the direction (source
for memory-to-device, destination for device-to-memory), as a 64-bit address. -/
def memory_side_addr (dir : dma_transfer_direction) (e : phytium_chan_desc) : Nat :=
  if dir = DMA_MEM_TO_DEV then e.desc_src_addr_l + e.desc_src_addr_h * 2 ^ 32
  else e.desc_dst_addr_l + e.desc_dst_addr_h * 2 ^ 32

/-- The first entry of the chain of `scen_sg_desc`: the segment at 0x80000000 of 4096
bytes, linked to the entry at 0x1020. -/
def scen_sg_entry0 : phytium_chan_desc :=
  { desc_status := 0, desc_control := 0x100000, desc_next_addr_l := 0x1032,
    desc_next_addr_h := 0, desc_src_addr_l := 0x80000000, desc_src_addr_h := 0,
    desc_dst_addr_l := 0, desc_dst_addr_h := 0 }

/-- The register file of the tolerated quirk: the status register of channel 0 shows
END and the start bit is clear, but the chip status shows no bit. -/
def quirk_regs : Regs := fun a => if a = DMA_STATUS then 1 else 0

/-- The three-memcpy scenario with the first transfer ended and the chip status
showing nothing. -/
def scen_quirk : chan_state := hw_move scen_issued quirk_regs

/-! ## Probe and the interrupt negotiation -/

/-- Modelled from the spec: the outcomes of the kernel services `phytium_dma_probe` calls: the three
allocations (`devm_kzalloc` for `dmac` and `hdata`, `devm_kcalloc` for the channel
array; `true` is success) and the return values of `dma_async_device_register`,
`pci_alloc_irq_vectors(pdev, 4, 4, PCI_IRQ_MSI)`, `devm_request_irq` for the vector of
channel `i` and `devm_request_irq` for the shared line. -/
structure probe_env where
  dmac_alloc : Bool
  hdata_alloc : Bool
  chan_alloc : Bool
  device_register : Int
  alloc_irq_vectors : Int
  request_irq_msi : Nat → Int
  request_irq_intx : Int

/-- The calls of `phytium_dma_probe` that are recorded in order. -/
inductive probe_call where
  | hw_init
  | dma_async_device_register
  | pci_alloc_irq_vectors
  | request_irq_msi (i : Nat)
  | request_irq_intx
deriving DecidableEq, Repr

/-- Modelled from the spec: the interrupt handlers registered for the device through
`devm_request_irq`, which registers the handler exactly when it returns 0: `msi` lists
the channels whose vector has `phytium_dma_interrupt_msi`, `intx` tells whether the
shared line has `phytium_dma_interrupt_intx`. -/
structure irq_handlers where
  msi : List Nat
  intx : Bool
deriving DecidableEq, Repr

/-- The device while `phytium_dma_probe` runs: the chip, whether the controller is registered with
the submission framework, the registered handlers and the calls made so far. -/
structure probe_state where
  chip : phytium_dma_chip
  registered : Bool
  handlers : irq_handlers
  calls : List probe_call

/-- The loop of `phytium_dma_probe` that requests the vectored handler of each channel; `false`
is the exit through `goto intx` at the first request that fails. -/
def probe_request_msi (env : probe_env) : List Nat → probe_state → Bool × probe_state
  | [], st => (true, st)
  | i :: rest, st =>
    let st := { st with calls := st.calls ++ [probe_call.request_irq_msi i] }
    if env.request_irq_msi i ≠ 0 then (false, st)
    else probe_request_msi env rest { st with handlers.msi := st.handlers.msi ++ [i] }

/-- The part of `phytium_dma_probe` from the label `intx`: the request of the shared-line handler. -/
def probe_intx (env : probe_env) (st : probe_state) : Int × Option probe_state :=
  let st := { st with calls := st.calls ++ [probe_call.request_irq_intx] }
  if env.request_irq_intx ≠ 0 then (env.request_irq_intx, some st)
  else (0, some { st with handlers.intx := true })

/-- The part of `phytium_dma_probe` after the registration with the framework: the interrupt
negotiation, from `pci_alloc_irq_vectors` to the return. -/
def probe_irq (env : probe_env) (st : probe_state) : Int × Option probe_state :=
  let st := { st with calls := st.calls ++ [probe_call.pci_alloc_irq_vectors] }
  if env.alloc_irq_vectors < 0 then probe_intx env st
  else
    let r := probe_request_msi env (List.range st.chip.hdata.nr_channels) st
    if r.1 then (0, some r.2) else probe_intx env r.2

/-- The chip as the channel loop of `phytium_dma_probe` sets it up: the table
`phytium_octopus_dma_hdata` copied into `hdata` and one channel per table entry. -/
def probe_chip (regs : Regs) : phytium_dma_chip :=
  { regs := regs, hdata := phytium_octopus_dma_hdata,
    chan := (List.range phytium_octopus_dma_hdata.nr_channels).map probe_chan }

/-- The routine `phytium_dma_probe` on a device with the register file `regs`. The result is the
return value and the device state (`none` when an allocation failed before the chip was
set up). -/
def phytium_dma_probe (env : probe_env) (regs : Regs) : Int × Option probe_state :=
  if !env.dmac_alloc then (-12, none)
  else if !env.hdata_alloc then (-12, none)
  else if !env.chan_alloc then (-12, none)
  else
    let chip := phytium_dma_hw_init (probe_chip regs)
    let calls := [probe_call.hw_init, probe_call.dma_async_device_register]
    if env.device_register ≠ 0 then
      (env.device_register,
        some { chip := chip, registered := false, handlers := { msi := [], intx := false },
               calls := calls })
    else
      probe_irq env
        { chip := chip, registered := true, handlers := { msi := [], intx := false },
          calls := calls }

/-- The byte offset `a` lies in the register block of channel `id`, from its
`DMA_SRCPARAM` to its `DMA_STATUS`. -/
def chan_window (id a : Nat) : Prop :=
  id * CHAN_REG_LEN + DMA_SRCPARAM ≤ a ∧ a ≤ id * CHAN_REG_LEN + DMA_STATUS

/-- The channel routine `f` keeps the channel id and writes no register outside the
register block of the channel. -/
def chan_local (f : chan_state → chan_state) : Prop :=
  ∀ s, (f s).chan.id = s.chan.id ∧ ∀ a, ¬ chan_window s.chan.id a → (f s).regs a = s.regs a

/-- One round of a channel loop of the chip: the channel routine `body` runs on
channel `i` when `sel i` holds. -/
def poll_step (sel : Nat → Bool) (body : chan_state → chan_state) (chip : phytium_dma_chip)
    (i : Nat) : phytium_dma_chip :=
  if sel i then chip_on_chan chip i body else chip

/-- Channel `i` of `chip1` is channel `i` of `chip0` after the routine `body` ran on
it, with a register file that had the registers of the channel as in `chip0`. -/
def serviced (body : chan_state → chan_state) (chip0 chip1 : phytium_dma_chip) (i : Nat) : Prop :=
  ∀ c, chip0.chan[i]? = some c →
    ∃ R : Regs, (∀ a, chan_window i a → R a = chip0.regs a) ∧
      chip1.chan[i]? = some (body { chan := c, regs := R }).chan ∧
      ∀ a, chan_window i a → chip1.regs a = (body { chan := c, regs := R }).regs a

/-- Channel `i` of `chip1` and its registers are as in `chip0`. -/
def untouched (chip0 chip1 : phytium_dma_chip) (i : Nat) : Prop :=
  chip1.chan[i]? = chip0.chan[i]? ∧ ∀ a, chan_window i a → chip1.regs a = chip0.regs a

/-- The channel array is as probe sets it up: channel `i` has id `i`, for each of the
first `n` channels. -/
def chan_indexed (chip : phytium_dma_chip) (n : Nat) : Prop :=
  ∀ i, i < n → ∃ c, chip.chan[i]? = some c ∧ c.id = i

/-- The body of the channel loop of `phytium_dma_hw_init` as a channel routine. -/
def hw_reset_chan (s : chan_state) : chan_state :=
  phytium_chan_disable (phytium_chan_irq_disable s (DMA_CTRL_IRQ_MASK 0xF))

/-- A chip with the four channels of probe on which channel 0 is running with its
interrupts enabled (control register 0x17E9) and channel 1 has all four interrupt
enables and the start bit set (control register 0xF01). -/
def scen_chip_busy : phytium_dma_chip :=
  { regs := fun a => if a = DMA_CONTROL then 0x17E9
      else if a = 1 * CHAN_REG_LEN + DMA_CONTROL then 0xF01 else 0
    hdata := phytium_octopus_dma_hdata
    chan := [{ probe_chan 0 with is_idle := false }, probe_chan 1, probe_chan 2, probe_chan 3] }

/-- The test of the channel loop of `phytium_dma_interrupt_intx` for channel `i`: bit `i` or bit
`i + 8` of the chip status is set. -/
def chan_irq_pending (irq_status i : Nat) : Bool :=
  !decide ((irq_status &&& BIT i) = 0 ∧ (irq_status &&& BIT (i + 8)) = 0)

/-- A chip with the four channels of probe on which channel 0 holds the three issued
memcpy descriptors of the scenario, the first one ended (channel status END, chip
status bit 0, chip interrupts enabled), and the other channels are idle. -/
def scen_chip_done : phytium_dma_chip :=
  { regs := fun a => if a = DMA_STATUS then 1 else if a = DMA_IRQ_STATUS then 1
      else if a = DMA_IRQ_MASK then 0x4077FFFF
      else if a = DMA_CONTROL then scen_issued.regs a &&& 0xFFFFFFFE
      else scen_issued.regs a
    hdata := phytium_octopus_dma_hdata
    chan := [{ scen_issued.chan with hw_active := [] }, probe_chan 1, probe_chan 2,
      probe_chan 3] }

/-- The chip when the channel loop of `phytium_dma_interrupt_intx` starts: chip interrupts
disabled and the status read at entry written back to clear it. -/
def interrupt_intx_pre (chip : phytium_dma_chip) : phytium_dma_chip :=
  { chip with
    regs := phytium_dma_irq_clear (phytium_dma_irq_disable chip.regs)
      (phytium_dma_irq_read chip.regs &&& 0xffff) }

/-- The chip when the channel loop of `phytium_dma_interrupt_intx` has ended. -/
def interrupt_intx_polled (chip : phytium_dma_chip) : phytium_dma_chip :=
  (List.range chip.hdata.nr_channels).foldl
    (poll_step (chan_irq_pending (phytium_dma_irq_read chip.regs &&& 0xffff))
      phytium_dma_interrupt_intx_chan)
    (interrupt_intx_pre chip)

/-! # Theorems -/


/-! ## Register-file lemmas -/

theorem ioread32_iowrite32_same (v a : Nat) (r : Regs) :
    ioread32 a (iowrite32 v a r) = v % 2 ^ 32 := by
  simp [ioread32, iowrite32]

theorem ioread32_iowrite32_ne (v a b : Nat) (r : Regs) (h : a ≠ b) :
    ioread32 a (iowrite32 v b r) = ioread32 a r := by
  simp [ioread32, iowrite32, h]

theorem and_start_ne_zero (x : Nat) : (x &&& DMA_CTRL_START ≠ 0) ↔ x.testBit 0 = true := by
  have h : DMA_CTRL_START = 1 := by decide
  rw [h, Nat.and_one_is_mod, Nat.testBit_zero]
  simp

theorem is_running_eq (s : chan_state) : phytium_chan_is_running s = start_bit s := by
  unfold phytium_chan_is_running start_bit phytium_chan_ioread32 ioread32
  simp only [and_start_ne_zero, Nat.testBit_mod_two_pow]
  simp

theorem start_bit_chan_write (s : chan_state) (reg v : Nat) :
    start_bit (phytium_chan_iowrite32 s reg v) =
      if reg = DMA_CONTROL then v.testBit 0 else start_bit s := by
  unfold start_bit phytium_chan_iowrite32 iowrite32
  by_cases h : reg = DMA_CONTROL
  · subst h; simp [Nat.testBit_mod_two_pow]; omega
  · have : s.chan.id * CHAN_REG_LEN + DMA_CONTROL ≠ s.chan.id * CHAN_REG_LEN + reg := by omega
    simp [h, this]

theorem start_bit_dma_write (s : chan_state) (reg v : Nat) (h : reg < DMA_CONTROL) :
    start_bit { s with regs := phytium_dma_iowrite32 s.regs reg v } = start_bit s := by
  unfold start_bit phytium_dma_iowrite32 iowrite32
  have : s.chan.id * CHAN_REG_LEN + DMA_CONTROL ≠ reg := by omega
  simp [this]

/-! ## Effect of the register routines on the start bit -/

theorem keeps_hw_comp (f g : chan_state → chan_state) (hf : keeps_hw f) (hg : keeps_hw g) :
    keeps_hw (fun s => g (f s)) := by
  intro s
  obtain ⟨a1, a2, a3⟩ := hf s
  obtain ⟨b1, b2, b3⟩ := hg (f s)
  exact ⟨b1.trans a1, b2.trans a2, b3.trans a3⟩

theorem one_active_of_keeps (f : chan_state → chan_state) (hf : keeps_hw f) (s : chan_state)
    (h : one_active s) : one_active (f s) := by
  obtain ⟨a1, a2, _⟩ := hf s
  unfold one_active at *
  rw [is_running_eq] at *
  rw [a1, a2]
  exact h

theorem keeps_chan_write (reg v : Nat) (h : reg ≠ DMA_CONTROL) :
    keeps_hw (fun s => phytium_chan_iowrite32 s reg v) := by
  intro s
  refine ⟨?_, rfl, rfl⟩
  rw [start_bit_chan_write]
  simp [h]

theorem keeps_dma_write (f : Regs → Regs)
    (hf : ∀ r a, DMA_CONTROL ≤ a → f r a = r a) :
    keeps_hw (fun s => { s with regs := f s.regs }) := by
  intro s
  refine ⟨?_, rfl, rfl⟩
  unfold start_bit
  simp only
  rw [hf]
  omega

theorem dma_write_frame (reg v : Nat) (h : reg < DMA_CONTROL) (r : Regs) (a : Nat)
    (ha : DMA_CONTROL ≤ a) : phytium_dma_iowrite32 r reg v a = r a := by
  unfold phytium_dma_iowrite32 iowrite32
  have : a ≠ reg := by omega
  simp [this]

theorem keeps_irq_disable_regs : keeps_hw (fun s => { s with regs := phytium_dma_irq_disable s.regs }) :=
  keeps_dma_write _ (fun r a ha => dma_write_frame _ _ (by decide) r a ha)

theorem keeps_irq_enable_regs : keeps_hw (fun s => { s with regs := phytium_dma_irq_enable s.regs }) :=
  keeps_dma_write _ (fun r a ha => dma_write_frame _ _ (by decide) r a ha)

theorem keeps_irq_clear_regs (v : Nat) :
    keeps_hw (fun s => { s with regs := phytium_dma_irq_clear s.regs v }) :=
  keeps_dma_write _ (fun r a ha => dma_write_frame _ _ (by decide) r a ha)

theorem keeps_chan_irq_disable (mask : Nat) (h : (not32 mask).testBit 0 = true) :
    keeps_hw (fun s => phytium_chan_irq_disable s mask) := by
  intro s
  refine ⟨?_, rfl, rfl⟩
  unfold phytium_chan_irq_disable
  simp only [start_bit_chan_write, if_true, Nat.testBit_and, h, Bool.and_true]
  unfold phytium_chan_ioread32 ioread32 start_bit
  rw [Nat.testBit_mod_two_pow]
  simp

theorem keeps_chan_irq_set (mask : Nat) (h : mask.testBit 0 = false) :
    keeps_hw (fun s => phytium_chan_irq_set s mask) := by
  intro s
  refine ⟨?_, rfl, rfl⟩
  unfold phytium_chan_irq_set
  have h1 : (not32 (DMA_CTRL_IRQ_MASK 0xF)).testBit 0 = true := by decide
  have h2 : (DMA_CTRL_IRQ_ID 1).testBit 0 = false := by decide
  simp only [start_bit_chan_write, if_true, Nat.testBit_and, Nat.testBit_or, h, h1, h2,
    Bool.and_true, Bool.or_false]
  unfold phytium_chan_ioread32 ioread32 start_bit
  rw [Nat.testBit_mod_two_pow]
  simp

theorem keeps_chan_irq_clear (mask : Nat) : keeps_hw (fun s => phytium_chan_irq_clear s mask) := by
  intro s
  unfold phytium_chan_irq_clear
  exact keeps_chan_write _ _ (by decide) s

theorem irq_mask_bit0 :
    (not32 (DMA_CTRL_IRQ_END ||| DMA_CTRL_IRQ_EOP ||| DMA_CTRL_IRQ_ERR)).testBit 0 = true := by
  decide

theorem irq_bits_bit0 :
    (DMA_CTRL_IRQ_END ||| DMA_CTRL_IRQ_EOP ||| DMA_CTRL_IRQ_ERR).testBit 0 = false := by
  decide

theorem start_bit_disable (s : chan_state) : start_bit (phytium_chan_disable s) = false := by
  have h : (not32 DMA_CTRL_START).testBit 0 = false := by decide
  have e : ∀ t : chan_state, ∀ l, start_bit { t with chan.hw_active := l } = start_bit t :=
    fun _ _ => rfl
  unfold phytium_chan_disable
  simp only [e]
  rw [start_bit_chan_write, if_pos rfl, Nat.testBit_and, h, Bool.and_false]

theorem hw_active_disable (s : chan_state) : (phytium_chan_disable s).chan.hw_active = [] := rfl

theorem start_bit_enable (s : chan_state) : start_bit (phytium_chan_enable s) = true := by
  unfold phytium_chan_enable
  have h : DMA_CTRL_START.testBit 0 = true := by decide
  rw [start_bit_chan_write, if_pos rfl, Nat.testBit_or, h, Bool.or_true]

theorem one_active_disable (s : chan_state) : one_active (phytium_chan_disable s) := by
  unfold one_active
  rw [hw_active_disable]
  simp

/-! ## The software state is not touched by the register routines -/

@[simp] theorem chan_iowrite32_chan (s : chan_state) (reg v : Nat) :
    (phytium_chan_iowrite32 s reg v).chan = s.chan := rfl

@[simp] theorem chan_irq_disable_chan (s : chan_state) (m : Nat) :
    (phytium_chan_irq_disable s m).chan = s.chan := rfl

@[simp] theorem chan_irq_set_chan (s : chan_state) (m : Nat) :
    (phytium_chan_irq_set s m).chan = s.chan := rfl

@[simp] theorem chan_irq_clear_chan (s : chan_state) (m : Nat) :
    (phytium_chan_irq_clear s m).chan = s.chan := rfl

@[simp] theorem chan_enable_chan (s : chan_state) : (phytium_chan_enable s).chan = s.chan := rfl

@[simp] theorem chan_disable_chan (s : chan_state) :
    (phytium_chan_disable s).chan = { s.chan with hw_active := [] } := rfl

theorem start_bit_congr (s t : chan_state) (h1 : t.regs = s.regs) (h2 : t.chan.id = s.chan.id) :
    start_bit t = start_bit s := by
  unfold start_bit
  rw [h1, h2]

/-! ## Starting a descriptor -/

/-- The register programming of `phytium_chan_block_xfer_start` once the start bit
has been read clear. -/
theorem block_xfer_start_eq (s : chan_state) (d : phytium_dma_desc) :
    phytium_chan_block_xfer_start s d =
      if phytium_chan_is_running s then { s with chan.is_idle := false }
      else
        let t : chan_state := { s with chan.is_idle := false }
        let t := phytium_chan_iowrite32 t DMA_SRCPARAM d.dma_srcparam
        let t := phytium_chan_iowrite32 t DMA_DESTPARAM d.dma_destparam
        let t := phytium_chan_iowrite32 t DMA_SRCADDR_L d.dma_srcaddr_l
        let t := phytium_chan_iowrite32 t DMA_SRCADDR_H d.dma_srcaddr_h
        let t := phytium_chan_iowrite32 t DMA_DESTADDR_L d.dma_destaddr_l
        let t := phytium_chan_iowrite32 t DMA_DESTADDR_H d.dma_destaddr_h
        let t := phytium_chan_iowrite32 t DMA_LENGTH d.dma_len
        let t := phytium_chan_iowrite32 t DMA_CONTROL
          (phytium_chan_ioread32 t DMA_CONTROL ||| d.dma_ctrl |||
            (DMA_CTRL_COND_LEN ||| DMA_CTRL_COND_EOP ||| DMA_CTRL_COND_ERR))
        let t := phytium_chan_irq_set t (DMA_CTRL_IRQ_END ||| DMA_CTRL_IRQ_EOP ||| DMA_CTRL_IRQ_ERR)
        let t := phytium_chan_enable t
        { chan := { s.chan with is_idle := false, hw_active := s.chan.hw_active ++ [d] },
          regs := t.regs } := rfl

theorem block_xfer_start_running (s : chan_state) (d : phytium_dma_desc)
    (h : phytium_chan_is_running s = true) :
    phytium_chan_block_xfer_start s d = { s with chan.is_idle := false } := by
  rw [block_xfer_start_eq, h]
  rfl

theorem block_xfer_start_stopped (s : chan_state) (d : phytium_dma_desc)
    (h : phytium_chan_is_running s = false) :
    phytium_chan_is_running (phytium_chan_block_xfer_start s d) = true ∧
    (phytium_chan_block_xfer_start s d).chan.hw_active = s.chan.hw_active ++ [d] ∧
    (phytium_chan_block_xfer_start s d).chan.id = s.chan.id := by
  rw [block_xfer_start_eq, h]
  simp only [Bool.false_eq_true, if_false]
  refine ⟨?_, trivial, trivial⟩
  rw [is_running_eq]
  refine Eq.trans (start_bit_congr (phytium_chan_enable _) _ rfl rfl) (start_bit_enable _)

theorem one_active_block_xfer_start (s : chan_state) (d : phytium_dma_desc)
    (h : one_active s) : one_active (phytium_chan_block_xfer_start s d) := by
  cases hr : phytium_chan_is_running s
  · obtain ⟨h1, h2, _⟩ := block_xfer_start_stopped s d hr
    unfold one_active
    rw [h1, h2, h.2 hr]
    simp
  · rw [block_xfer_start_running s d hr]
    unfold one_active at *
    rw [is_running_eq] at *
    exact h

theorem one_active_start_first_queued (s : chan_state) (h : one_active s) :
    one_active (phytium_chan_start_first_queued s) := by
  unfold phytium_chan_start_first_queued
  cases vchan_next_desc s.chan.vc with
  | none => exact h
  | some d => exact one_active_block_xfer_start s d h

/-- A change of the software state outside `hw_active` and `id` keeps the property. -/
theorem one_active_congr (s t : chan_state) (h1 : t.regs = s.regs) (h2 : t.chan.id = s.chan.id)
    (h3 : t.chan.hw_active = s.chan.hw_active) (h : one_active s) : one_active t := by
  unfold one_active at *
  rw [is_running_eq] at *
  rw [start_bit_congr s t h1 h2, h3]
  exact h

theorem one_active_issue_pending (s : chan_state) (h : one_active s) :
    one_active (phytium_dma_issue_pending s) := by
  unfold phytium_dma_issue_pending
  simp only
  refine one_active_congr _ _ rfl rfl rfl ?_
  split
  · exact one_active_start_first_queued _ (one_active_congr _ s rfl rfl rfl h)
  · exact one_active_congr _ s rfl rfl rfl h

theorem one_active_terminate_all (s : chan_state) : one_active (phytium_dma_terminate_all s).2 := by
  unfold phytium_dma_terminate_all
  simp only
  exact one_active_congr _ _ rfl rfl rfl (one_active_disable (spin_lock_irqsave s))

theorem one_active_xfer_complete (s : chan_state) (h : one_active s) :
    one_active (phytium_chan_block_xfer_complete s).2 := by
  have h0 : one_active { s with chan.is_idle := true } := one_active_congr _ s rfl rfl rfl h
  have h1 : one_active
      (if phytium_chan_is_running { s with chan.is_idle := true } then
        phytium_chan_disable { s with chan.is_idle := true }
       else { s with chan.is_idle := true }) := by
    split
    · exact one_active_disable _
    · exact h0
  unfold phytium_chan_block_xfer_complete
  simp only
  split
  · exact h1
  · exact one_active_start_first_queued _ (one_active_congr _ _ rfl rfl rfl h1)

/-! ## Steps of the channel keep at most one descriptor in the engine -/

theorem vchan_tx_prep_frame (s : chan_state) (vd : phytium_dma_desc) (f : Nat) :
    (vchan_tx_prep s vd f).2.regs = s.regs ∧ (vchan_tx_prep s vd f).2.chan.id = s.chan.id ∧
    (vchan_tx_prep s vd f).2.chan.hw_active = s.chan.hw_active ∧
    (vchan_tx_prep s vd f).2.chan.is_idle = s.chan.is_idle :=
  ⟨rfl, rfl, rfl, rfl⟩

theorem prep_dma_memcpy_frame (hdata : phytium_dma_hcfg) (s : chan_state)
    (dst src len flags : Nat) (ok : Bool) :
    (phytium_dma_prep_dma_memcpy hdata s dst src len flags ok).2.regs = s.regs ∧
    (phytium_dma_prep_dma_memcpy hdata s dst src len flags ok).2.chan.id = s.chan.id ∧
    (phytium_dma_prep_dma_memcpy hdata s dst src len flags ok).2.chan.hw_active
      = s.chan.hw_active ∧
    (phytium_dma_prep_dma_memcpy hdata s dst src len flags ok).2.chan.is_idle
      = s.chan.is_idle := by
  unfold phytium_dma_prep_dma_memcpy
  simp only
  split
  · exact ⟨rfl, rfl, rfl, rfl⟩
  · split
    · exact ⟨rfl, rfl, rfl, rfl⟩
    · split
      · exact ⟨rfl, rfl, rfl, rfl⟩
      · exact vchan_tx_prep_frame _ _ _

theorem prep_slave_sg_frame (v2p : Nat → Nat) (mem : Nat → phytium_chan_desc) (s : chan_state)
    (sgl : List scatterlist) (sg_len : Nat) (dir : dma_transfer_direction) (flags : Nat)
    (ok : Bool) (kz : Nat) :
    (phytium_dma_prep_slave_sg v2p mem s sgl sg_len dir flags ok kz).2.regs = s.regs ∧
    (phytium_dma_prep_slave_sg v2p mem s sgl sg_len dir flags ok kz).2.chan.id = s.chan.id ∧
    (phytium_dma_prep_slave_sg v2p mem s sgl sg_len dir flags ok kz).2.chan.hw_active
      = s.chan.hw_active ∧
    (phytium_dma_prep_slave_sg v2p mem s sgl sg_len dir flags ok kz).2.chan.is_idle
      = s.chan.is_idle := by
  unfold phytium_dma_prep_slave_sg
  simp only
  split
  · exact ⟨rfl, rfl, rfl, rfl⟩
  · split
    · exact ⟨rfl, rfl, rfl, rfl⟩
    · split
      · exact ⟨rfl, rfl, rfl, rfl⟩
      · split
        · exact ⟨rfl, rfl, rfl, rfl⟩
        · split
          · exact ⟨rfl, rfl, rfl, rfl⟩
          · split
            · exact ⟨rfl, rfl, rfl, rfl⟩
            · exact vchan_tx_prep_frame _ _ _

theorem vchan_tx_submit_frame (s : chan_state) (i : Nat) :
    (vchan_tx_submit s i).2.regs = s.regs ∧ (vchan_tx_submit s i).2.chan.id = s.chan.id ∧
    (vchan_tx_submit s i).2.chan.hw_active = s.chan.hw_active ∧
    (vchan_tx_submit s i).2.chan.is_idle = s.chan.is_idle := by
  unfold vchan_tx_submit
  split
  · exact ⟨rfl, rfl, rfl, rfl⟩
  · exact ⟨rfl, rfl, rfl, rfl⟩

theorem slave_config_frame (s : chan_state) (c : dma_slave_config) :
    (phytium_dma_slave_config s c).2.regs = s.regs ∧
    (phytium_dma_slave_config s c).2.chan.id = s.chan.id ∧
    (phytium_dma_slave_config s c).2.chan.hw_active = s.chan.hw_active := by
  unfold phytium_dma_slave_config
  split
  · exact ⟨rfl, rfl, rfl⟩
  · exact ⟨rfl, rfl, rfl⟩

theorem one_active_interrupt_msi (s : chan_state) (h : one_active s) :
    one_active (phytium_dma_interrupt_msi s).2 := by
  have h1 : one_active (spin_lock_irqsave s) := one_active_congr _ s rfl rfl rfl h
  unfold phytium_dma_interrupt_msi
  simp only
  split
  · exact h1
  · refine one_active_congr _ _ rfl rfl rfl ?_
    refine one_active_of_keeps _ keeps_irq_enable_regs _ ?_
    have h5 : ∀ v, one_active
        { phytium_chan_irq_clear
            (phytium_chan_irq_disable
              { spin_lock_irqsave s with regs := phytium_dma_irq_disable (spin_lock_irqsave s).regs }
              (DMA_CTRL_IRQ_END ||| DMA_CTRL_IRQ_EOP ||| DMA_CTRL_IRQ_ERR))
            (DMA_CTRL_IRQ_END ||| DMA_CTRL_IRQ_EOP ||| DMA_CTRL_IRQ_ERR) with
          regs := phytium_dma_irq_clear
            (phytium_chan_irq_clear
              (phytium_chan_irq_disable
                { spin_lock_irqsave s with
                  regs := phytium_dma_irq_disable (spin_lock_irqsave s).regs }
                (DMA_CTRL_IRQ_END ||| DMA_CTRL_IRQ_EOP ||| DMA_CTRL_IRQ_ERR))
              (DMA_CTRL_IRQ_END ||| DMA_CTRL_IRQ_EOP ||| DMA_CTRL_IRQ_ERR)).regs v } := by
      intro v
      refine one_active_of_keeps _ (keeps_irq_clear_regs v) _ ?_
      refine one_active_of_keeps _ (keeps_chan_irq_clear _) _ ?_
      refine one_active_of_keeps _ (keeps_chan_irq_disable _ irq_mask_bit0) _ ?_
      exact one_active_of_keeps _ keeps_irq_disable_regs _ h1
    split
    · exact h5 _
    · split
      · exact one_active_xfer_complete _ (h5 _)
      · exact h5 _

theorem one_active_interrupt_intx_chan (s : chan_state) (h : one_active s) :
    one_active (phytium_dma_interrupt_intx_chan s) := by
  unfold phytium_dma_interrupt_intx_chan
  simp only
  refine one_active_of_keeps _ (keeps_chan_irq_set _ irq_bits_bit0) _ ?_
  have h1 : one_active (phytium_chan_irq_disable s
      (DMA_CTRL_IRQ_END ||| DMA_CTRL_IRQ_EOP ||| DMA_CTRL_IRQ_ERR)) :=
    one_active_of_keeps _ (keeps_chan_irq_disable _ irq_mask_bit0) _ h
  split
  · exact h1
  · split
    · unfold phytium_chan_block_xfer_complete_intx
      simp only
      have h2 := one_active_xfer_complete _ (one_active_congr (spin_lock_irqsave
        (phytium_chan_irq_disable s (DMA_CTRL_IRQ_END ||| DMA_CTRL_IRQ_EOP ||| DMA_CTRL_IRQ_ERR)))
        _ rfl rfl rfl h1)
      split
      · exact one_active_congr _ _ rfl rfl rfl h2
      · exact h2
    · exact h1

theorem one_active_hw_move (s : chan_state) (regs : Regs) (h : one_active s) :
    one_active (hw_move s regs) := by
  unfold hw_move
  simp only
  split
  · rename_i hb
    unfold one_active at *
    rw [is_running_eq] at *
    refine ⟨h.1, ?_⟩
    intro hc
    rw [hb] at hc
    exact absurd hc (by simp)
  · unfold one_active
    simp

theorem one_active_step (s t : chan_state) (hst : chan_step s t) (h : one_active s) :
    one_active t := by
  cases hst with
  | slave_config c =>
    obtain ⟨a, b, c⟩ := slave_config_frame s c
    exact one_active_congr _ _ a b c h
  | prep_memcpy hdata dst src len flags ok =>
    obtain ⟨a, b, c, _⟩ := prep_dma_memcpy_frame hdata s dst src len flags ok
    exact one_active_congr _ _ a b c h
  | prep_slave_sg v2p mem sgl sg_len dir flags ok kz =>
    obtain ⟨a, b, c, _⟩ := prep_slave_sg_frame v2p mem s sgl sg_len dir flags ok kz
    exact one_active_congr _ _ a b c h
  | submit i =>
    obtain ⟨a, b, c, _⟩ := vchan_tx_submit_frame s i
    exact one_active_congr _ _ a b c h
  | issue_pending => exact one_active_issue_pending s h
  | terminate_all => exact one_active_terminate_all s
  | interrupt_msi => exact one_active_interrupt_msi s h
  | interrupt_intx => exact one_active_interrupt_intx_chan s h
  | tasklet => exact one_active_congr _ s rfl rfl rfl h
  | alloc_chan_resources =>
    unfold phytium_dma_alloc_chan_resources
    split
    · exact h
    · exact one_active_congr _ s rfl rfl rfl h
  | free_chan_resources =>
    unfold phytium_dma_free_chan_resources
    simp only
    refine one_active_congr _ _ rfl rfl rfl ?_
    refine one_active_congr (phytium_chan_irq_disable (phytium_chan_disable
      { s with chan.releasing := 1 }) (DMA_CTRL_IRQ_MASK 0xF)) _ rfl rfl rfl ?_
    exact one_active_of_keeps _ (keeps_chan_irq_disable _ (by decide)) _ (one_active_disable _)
  | hw regs => exact one_active_hw_move s regs h

theorem one_active_reachable (s : chan_state) (h : chan_reachable s) : one_active s := by
  induction h with
  | probe i regs h0 =>
    unfold one_active
    exact ⟨by simp [probe_chan], fun _ => rfl⟩
  | step s t _ ht ih => exact one_active_step s t ht ih

/-! ## What the completion routine does to the queue -/

theorem chan_ioread32_iowrite32 (s : chan_state) (r r1 v : Nat) :
    phytium_chan_ioread32 (phytium_chan_iowrite32 s r v) r1 =
      if r1 = r then v % 2 ^ 32 else phytium_chan_ioread32 s r1 := by
  unfold phytium_chan_ioread32 phytium_chan_iowrite32
  by_cases h : r1 = r
  · subst h
    simp [ioread32_iowrite32_same]
  · have : s.chan.id * CHAN_REG_LEN + r1 ≠ s.chan.id * CHAN_REG_LEN + r := by omega
    simp [h, ioread32_iowrite32_ne _ _ _ _ this]

theorem chan_ioread32_congr (s t : chan_state) (h1 : t.regs = s.regs) (h2 : t.chan.id = s.chan.id)
    (r : Nat) : phytium_chan_ioread32 t r = phytium_chan_ioread32 s r := by
  unfold phytium_chan_ioread32
  rw [h1, h2]

theorem chan_ioread32_irq_set (s : chan_state) (m r : Nat) (h : r ≠ DMA_CONTROL) :
    phytium_chan_ioread32 (phytium_chan_irq_set s m) r = phytium_chan_ioread32 s r := by
  unfold phytium_chan_irq_set
  simp only [chan_ioread32_iowrite32, h, if_false]

theorem chan_ioread32_enable (s : chan_state) (r : Nat) (h : r ≠ DMA_CONTROL) :
    phytium_chan_ioread32 (phytium_chan_enable s) r = phytium_chan_ioread32 s r := by
  unfold phytium_chan_enable
  simp only [chan_ioread32_iowrite32, h, if_false]

theorem chan_ioread32_dma_write (s : chan_state) (reg v r : Nat) (h : reg < DMA_SRCPARAM) 
    (hr : DMA_SRCPARAM ≤ r) :
    phytium_chan_ioread32 { s with regs := phytium_dma_iowrite32 s.regs reg v } r =
      phytium_chan_ioread32 s r := by
  unfold phytium_chan_ioread32 phytium_dma_iowrite32
  have : s.chan.id * CHAN_REG_LEN + r ≠ reg := by omega
  simp only [ioread32_iowrite32_ne _ _ _ _ this]

theorem block_xfer_start_chan (s : chan_state) (d : phytium_dma_desc)
    (h : phytium_chan_is_running s = false) :
    (phytium_chan_block_xfer_start s d).chan =
      { s.chan with is_idle := false, hw_active := s.chan.hw_active ++ [d] } := by
  rw [block_xfer_start_eq, h]
  rfl

theorem ioread32_iowrite32 (v a b : Nat) (r : Regs) :
    ioread32 a (iowrite32 v b r) = if a = b then v % 2 ^ 32 else ioread32 a r := by
  unfold ioread32 iowrite32
  split <;> simp

theorem block_xfer_start_regs_hold (s : chan_state) (d : phytium_dma_desc)
    (h : phytium_chan_is_running s = false) :
    regs_hold (phytium_chan_block_xfer_start s d) d := by
  rw [block_xfer_start_eq, h]
  simp only [Bool.false_eq_true, if_false]
  unfold regs_hold phytium_chan_enable phytium_chan_irq_set
  simp only [phytium_chan_iowrite32, phytium_chan_ioread32, ioread32_iowrite32]
  simp [DMA_SRCPARAM, DMA_DESTPARAM, DMA_SRCADDR_L, DMA_SRCADDR_H, DMA_DESTADDR_L,
    DMA_DESTADDR_H, DMA_LENGTH, DMA_CONTROL]

theorem xfer_complete_eq (u : chan_state) :
    phytium_chan_block_xfer_complete u = xfer_retire (xfer_stop u) := rfl

theorem xfer_stop_spec (u : chan_state)
    (hinv : phytium_chan_is_running u = false → u.chan.hw_active = []) :
    (xfer_stop u).chan = { u.chan with is_idle := true, hw_active := [] } ∧
    phytium_chan_is_running (xfer_stop u) = false := by
  unfold xfer_stop
  simp only
  have e : phytium_chan_is_running { u with chan.is_idle := true } = phytium_chan_is_running u := by
    rw [is_running_eq, is_running_eq]
    exact start_bit_congr _ _ rfl rfl
  rw [e]
  cases hr : phytium_chan_is_running u
  · simp only [Bool.false_eq_true, if_false]
    refine ⟨?_, ?_⟩
    · simp only [hinv hr]
    · rw [e, hr]
  · simp only [if_true]
    refine ⟨rfl, ?_⟩
    rw [is_running_eq]
    exact start_bit_disable _

theorem start_first_queued_spec (s : chan_state) (h : phytium_chan_is_running s = false)
    (ha : s.chan.hw_active = []) :
    (phytium_chan_start_first_queued s).chan =
      { s.chan with
        is_idle := if s.chan.vc.desc_issued = [] then s.chan.is_idle else false
        hw_active := s.chan.vc.desc_issued.take 1 } ∧
    phytium_chan_is_running (phytium_chan_start_first_queued s)
      = !decide (s.chan.vc.desc_issued = []) ∧
    (∀ d, s.chan.vc.desc_issued.head? = some d →
      regs_hold (phytium_chan_start_first_queued s) d) := by
  unfold phytium_chan_start_first_queued vchan_next_desc
  cases hi : s.chan.vc.desc_issued with
  | nil =>
    simp only [List.head?_nil, List.take_nil, if_true]
    refine ⟨?_, ?_, ?_⟩
    · rw [← ha]
    · simp [h]
    · intro d hd
      exact absurd hd (by simp)
  | cons d rest =>
    simp only [List.head?_cons]
    refine ⟨?_, ?_, ?_⟩
    · rw [block_xfer_start_chan s d h, ha]
      simp
    · rw [(block_xfer_start_stopped s d h).1]
      simp
    · intro d1 hd
      simp only [Option.some.injEq] at hd
      subst hd
      exact block_xfer_start_regs_hold s d h

theorem xfer_retire_spec (s : chan_state) (h : phytium_chan_is_running s = false)
    (ha : s.chan.hw_active = []) (hidle : s.chan.is_idle = true) :
    retires_head s (xfer_retire s).2 := by
  unfold xfer_retire vchan_next_desc
  cases hi : s.chan.vc.desc_issued with
  | nil =>
    simp only [List.head?_nil]
    unfold retires_head
    simp [hi, ha, hidle, h]
  | cons d rest =>
    simp only [List.head?_cons, List.tail_cons]
    have hr : phytium_chan_is_running
        { s with chan.vc := vchan_cookie_complete { s.chan.vc with desc_issued := rest } d }
        = false := by
      rw [is_running_eq] at *
      rw [← h]
      exact start_bit_congr _ _ rfl rfl
    obtain ⟨c1, c2, c3⟩ := start_first_queued_spec
      { s with chan.vc := vchan_cookie_complete { s.chan.vc with desc_issued := rest } d } hr ha
    unfold retires_head
    simp only [hi, List.tail_cons, List.drop_succ_cons, List.drop_zero]
    rw [c1, c2]
    refine ⟨rfl, ?_, rfl, rfl, rfl, rfl, rfl, ?_, ?_, ?_, ?_, ?_⟩
    · simp [vchan_cookie_complete, retired]
    · intro d1 r1 he
      simp only [List.cons.injEq] at he
      rw [← he.1]
      rfl
    · intro he
      exact absurd he (by simp)
    · simp only [vchan_cookie_complete, hidle]
      cases rest <;> simp
    · simp [vchan_cookie_complete]
    · intro d1 hd
      exact c3 d1 hd

theorem xfer_complete_spec (u : chan_state)
    (hinv : phytium_chan_is_running u = false → u.chan.hw_active = []) :
    retires_head u (phytium_chan_block_xfer_complete u).2 := by
  rw [xfer_complete_eq]
  obtain ⟨e1, e2⟩ := xfer_stop_spec u hinv
  have h := xfer_retire_spec (xfer_stop u) e2 (by rw [e1]) (by rw [e1])
  unfold retires_head at *
  rw [e1] at h
  exact h

theorem regs_hold_congr (a b : chan_state) (d : phytium_dma_desc) (h : same_xfer_regs a b)
    (hd : regs_hold a d) : regs_hold b d := by
  unfold regs_hold at *
  obtain ⟨_, hr⟩ := h
  rw [hr _ (by decide) (by decide), hr _ (by decide) (by decide), hr _ (by decide) (by decide),
    hr _ (by decide) (by decide), hr _ (by decide) (by decide), hr _ (by decide) (by decide),
    hr _ (by decide) (by decide)]
  exact hd

theorem retires_head_congr (u t u1 t1 : chan_state) (h : retires_head u t)
    (hu : same_queue u u1) (ht : same_queue t t1) (hr : same_xfer_regs t t1) :
    retires_head u1 t1 := by
  unfold retires_head at *
  obtain ⟨a1, a2, a3, a4, a5, a6, a7, _, _⟩ := hu
  obtain ⟨b1, b2, b3, b4, b5, b6, b7, b8, b9⟩ := ht
  obtain ⟨c1, c2, c3, c4, c5, c6, c7, c8, c9, c10, c11, c12⟩ := h
  rw [a1, a2, a3, a4, a5, a6, a7, b1, b2, b3, b4, b5, b6, b7, b8, b9, hr.1]
  exact ⟨c1, c2, c3, c4, c5, c6, c7, c8, c9, c10, c11, fun d hd => regs_hold_congr t t1 d hr (c12 d hd)⟩

theorem or_eq_zero_left (a b : Nat) (h : a ||| b = 0) : a = 0 := by
  apply Nat.eq_of_testBit_eq
  intro i
  have hi : (a ||| b).testBit i = false := by rw [h]; simp
  rw [Nat.testBit_or] at hi
  cases ha : a.testBit i
  · simp
  · rw [ha] at hi
    simp at hi

theorem status_bits_ne_zero (x : Nat) (h : chan_status_done x = true) :
    ((x &&& DMA_STAT_END) ||| (x &&& DMA_STAT_EOP) ||| (x &&& DMA_STAT_EOC) |||
      (x &&& DMA_STAT_ERR)) ≠ 0 := by
  unfold chan_status_done at h
  intro h0
  have h1 := or_eq_zero_left _ _ h0
  rw [h1] at h
  simp at h

theorem interrupt_msi_pre_spec (s : chan_state) :
    same_queue s (interrupt_msi_pre s) ∧
    phytium_chan_is_running (interrupt_msi_pre s) = phytium_chan_is_running s := by
  refine ⟨⟨rfl, rfl, rfl, rfl, rfl, rfl, rfl, rfl, rfl⟩, ?_⟩
  rw [is_running_eq, is_running_eq]
  have k := keeps_hw_comp _ _ (keeps_hw_comp _ _ (keeps_hw_comp _ _ keeps_irq_disable_regs
    (keeps_chan_irq_disable _ irq_mask_bit0)) (keeps_chan_irq_clear
      (DMA_CTRL_IRQ_END ||| DMA_CTRL_IRQ_EOP ||| DMA_CTRL_IRQ_ERR)))
    (keeps_irq_clear_regs (phytium_dma_irq_read (spin_lock_irqsave s).regs))
  exact ((k (spin_lock_irqsave s)).1).trans (start_bit_congr _ _ rfl rfl)

theorem interrupt_msi_done (s : chan_state) (hc : reports_completion s) :
    phytium_dma_interrupt_msi s =
      (IRQ_HANDLED, spin_unlock_irqrestore
        { phytium_chan_block_xfer_complete_msi (interrupt_msi_pre s) with
          regs := phytium_dma_irq_enable
            (phytium_chan_block_xfer_complete_msi (interrupt_msi_pre s)).regs }) := by
  obtain ⟨h1, h2⟩ := hc
  have e0 : phytium_chan_status_read (spin_lock_irqsave s) = phytium_chan_status_read s := rfl
  have h3 := status_bits_ne_zero _ h2
  unfold phytium_dma_interrupt_msi interrupt_msi_pre
  simp only [e0, h3, ne_eq, not_true_eq_false, not_false_eq_true, decide_True,
    decide_False, Bool.not_true, Bool.and_false, Bool.false_eq_true, if_false, if_true, ite_self]
  simp only [h1, h2, ne_eq, not_true_eq_false, if_false, if_true]

theorem interrupt_msi_retires (s : chan_state) (hc : reports_completion s)
    (hinv : phytium_chan_is_running s = false → s.chan.hw_active = []) :
    (phytium_dma_interrupt_msi s).1 = IRQ_HANDLED ∧
    retires_head s (phytium_dma_interrupt_msi s).2 ∧
    (phytium_dma_interrupt_msi s).2.chan.vc.lock = false := by
  rw [interrupt_msi_done s hc]
  refine ⟨rfl, ?_, rfl⟩
  obtain ⟨_, p2⟩ := interrupt_msi_pre_spec s
  have hp : phytium_chan_is_running (interrupt_msi_pre s) = false →
      (interrupt_msi_pre s).chan.hw_active = [] := by
    intro h
    rw [p2] at h
    exact hinv h
  have A := xfer_complete_spec (interrupt_msi_pre s) hp
  refine retires_head_congr _ _ _ _ A ⟨rfl, rfl, rfl, rfl, rfl, rfl, rfl, rfl, rfl⟩
    ⟨rfl, rfl, rfl, rfl, rfl, rfl, rfl, rfl, rfl⟩ ⟨?_, ?_⟩
  · rw [is_running_eq, is_running_eq]
    exact (start_bit_congr _ _ rfl rfl).trans
      ((keeps_irq_enable_regs (phytium_chan_block_xfer_complete (interrupt_msi_pre s)).2).1)
  · intro r hr _
    exact (chan_ioread32_congr _ _ rfl rfl r).trans
      (chan_ioread32_dma_write (phytium_chan_block_xfer_complete (interrupt_msi_pre s)).2
        DMA_IRQ_MASK 0x4077FFFF r (by decide) hr)

theorem hw_move_spec (t : chan_state) (r : Regs) :
    (hw_move t r).regs = r ∧ (hw_move t r).chan.vc = t.chan.vc ∧
    (hw_move t r).chan.id = t.chan.id ∧
    (phytium_chan_is_running (hw_move t r) = false → (hw_move t r).chan.hw_active = []) := by
  unfold hw_move
  simp only
  split
  · rename_i hb
    refine ⟨rfl, rfl, rfl, ?_⟩
    intro h
    rw [is_running_eq, hb] at h
    exact absurd h (by simp)
  · exact ⟨rfl, rfl, rfl, fun _ => rfl⟩

theorem msi_run_spec (id : Nat) (rs : List Regs) :
    ∀ (t : chan_state) (l : List phytium_dma_desc), head_started t l → t.chan.id = id →
      rs.length ≤ l.length → all_report_completion id rs →
      head_started (msi_run rs t) (l.drop rs.length) ∧
      (msi_run rs t).chan.vc.desc_completed =
        t.chan.vc.desc_completed ++ (l.take rs.length).map retired ∧
      (∀ d, (l.take rs.length).getLast? = some d →
        (msi_run rs t).chan.vc.completed_cookie = d.cookie) := by
  induction rs with
  | nil =>
    intro t l h _ _ _
    simp only [msi_run, List.length_nil, List.drop_zero, List.take_zero, List.map_nil,
      List.append_nil, List.getLast?_nil]
    exact ⟨h, trivial, fun d hd => absurd hd (by simp)⟩
  | cons r rs ih =>
    intro t l h hid hk hrs
    cases l with
    | nil => simp at hk
    | cons d l1 =>
      obtain ⟨hr, hrs1⟩ := hrs
      obtain ⟨m1, m2, m3, m4⟩ := hw_move_spec t r
      have hc : reports_completion (hw_move t r) := by
        unfold reports_completion phytium_chan_status_read phytium_chan_ioread32
        rw [m1, m3, hid]
        exact hr
      obtain ⟨_, R, _⟩ := interrupt_msi_retires (hw_move t r) hc m4
      obtain ⟨c1, c2, c3, c4, _, _, c7, c8, _, c10, c11, c12⟩ := R
      obtain ⟨j1, j2, _, _, _, _⟩ := h
      rw [m2] at c1 c2 c4 c8
      rw [m2, j1] at c3 c10 c11 c12
      rw [j1] at c1 c2 c8
      simp only [List.tail_cons, List.drop_succ_cons, List.drop_zero, List.take_succ_cons,
        List.take_zero, List.map_cons, List.map_nil] at c1 c2 c3 c10 c11 c12
      have hs : head_started (phytium_dma_interrupt_msi (hw_move t r)).2 l1 :=
        ⟨c1, c4.trans j2, c3, c11, c10, c12⟩
      have hk1 : rs.length ≤ l1.length := by
        simp only [List.length_cons] at hk
        omega
      obtain ⟨i1, i2, i3⟩ := ih _ l1 hs (by rw [c7, m3, hid]) hk1 hrs1
      simp only [msi_run, List.length_cons, List.drop_succ_cons, List.take_succ_cons,
        List.map_cons]
      refine ⟨i1, ?_, ?_⟩
      · rw [i2, c2]
        simp
      · intro d1 hd
        cases rs with
        | nil =>
          simp only [List.length_nil, List.take_zero, List.getLast?_singleton,
            Option.some.injEq] at hd
          simp only [msi_run]
          rw [← hd]
          exact c8 d l1 rfl
        | cons r2 rs2 =>
          cases l1 with
          | nil => simp at hk1
          | cons d2 l2 =>
            apply i3
            simp only [List.length_cons, List.take_succ_cons, List.getLast?_cons_cons] at hd
            simp only [List.length_cons, List.take_succ_cons]
            exact hd

theorem issue_pending_eq (s : chan_state) :
    phytium_dma_issue_pending s =
      spin_unlock_irqrestore
        (if (!(s.chan.vc.desc_issued ++ s.chan.vc.desc_submitted).isEmpty && s.chan.is_idle) then
          phytium_chan_start_first_queued
            { chan := { s.chan with
                        vc := { s.chan.vc with
                                lock := true
                                desc_issued := s.chan.vc.desc_issued ++ s.chan.vc.desc_submitted
                                desc_submitted := [] } },
              regs := s.regs }
         else
            { chan := { s.chan with
                        vc := { s.chan.vc with
                                lock := true
                                desc_issued := s.chan.vc.desc_issued ++ s.chan.vc.desc_submitted
                                desc_submitted := [] } },
              regs := s.regs }) := rfl

theorem head_started_unlock (t : chan_state) (l : List phytium_dma_desc)
    (h : head_started t l) : head_started (spin_unlock_irqrestore t) l := by
  unfold head_started at *
  obtain ⟨h1, h2, h3, h4, h5, h6⟩ := h
  have e : phytium_chan_is_running (spin_unlock_irqrestore t) = phytium_chan_is_running t := by
    rw [is_running_eq, is_running_eq]
    exact start_bit_congr _ _ rfl rfl
  refine ⟨h1, h2, h3, e.trans h4, h5, fun d hd => ?_⟩
  exact regs_hold_congr t _ d ⟨e, fun r _ _ => chan_ioread32_congr _ _ rfl rfl r⟩ (h6 d hd)

theorem issue_pending_head_started (s : chan_state) (ds : List phytium_dma_desc)
    (hidle : s.chan.is_idle = true) (hstop : phytium_chan_is_running s = false)
    (hact : s.chan.hw_active = []) (hiss : s.chan.vc.desc_issued = [])
    (hsub : s.chan.vc.desc_submitted = ds) :
    head_started (phytium_dma_issue_pending s) ds ∧
    (phytium_dma_issue_pending s).chan.id = s.chan.id ∧
    (phytium_dma_issue_pending s).chan.vc.desc_completed = s.chan.vc.desc_completed := by
  rw [issue_pending_eq, hiss, hsub, hidle]
  simp only [List.nil_append, Bool.and_true]
  have hr : phytium_chan_is_running
      { chan := { s.chan with
                  vc := { s.chan.vc with
                          lock := true, desc_issued := ds, desc_submitted := [] } },
        regs := s.regs } = false := by
    rw [is_running_eq] at *
    rw [← hstop]
    exact start_bit_congr _ _ rfl rfl
  obtain ⟨q1, q2, q3⟩ := start_first_queued_spec _ hr hact
  cases ds with
  | nil =>
    simp only [List.isEmpty_nil, Bool.not_true, Bool.false_eq_true, if_false]
    refine ⟨head_started_unlock _ _ ?_, rfl, rfl⟩
    unfold head_started
    refine ⟨rfl, rfl, ?_, ?_, ?_, ?_⟩
    · simpa using hact
    · simpa using hr
    · simpa using hidle
    · intro d hd
      exact absurd hd (by simp)
  | cons d l =>
    simp only [List.isEmpty_cons, Bool.not_false, if_true]
    refine ⟨head_started_unlock _ _ ?_, ?_, ?_⟩
    · unfold head_started
      rw [q1, q2]
      refine ⟨rfl, rfl, rfl, ?_, ?_, q3⟩
      · simp
      · simp
    · show (phytium_chan_start_first_queued _).chan.id = _
      rw [q1]
    · show (phytium_chan_start_first_queued _).chan.vc.desc_completed = _
      rw [q1]

/-! ## Claims C1 and C2: one descriptor in the engine, FIFO completion -/

theorem issue_pending_not_idle (s : chan_state) (h : s.chan.is_idle = false) :
    (phytium_dma_issue_pending s).regs = s.regs ∧
    (phytium_dma_issue_pending s).chan.hw_active = s.chan.hw_active ∧
    (phytium_dma_issue_pending s).chan.is_idle = false := by
  rw [issue_pending_eq, h]
  simp only [Bool.and_false, Bool.false_eq_true, if_false]
  exact ⟨rfl, rfl, h⟩

/-- C1: in every state a channel reaches from probe through slave_config, prep,
submit, issue_pending, the two interrupt handlers, the completion tasklet,
terminate_all, allocate / release and moves of the hardware, at most one descriptor
is held by the engine, and none while the start bit is clear. `phytium_chan_block_xfer_start`
writes no register when it reads the start bit set, and programs and starts exactly
the descriptor it is given when it reads the bit clear; `issue_pending` reaches it
only when `is_idle` is true; the completion routine reaches it only for the second
descriptor of the issued list, after the head has been taken off that list. -/
theorem at_most_one_active_descriptor (s : chan_state) (h : chan_reachable s) :
    s.chan.hw_active.length ≤ 1 ∧
    (phytium_chan_is_running s = false → s.chan.hw_active = []) ∧
    (∀ d, phytium_chan_is_running s = true →
      phytium_chan_block_xfer_start s d = { s with chan.is_idle := false }) ∧
    (∀ d, phytium_chan_is_running s = false →
      (phytium_chan_block_xfer_start s d).chan.hw_active = [d] ∧
      phytium_chan_is_running (phytium_chan_block_xfer_start s d) = true ∧
      regs_hold (phytium_chan_block_xfer_start s d) d) ∧
    (s.chan.is_idle = false →
      (phytium_dma_issue_pending s).regs = s.regs ∧
      (phytium_dma_issue_pending s).chan.hw_active = s.chan.hw_active) ∧
    (phytium_chan_block_xfer_complete s).2.chan.vc.desc_issued = s.chan.vc.desc_issued.tail ∧
    (phytium_chan_block_xfer_complete s).2.chan.hw_active
      = (s.chan.vc.desc_issued.drop 1).take 1 := by
  obtain ⟨h1, h2⟩ := one_active_reachable s h
  obtain ⟨c1, _, c3, _⟩ := xfer_complete_spec s h2
  refine ⟨h1, h2, fun d hr => block_xfer_start_running s d hr, fun d hr => ?_, fun hi => ?_, c1, c3⟩
  · obtain ⟨a1, a2, _⟩ := block_xfer_start_stopped s d hr
    refine ⟨?_, a1, block_xfer_start_regs_hold s d hr⟩
    rw [a2, h2 hr]
    rfl
  · obtain ⟨b1, b2, _⟩ := issue_pending_not_idle s hi
    exact ⟨b1, b2⟩

theorem scen_issued_reachable : chan_reachable scen_issued :=
  chan_reachable.step _ _
    (chan_reachable.step _ _
      (chan_reachable.step _ _
        (chan_reachable.step _ _
          (chan_reachable.step _ _
            (chan_reachable.step _ _
              (chan_reachable.step _ _
                (chan_reachable.step _ _ (chan_reachable.probe 0 reset_regs (by decide))
                  (chan_step.slave_config _ _))
                (chan_step.prep_memcpy _ _ _ _ _ _ _))
              (chan_step.prep_memcpy _ _ _ _ _ _ _))
            (chan_step.prep_memcpy _ _ _ _ _ _ _))
          (chan_step.submit _ 0))
        (chan_step.submit _ 0))
      (chan_step.submit _ 0))
    (chan_step.issue_pending _)

/-- Witness for C1: the state after three memcpy descriptors were prepared, submitted
and issued on channel 0 is reachable, and there exactly the first descriptor (cookie
2) is held by the engine. -/
theorem at_most_one_active_descriptor_witness :
    chan_reachable scen_issued ∧
    scen_issued.chan.hw_active.map (fun d => d.cookie) = [2] ∧
    (scen_issued.chan.hw_active.length ≤ 1 ∧
    (phytium_chan_is_running scen_issued = false → scen_issued.chan.hw_active = []) ∧
    (∀ d, phytium_chan_is_running scen_issued = true →
      phytium_chan_block_xfer_start scen_issued d = { scen_issued with chan.is_idle := false }) ∧
    (∀ d, phytium_chan_is_running scen_issued = false →
      (phytium_chan_block_xfer_start scen_issued d).chan.hw_active = [d] ∧
      phytium_chan_is_running (phytium_chan_block_xfer_start scen_issued d) = true ∧
      regs_hold (phytium_chan_block_xfer_start scen_issued d) d) ∧
    (scen_issued.chan.is_idle = false →
      (phytium_dma_issue_pending scen_issued).regs = scen_issued.regs ∧
      (phytium_dma_issue_pending scen_issued).chan.hw_active = scen_issued.chan.hw_active) ∧
    (phytium_chan_block_xfer_complete scen_issued).2.chan.vc.desc_issued
      = scen_issued.chan.vc.desc_issued.tail ∧
    (phytium_chan_block_xfer_complete scen_issued).2.chan.hw_active
      = (scen_issued.chan.vc.desc_issued.drop 1).take 1) :=
  ⟨scen_issued_reachable, by decide,
    at_most_one_active_descriptor scen_issued scen_issued_reachable⟩

/-- C2: completions are FIFO. On an idle channel (idle flag set, start bit clear,
nothing issued) holding the submitted descriptors `ds`, `issue_pending` followed by
`k ≤ |ds|` completion interrupts (each finding a completion and no error in the
channel status, whatever else the hardware did to the registers) leaves the
descriptors `ds[k..]` issued, has retired `ds[0..k)` in order to the completed list,
records the cookie of `ds[k-1]` as completed, and has programmed and started exactly
`ds[k]` when it exists (the later ones stay pending); with `k = 0` this says that
`issue_pending` starts only the first descriptor. -/
theorem fifo_completion_order (s : chan_state) (ds : List phytium_dma_desc) (rs : List Regs)
    (hidle : s.chan.is_idle = true) (hstop : phytium_chan_is_running s = false)
    (hact : s.chan.hw_active = []) (hiss : s.chan.vc.desc_issued = [])
    (hsub : s.chan.vc.desc_submitted = ds) (hk : rs.length ≤ ds.length)
    (hrs : all_report_completion s.chan.id rs) :
    (msi_run rs (phytium_dma_issue_pending s)).chan.vc.desc_issued = ds.drop rs.length ∧
    (msi_run rs (phytium_dma_issue_pending s)).chan.vc.desc_completed
      = s.chan.vc.desc_completed ++ (ds.take rs.length).map retired ∧
    (msi_run rs (phytium_dma_issue_pending s)).chan.hw_active = (ds.drop rs.length).take 1 ∧
    phytium_chan_is_running (msi_run rs (phytium_dma_issue_pending s))
      = !decide (ds.drop rs.length = []) ∧
    (msi_run rs (phytium_dma_issue_pending s)).chan.is_idle = decide (ds.drop rs.length = []) ∧
    (∀ d, (ds.drop rs.length).head? = some d →
      regs_hold (msi_run rs (phytium_dma_issue_pending s)) d) ∧
    (∀ d, (ds.take rs.length).getLast? = some d →
      (msi_run rs (phytium_dma_issue_pending s)).chan.vc.completed_cookie = d.cookie) := by
  obtain ⟨p1, p2, p3⟩ := issue_pending_head_started s ds hidle hstop hact hiss hsub
  obtain ⟨⟨r1, _, r3, r4, r5, r6⟩, r7, r8⟩ :=
    msi_run_spec s.chan.id rs (phytium_dma_issue_pending s) ds p1 p2 hk hrs
  rw [p3] at r7
  exact ⟨r1, r7, r3, r4, r5, r6, r8⟩

/-- Witness for C2: max block size 0x2000000, three memcpy descriptors of length 4096
submitted on idle channel 0 (cookies 2, 3, 4). One completion interrupt retires the
first, starts the second and leaves the third pending: `tx_status` reports the first
complete and the other two in progress. -/
theorem fifo_completion_order_witness :
    ((msi_run [done_regs] (phytium_dma_issue_pending scen_submitted)).chan.vc.desc_issued
      = scen_submitted.chan.vc.desc_submitted.drop 1 ∧
    (msi_run [done_regs] (phytium_dma_issue_pending scen_submitted)).chan.vc.desc_completed
      = scen_submitted.chan.vc.desc_completed
        ++ (scen_submitted.chan.vc.desc_submitted.take 1).map retired ∧
    (msi_run [done_regs] (phytium_dma_issue_pending scen_submitted)).chan.hw_active
      = (scen_submitted.chan.vc.desc_submitted.drop 1).take 1 ∧
    phytium_chan_is_running (msi_run [done_regs] (phytium_dma_issue_pending scen_submitted))
      = !decide (scen_submitted.chan.vc.desc_submitted.drop 1 = []) ∧
    (msi_run [done_regs] (phytium_dma_issue_pending scen_submitted)).chan.is_idle
      = decide (scen_submitted.chan.vc.desc_submitted.drop 1 = []) ∧
    (∀ d, (scen_submitted.chan.vc.desc_submitted.drop 1).head? = some d →
      regs_hold (msi_run [done_regs] (phytium_dma_issue_pending scen_submitted)) d) ∧
    (∀ d, (scen_submitted.chan.vc.desc_submitted.take 1).getLast? = some d →
      (msi_run [done_regs] (phytium_dma_issue_pending scen_submitted)).chan.vc.completed_cookie
        = d.cookie)) ∧
    phytium_octopus_dma_hdata.block_size 0 = 0x2000000 ∧
    scen_submitted.chan.vc.desc_submitted.map (fun d => (d.cookie, d.dma_len))
      = [(2, 4096), (3, 4096), (4, 4096)] ∧
    scen_issued.chan.hw_active.map (fun d => d.cookie) = [2] ∧
    scen_completed.chan.hw_active.map (fun d => d.cookie) = [3] ∧
    scen_completed.chan.vc.desc_issued.map (fun d => d.cookie) = [3, 4] ∧
    phytium_dma_tx_status scen_completed 2 = dma_status.DMA_COMPLETE ∧
    phytium_dma_tx_status scen_completed 3 = dma_status.DMA_IN_PROGRESS ∧
    phytium_dma_tx_status scen_completed 4 = dma_status.DMA_IN_PROGRESS :=
  ⟨fifo_completion_order scen_submitted scen_submitted.chan.vc.desc_submitted [done_regs]
      (by decide) (by decide) (by decide) (by decide) rfl (by decide)
      ⟨⟨by decide, by decide⟩, trivial⟩,
    by decide, by decide, by decide, by decide, by decide, by decide, by decide, by decide⟩

/-! ## Claims C3, C4, C5: length check, terminate_all, stale completion -/

/-- C3: a memcpy request longer than the max block size of the channel
(`hdata->block_size[chan->id]`, a `u32`) returns NULL and leaves the channel with its
queue, idle flag and registers exactly as it was: no descriptor is built or queued,
whatever the addresses, flags, configured direction and allocator outcome. -/
theorem prep_dma_memcpy_length_exceeded (hdata : phytium_dma_hcfg) (s : chan_state)
    (dst src len flags : Nat) (ok : Bool) (h : len > hdata.block_size s.chan.id % 2 ^ 32) :
    phytium_dma_prep_dma_memcpy hdata s dst src len flags ok = (none, s) := by
  unfold phytium_dma_prep_dma_memcpy
  simp only [h, if_true]

/-- Witness for C3: 0x2000001 bytes on channel 0, whose max block size is 0x2000000. -/
theorem prep_dma_memcpy_length_exceeded_witness :
    0x2000001 > phytium_octopus_dma_hdata.block_size scen_config.chan.id % 2 ^ 32 ∧
    phytium_dma_prep_dma_memcpy phytium_octopus_dma_hdata scen_config 0x28000000 0x80000000
      0x2000001 0 true = (none, scen_config) :=
  ⟨by decide,
    prep_dma_memcpy_length_exceeded phytium_octopus_dma_hdata scen_config 0x28000000 0x80000000
      0x2000001 0 true (by decide)⟩

/-- C4 (the code departs from the claim): `terminate_all` with a transfer in flight
clears the start bit and empties every list, but leaves `is_idle` false; a descriptor
prepared, submitted and issued afterwards (cookie 5) is then not started: the start
bit stays clear and the engine holds nothing. -/
theorem terminate_all_in_flight_stays_not_idle :
    scen_issued.chan.is_idle = false ∧
    phytium_chan_is_running scen_issued = true ∧
    scen_terminated.chan.vc.desc_allocated = [] ∧
    scen_terminated.chan.vc.desc_submitted = [] ∧
    scen_terminated.chan.vc.desc_issued = [] ∧
    scen_terminated.chan.vc.desc_completed = [] ∧
    phytium_chan_is_running scen_terminated = false ∧
    scen_terminated.chan.is_idle = false ∧
    scen_reissued.chan.vc.desc_issued.map (fun d => d.cookie) = [5] ∧
    phytium_chan_is_running scen_reissued = false ∧
    scen_reissued.chan.hw_active = [] := by
  decide

/-- C5 (the code departs from the claim): the completion interrupt of a terminated
transfer, arriving when a later descriptor (cookie 5) is on the issued list without
ever having been started, retires that descriptor: it is taken off the issued list,
put on the completed list and its cookie is reported complete. -/
theorem stale_completion_retires_unstarted :
    scen_reissued.chan.vc.desc_issued.map (fun d => d.cookie) = [5] ∧
    scen_reissued.chan.hw_active = [] ∧
    phytium_chan_is_running scen_reissued = false ∧
    phytium_dma_tx_status scen_reissued 5 = dma_status.DMA_IN_PROGRESS ∧
    scen_stale.chan.vc.desc_issued = [] ∧
    scen_stale.chan.vc.desc_completed.map (fun d => d.dma_srcaddr_l) = [0x80003000] ∧
    scen_stale.chan.vc.completed_cookie = 5 ∧
    phytium_dma_tx_status scen_stale 5 = dma_status.DMA_COMPLETE := by
  decide

/-! ## Claim C6: suspend-prepare -/

theorem bit0_le_refl (r : Regs) : bit0_le r r := fun _ h => h

theorem bit0_le_trans (r1 r2 r3 : Regs) (h1 : bit0_le r1 r2) (h2 : bit0_le r2 r3) :
    bit0_le r1 r3 := fun a h => h1 a (h2 a h)

theorem bit0_le_and_write (s : chan_state) (x : Nat) :
    bit0_le s.regs
      (phytium_chan_iowrite32 s DMA_CONTROL (phytium_chan_ioread32 s DMA_CONTROL &&& x)).regs := by
  intro a
  unfold phytium_chan_iowrite32 phytium_chan_ioread32 iowrite32 ioread32
  simp only
  split
  · rename_i ha
    subst ha
    rw [Nat.testBit_mod_two_pow, Nat.testBit_and, Nat.testBit_mod_two_pow]
    intro h
    simp only [Bool.and_eq_true] at h
    exact h.2.1.2
  · exact fun h => h

theorem bit0_le_irq_disable (s : chan_state) (m : Nat) :
    bit0_le s.regs (phytium_chan_irq_disable s m).regs :=
  bit0_le_and_write s (not32 m)

theorem bit0_le_disable (s : chan_state) : bit0_le s.regs (phytium_chan_disable s).regs :=
  bit0_le_and_write s (not32 DMA_CTRL_START)

theorem chip_on_chan_spec (chip : phytium_dma_chip) (i : Nat) (f : chan_state → chan_state)
    (hid : ∀ s, (f s).chan.id = s.chan.id) (hle : ∀ s, bit0_le s.regs (f s).regs) :
    (chip_on_chan chip i f).hdata = chip.hdata ∧
    chan_ids (chip_on_chan chip i f) = chan_ids chip ∧
    bit0_le chip.regs (chip_on_chan chip i f).regs := by
  unfold chip_on_chan
  cases hc : chip.chan[i]? with
  | none => exact ⟨rfl, rfl, bit0_le_refl _⟩
  | some c =>
    refine ⟨rfl, ?_, hle _⟩
    unfold chan_ids
    simp only [List.map_set, hid]
    apply List.ext_getElem?
    intro j
    rw [List.getElem?_set]
    split
    · rename_i hij
      subst hij
      simp only [List.length_map, List.getElem?_map, hc, Option.map_some']
      split
      · rfl
      · rename_i hlt
        have := List.getElem?_eq_some_iff.mp hc
        obtain ⟨hl, _⟩ := this
        exact absurd hl hlt
    · rfl

theorem chip_on_chan_disable_stops (chip : phytium_dma_chip) (i x : Nat)
    (hx : (chan_ids chip)[i]? = some x) :
    ((chip_on_chan chip i phytium_chan_disable).regs (x * CHAN_REG_LEN + DMA_CONTROL)).testBit 0
      = false := by
  unfold chan_ids at hx
  rw [List.getElem?_map] at hx
  unfold chip_on_chan
  cases hc : chip.chan[i]? with
  | none =>
    rw [hc] at hx
    simp at hx
  | some c =>
    rw [hc] at hx
    simp only [Option.map_some', Option.some.injEq] at hx
    subst hx
    have h := start_bit_disable { chan := c, regs := chip.regs }
    unfold start_bit at h
    simp only [chan_disable_chan] at h
    simp only
    exact h

theorem hw_init_chan_spec (chip : phytium_dma_chip) (k : Nat) (h : all_stopped chip k) :
    (phytium_dma_hw_init_chan chip k).hdata = chip.hdata ∧
    chan_ids (phytium_dma_hw_init_chan chip k) = chan_ids chip ∧
    all_stopped (phytium_dma_hw_init_chan chip k) (k + 1) := by
  obtain ⟨a1, a2, a3⟩ := chip_on_chan_spec chip k
    (fun s => phytium_chan_irq_disable s (DMA_CTRL_IRQ_MASK 0xF)) (fun _ => rfl)
    (fun s => bit0_le_irq_disable s _)
  obtain ⟨b1, b2, b3⟩ := chip_on_chan_spec
    (chip_on_chan chip k (fun s => phytium_chan_irq_disable s (DMA_CTRL_IRQ_MASK 0xF))) k
    phytium_chan_disable (fun _ => rfl) bit0_le_disable
  unfold phytium_dma_hw_init_chan
  simp only
  refine ⟨b1.trans a1, b2.trans a2, ?_⟩
  intro i hi x hx
  rw [b2] at hx
  by_cases hik : i = k
  · subst hik
    exact chip_on_chan_disable_stops _ i x hx
  · rw [a2] at hx
    have h0 := h i (by omega) x hx
    cases hb : ((chip_on_chan (chip_on_chan chip k
        (fun s => phytium_chan_irq_disable s (DMA_CTRL_IRQ_MASK 0xF))) k
        phytium_chan_disable).regs (x * CHAN_REG_LEN + DMA_CONTROL)).testBit 0 with
    | false => rfl
    | true =>
      have := a3 _ (b3 _ hb)
      rw [h0] at this
      exact absurd this (by simp)

theorem hw_init_loop_spec (chip : phytium_dma_chip) (n : Nat) :
    ((List.range n).foldl phytium_dma_hw_init_chan chip).hdata = chip.hdata ∧
    chan_ids ((List.range n).foldl phytium_dma_hw_init_chan chip) = chan_ids chip ∧
    all_stopped ((List.range n).foldl phytium_dma_hw_init_chan chip) n := by
  induction n with
  | zero =>
    refine ⟨rfl, rfl, ?_⟩
    intro i hi
    omega
  | succ n ih =>
    obtain ⟨i1, i2, i3⟩ := ih
    obtain ⟨s1, s2, s3⟩ := hw_init_chan_spec _ n i3
    rw [List.range_succ, List.foldl_append]
    simp only [List.foldl_cons, List.foldl_nil]
    exact ⟨s1.trans i1, s2.trans i2, s3⟩

/-- After `phytium_dma_hw_init` no channel of the chip reads as running, so the scan
of `phytium_pci_prepare`, which runs after it, never refuses. -/
theorem prepare_always_succeeds (chip : phytium_dma_chip) : (phytium_pci_prepare chip).1 = 0 := by
  obtain ⟨h1, _, h3⟩ := hw_init_loop_spec chip chip.hdata.nr_channels
  unfold phytium_pci_prepare
  simp only
  have hany : (List.range (phytium_dma_hw_init chip).hdata.nr_channels).any
      (fun i => match chip_chan (phytium_dma_hw_init chip) i with
        | none => false
        | some s => phytium_chan_is_running s) = false := by
    rw [List.any_eq_false]
    intro i hi
    have hi1 : i < chip.hdata.nr_channels := by
      unfold phytium_dma_hw_init at hi
      rw [h1] at hi
      exact List.mem_range.mp hi
    unfold chip_chan
    cases hc : (phytium_dma_hw_init chip).chan[i]? with
    | none => simp
    | some c =>
      simp only [Bool.not_eq_true]
      rw [is_running_eq]
      unfold start_bit
      apply h3 i hi1 c.id
      unfold chan_ids
      rw [List.getElem?_map]
      unfold phytium_dma_hw_init at hc
      rw [hc]
      rfl
  rw [hany]
  rfl

/-- C6 (the code departs from the claim): with channel 0 running (start bit set in
its control register) when suspend-prepare is called, `phytium_pci_prepare` returns
0, not the refusal: it first runs `phytium_dma_hw_init`, which clears every start
bit, and only then scans the channels. -/
theorem prepare_running_channel_not_refused :
    chip_chan scen_chip_running 0 = some
      { chan := { probe_chan 0 with is_idle := false }, regs := scen_chip_running.regs } ∧
    phytium_chan_is_running
      { chan := { probe_chan 0 with is_idle := false }, regs := scen_chip_running.regs } = true ∧
    (phytium_pci_prepare scen_chip_running).1 = 0 :=
  ⟨rfl, by decide, prepare_always_succeeds scen_chip_running⟩

/-! ## Claim C7: a reported hardware error -/

theorem err_bits_ne_zero (x : Nat) (h : (x &&& DMA_STAT_ERR) ≠ 0) :
    ((x &&& DMA_STAT_END) ||| (x &&& DMA_STAT_EOP) ||| (x &&& DMA_STAT_EOC) |||
      (x &&& DMA_STAT_ERR)) ≠ 0 := by
  intro h0
  rw [Nat.lor_comm] at h0
  exact h (or_eq_zero_left _ _ h0)

theorem interrupt_msi_error (s : chan_state)
    (h : (phytium_chan_status_read s &&& DMA_STAT_ERR) ≠ 0) :
    phytium_dma_interrupt_msi s =
      (IRQ_HANDLED, spin_unlock_irqrestore
        { interrupt_msi_pre s with regs := phytium_dma_irq_enable (interrupt_msi_pre s).regs }) := by
  have e0 : phytium_chan_status_read (spin_lock_irqsave s) = phytium_chan_status_read s := rfl
  have h3 := err_bits_ne_zero _ h
  unfold phytium_dma_interrupt_msi interrupt_msi_pre
  simp only [e0, h3, h, ne_eq, not_true_eq_false, not_false_eq_true, decide_True,
    decide_False, Bool.not_true, Bool.and_false, Bool.false_eq_true, if_false, if_true, ite_self]

/-- C7 as amended: when the channel status read by a handler has `DMA_STAT_ERR` set,
the handler only logs and does the interrupt housekeeping: on the vectored handler
(which returns handled) and on the per-channel body of the shared-line handler alike,
the queue, the cookie counters, the idle flag, the engine record and the start bit
are left as they were; the head descriptor is not retired and nothing is started. -/
theorem error_interrupt_leaves_queue (s : chan_state)
    (h : (phytium_chan_status_read s &&& DMA_STAT_ERR) ≠ 0) :
    (phytium_dma_interrupt_msi s).1 = IRQ_HANDLED ∧
    same_queue s (phytium_dma_interrupt_msi s).2 ∧
    phytium_chan_is_running (phytium_dma_interrupt_msi s).2 = phytium_chan_is_running s ∧
    same_queue s (phytium_dma_interrupt_intx_chan s) ∧
    phytium_chan_is_running (phytium_dma_interrupt_intx_chan s) = phytium_chan_is_running s := by
  rw [interrupt_msi_error s h]
  obtain ⟨_, p2⟩ := interrupt_msi_pre_spec s
  refine ⟨rfl, ⟨rfl, rfl, rfl, rfl, rfl, rfl, rfl, rfl, rfl⟩, ?_, ?_, ?_⟩
  · rw [← p2, is_running_eq, is_running_eq]
    exact (start_bit_congr _ _ rfl rfl).trans ((keeps_irq_enable_regs (interrupt_msi_pre s)).1)
  · unfold phytium_dma_interrupt_intx_chan
    simp only [h, ne_eq, not_false_eq_true, if_true]
    exact ⟨rfl, rfl, rfl, rfl, rfl, rfl, rfl, rfl, rfl⟩
  · unfold phytium_dma_interrupt_intx_chan
    simp only [h, ne_eq, not_false_eq_true, if_true]
    rw [is_running_eq, is_running_eq]
    exact ((keeps_chan_irq_set _ irq_bits_bit0) _).1.trans
      ((keeps_chan_irq_disable _ irq_mask_bit0) s).1

/-- Witness for C7 as amended: the first of three descriptors in flight, the
hardware reporting an error. -/
theorem error_interrupt_leaves_queue_witness :
    (phytium_chan_status_read scen_error &&& DMA_STAT_ERR) ≠ 0 ∧
    ((phytium_dma_interrupt_msi scen_error).1 = IRQ_HANDLED ∧
    same_queue scen_error (phytium_dma_interrupt_msi scen_error).2 ∧
    phytium_chan_is_running (phytium_dma_interrupt_msi scen_error).2
      = phytium_chan_is_running scen_error ∧
    same_queue scen_error (phytium_dma_interrupt_intx_chan scen_error) ∧
    phytium_chan_is_running (phytium_dma_interrupt_intx_chan scen_error)
      = phytium_chan_is_running scen_error) :=
  ⟨by decide, error_interrupt_leaves_queue scen_error (by decide)⟩

/-- Counterexample to C7 as stated: with the first of three descriptors (cookies 2,
3, 4) in flight and the channel status reporting an error, neither handler retires
the head: afterwards all three descriptors are still on the issued list, the
channel is still marked not idle and the engine still holds descriptor 2. -/
theorem error_interrupt_does_not_retire :
    (phytium_chan_status_read scen_error &&& DMA_STAT_ERR) ≠ 0 ∧
    scen_error.chan.vc.desc_issued.map (fun d => d.cookie) = [2, 3, 4] ∧
    (phytium_dma_interrupt_msi scen_error).2.chan.vc.desc_issued.map (fun d => d.cookie)
      = [2, 3, 4] ∧
    (phytium_dma_interrupt_msi scen_error).2.chan.vc.desc_completed = [] ∧
    (phytium_dma_interrupt_msi scen_error).2.chan.is_idle = false ∧
    (phytium_dma_interrupt_msi scen_error).2.chan.hw_active.map (fun d => d.cookie) = [2] ∧
    (phytium_dma_interrupt_intx_chan scen_error).chan.vc.desc_issued.map (fun d => d.cookie)
      = [2, 3, 4] ∧
    (phytium_dma_interrupt_intx_chan scen_error).chan.vc.desc_completed = [] ∧
    (phytium_dma_interrupt_intx_chan scen_error).chan.is_idle = false ∧
    (phytium_dma_interrupt_intx_chan scen_error).chan.hw_active.map (fun d => d.cookie) = [2] ∧
    ¬ retires_head scen_error (phytium_dma_interrupt_msi scen_error).2 ∧
    ¬ retires_head scen_error (phytium_dma_interrupt_intx_chan scen_error) := by
  refine ⟨by decide, by decide, by decide, by decide, by decide, by decide, by decide,
    by decide, by decide, by decide, ?_, ?_⟩
  · intro h
    have h1 := congrArg List.length h.1
    revert h1
    decide
  · intro h
    have h1 := congrArg List.length h.1
    revert h1
    decide

/-! ## Claims C8 and C9: memcpy length alignment and direction -/

/-- C8 (the code departs from the claim): the shift count of the length alignment
is the enumerator `DMA_SLAVE_BUSWIDTH_4_BYTES`, whose value is 4, so the length is
rounded down to a multiple of 16, not of 4: a memcpy of 20 bytes is committed with
`dma_len` 16 (12 bytes are dropped from a request of 28), where rounding to the
4-byte data width keeps 20 (and 28). -/
theorem memcpy_length_rounded_to_16 :
    DMA_SLAVE_BUSWIDTH_4_BYTES = 4 ∧
    phytium_octopus_dma_hdata.m_data_width = 4 ∧
    (phytium_dma_prep_dma_memcpy phytium_octopus_dma_hdata scen_config 0x28000000 0x80000000
      20 0 true).1.map (fun d => d.dma_len) = some 16 ∧
    20 - 20 % 4 = 20 ∧
    (phytium_dma_prep_dma_memcpy phytium_octopus_dma_hdata scen_config 0x28000000 0x80000000
      28 0 true).1.map (fun d => d.dma_len) = some 16 ∧
    28 - 28 % 4 = 28 := by
  decide

/-- C9: for a length within the max block size and a successful descriptor
allocation, `phytium_dma_prep_dma_memcpy` returns NULL exactly when the configured
direction is neither `DMA_MEM_TO_DEV` nor `DMA_DEV_TO_MEM`, and then the channel is
left as it was (nothing is queued); for `DMA_MEM_TO_DEV` the descriptor it returns
and queues has source/destination ids (0, 5), for `DMA_DEV_TO_MEM` (5, 0). A channel
whose direction is the zero value `DMA_MEM_TO_MEM` is rejected. -/
theorem prep_dma_memcpy_direction (hdata : phytium_dma_hcfg) (s : chan_state)
    (dst src len flags : Nat) (hlen : len ≤ hdata.block_size s.chan.id % 2 ^ 32) :
    ((phytium_dma_prep_dma_memcpy hdata s dst src len flags true).1 = none ↔
      (s.chan.dma_sconfig.direction ≠ DMA_MEM_TO_DEV ∧
       s.chan.dma_sconfig.direction ≠ DMA_DEV_TO_MEM)) ∧
    ((phytium_dma_prep_dma_memcpy hdata s dst src len flags true).1 = none →
      (phytium_dma_prep_dma_memcpy hdata s dst src len flags true).2 = s) ∧
    (s.chan.dma_sconfig.direction = DMA_MEM_TO_DEV →
      ∃ d, (phytium_dma_prep_dma_memcpy hdata s dst src len flags true).1 = some d ∧
        d.dma_srcparam = 0 ∧ d.dma_destparam = 5 ∧
        (phytium_dma_prep_dma_memcpy hdata s dst src len flags true).2.chan.vc.desc_allocated
          = s.chan.vc.desc_allocated ++ [d]) ∧
    (s.chan.dma_sconfig.direction = DMA_DEV_TO_MEM →
      ∃ d, (phytium_dma_prep_dma_memcpy hdata s dst src len flags true).1 = some d ∧
        d.dma_srcparam = 5 ∧ d.dma_destparam = 0 ∧
        (phytium_dma_prep_dma_memcpy hdata s dst src len flags true).2.chan.vc.desc_allocated
          = s.chan.vc.desc_allocated ++ [d]) ∧
    (s.chan.dma_sconfig.direction = DMA_MEM_TO_MEM →
      phytium_dma_prep_dma_memcpy hdata s dst src len flags true = (none, s)) := by
  obtain ⟨⟨id, rel, vc, ⟨dir, sa, da⟩, used, idle, paused, act⟩, regs⟩ := s
  have hn : ¬ (hdata.block_size id % 4294967296 < len) := by
    simp only [Nat.reducePow] at hlen
    omega
  cases dir <;>
    simp [phytium_dma_prep_dma_memcpy, hn, phytium_desc_get, vchan_tx_prep, spin_lock_irqsave,
      spin_unlock_irqrestore, DMA_SRCP_SRC_ID, DMA_DESTP_DEST_ID, min_t]

/-- Witness for C9: a memcpy of 4096 bytes on channel 0 as probe leaves it (never
slave-configured, direction `DMA_MEM_TO_MEM`) is rejected and queues nothing; after
`slave_config` with `DMA_MEM_TO_DEV` the same request is accepted. -/
theorem prep_dma_memcpy_direction_witness :
    4096 ≤ phytium_octopus_dma_hdata.block_size scen_probe.chan.id % 2 ^ 32 ∧
    scen_probe.chan.dma_sconfig.direction = DMA_MEM_TO_MEM ∧
    phytium_dma_prep_dma_memcpy phytium_octopus_dma_hdata scen_probe 0x28000000 0x80000000
      4096 0 true = (none, scen_probe) ∧
    (phytium_dma_prep_dma_memcpy phytium_octopus_dma_hdata scen_config 0x28000000 0x80000000
      4096 0 true).1.map (fun d => (d.dma_srcparam, d.dma_destparam)) = some (0, 5) :=
  ⟨by decide, rfl,
    (prep_dma_memcpy_direction phytium_octopus_dma_hdata scen_probe 0x28000000 0x80000000
      4096 0 (by decide)).2.2.2.2 rfl,
    by decide⟩

/-! ## Claim C10: total length of a scatter-gather request -/

theorem sg_loop_total (v2p : Nat → Nat) (mem : Nat → phytium_chan_desc) (kz sg_len cd : Nat)
    (dir : dma_transfer_direction) (n : Nat) :
    ∀ (sgl : List scatterlist) (i t0 : Nat) (es : List phytium_chan_desc) (total : Nat),
      sg_loop v2p mem kz sg_len cd dir sgl n i t0 = some (es, total) →
      total % 2 ^ 32 = (t0 + ((sg_visited sgl n).map sg_dma_len).sum) % 2 ^ 32 := by
  induction n with
  | zero =>
    intro sgl i t0 es total h
    cases sgl <;>
    · simp only [sg_loop, Option.some.injEq, Prod.mk.injEq] at h
      simp [sg_visited, h.2]
  | succ n ih =>
    intro sgl i t0 es total h
    cases sgl with
    | nil =>
      simp only [sg_loop, Option.some.injEq, Prod.mk.injEq] at h
      simp [sg_visited, h.2]
    | cons sg rest =>
      simp only [sg_loop] at h
      split at h
      · exact absurd h (by simp)
      · split at h
        · exact absurd h (by simp)
        · rename_i es1 total1 hrec
          simp only [Option.some.injEq, Prod.mk.injEq] at h
          have := ih _ _ _ _ _ hrec
          rw [← h.2, this]
          simp only [sg_visited, List.map_cons, List.sum_cons]
          omega

theorem sg_visited_all (sgl : List scatterlist) (h : sg_end_marked sgl) :
    sg_visited sgl sgl.length = sgl := by
  induction sgl with
  | nil => rfl
  | cons sg rest ih =>
    cases rest with
    | nil =>
      simp only [sg_end_marked] at h
      simp [sg_visited, sg_is_last, h]
    | cons sg1 rest1 =>
      simp only [sg_end_marked] at h
      have := ih h.2
      simp only [List.length_cons] at this
      simp [sg_visited, sg_is_last, h.1, this]

theorem sum_sg_dma_len (sgl : List scatterlist) (h : ∀ sg ∈ sgl, sg.dma_length < 2 ^ 32) :
    (sgl.map sg_dma_len).sum = (sgl.map (fun sg => sg.dma_length)).sum := by
  induction sgl with
  | nil => rfl
  | cons sg rest ih =>
    simp only [List.map_cons, List.sum_cons]
    rw [ih (fun x hx => h x (List.mem_cons_of_mem _ hx))]
    unfold sg_dma_len
    rw [Nat.mod_eq_of_lt (h sg (List.mem_cons_self _ _))]

theorem prep_slave_sg_dma_len (v2p : Nat → Nat) (mem : Nat → phytium_chan_desc)
    (s : chan_state) (sgl : List scatterlist) (sg_len : Nat) (dir : dma_transfer_direction)
    (flags : Nat) (ok : Bool) (kz : Nat) (d : phytium_dma_desc)
    (h : (phytium_dma_prep_slave_sg v2p mem s sgl sg_len dir flags ok kz).1 = some d) :
    d.dma_len = ((sg_visited sgl sg_len).map sg_dma_len).sum % 2 ^ 32 := by
  unfold phytium_dma_prep_slave_sg at h
  simp only at h
  split at h
  · exact absurd h (by simp)
  · split at h
    · exact absurd h (by simp)
    · split at h
      · exact absurd h (by simp)
      · split at h
        · exact absurd h (by simp)
        · split at h
          · exact absurd h (by simp)
          · rename_i chain total hloop
            have ht := sg_loop_total _ _ _ _ _ _ _ _ _ _ _ _ hloop
            simp only [Nat.zero_add] at ht
            split at h
            · exact absurd h (by simp)
            · simp only [vchan_tx_prep, Option.some.injEq] at h
              rw [← h]
              exact ht

/-- C10 as amended: for every scatter-gather request `phytium_dma_prep_slave_sg`
accepts, `dma_len` (a `u32`) is the sum of the lengths of the segments the loop
visited, modulo 2^32. For a scatterlist of `sg_len` segments of lengths L1..Lk with
the end mark on the last one this is (L1 + ... + Lk) mod 2^32, which equals
L1 + ... + Lk whenever that sum is below 2^32. -/
theorem prep_slave_sg_total_len (v2p : Nat → Nat) (mem : Nat → phytium_chan_desc)
    (s : chan_state) (sgl : List scatterlist) (sg_len : Nat) (dir : dma_transfer_direction)
    (flags : Nat) (ok : Bool) (kz : Nat) (d : phytium_dma_desc)
    (h : (phytium_dma_prep_slave_sg v2p mem s sgl sg_len dir flags ok kz).1 = some d) :
    d.dma_len = ((sg_visited sgl sg_len).map sg_dma_len).sum % 2 ^ 32 ∧
    (sg_end_marked sgl → sg_len = sgl.length → (∀ sg ∈ sgl, sg.dma_length < 2 ^ 32) →
      d.dma_len = (sgl.map (fun sg => sg.dma_length)).sum % 2 ^ 32 ∧
      ((sgl.map (fun sg => sg.dma_length)).sum < 2 ^ 32 →
        d.dma_len = (sgl.map (fun sg => sg.dma_length)).sum)) := by
  have h1 := prep_slave_sg_dma_len v2p mem s sgl sg_len dir flags ok kz d h
  refine ⟨h1, fun hend hlen hL => ?_⟩
  rw [hlen, sg_visited_all sgl hend, sum_sg_dma_len sgl hL] at h1
  exact ⟨h1, fun hlt => by rw [h1, Nat.mod_eq_of_lt hlt]⟩

/-- Witness for C10 as amended: segments of 4096 and 512 bytes give `dma_len` 4608. -/
theorem prep_slave_sg_total_len_witness :
    (phytium_dma_prep_slave_sg (fun a => a) zero_mem scen_config scen_sgl 2
      DMA_MEM_TO_DEV 0 true 0x1000).1 = some scen_sg_desc ∧
    scen_sg_desc.dma_len = 4608 ∧
    (scen_sg_desc.dma_len = ((sg_visited scen_sgl 2).map sg_dma_len).sum % 2 ^ 32 ∧
    (sg_end_marked scen_sgl → 2 = scen_sgl.length → (∀ sg ∈ scen_sgl, sg.dma_length < 2 ^ 32) →
      scen_sg_desc.dma_len = (scen_sgl.map (fun sg => sg.dma_length)).sum % 2 ^ 32 ∧
      ((scen_sgl.map (fun sg => sg.dma_length)).sum < 2 ^ 32 →
        scen_sg_desc.dma_len = (scen_sgl.map (fun sg => sg.dma_length)).sum))) :=
  ⟨by decide, by decide,
    prep_slave_sg_total_len (fun a => a) zero_mem scen_config scen_sgl 2 DMA_MEM_TO_DEV 0 true
      0x1000 scen_sg_desc (by decide)⟩

/-- Counterexample to C10 as stated: a request of two segments of 0x80000000 bytes
each (end mark on the second, both lengths valid `unsigned int` values) is accepted,
and its `dma_len` is 0, not the sum 0x100000000 of the segment lengths. -/
theorem prep_slave_sg_total_len_wraps :
    sg_end_marked scen_sgl_2g ∧
    (∀ sg ∈ scen_sgl_2g, sg.dma_length < 2 ^ 32) ∧
    (scen_sgl_2g.map (fun sg => sg.dma_length)).sum = 0x100000000 ∧
    (phytium_dma_prep_slave_sg (fun a => a) zero_mem scen_config scen_sgl_2g 2
      DMA_MEM_TO_DEV 0 true 0x1000).1.map (fun d => d.dma_len) = some 0 ∧
    ¬ (∀ d, (phytium_dma_prep_slave_sg (fun a => a) zero_mem scen_config scen_sgl_2g 2
        DMA_MEM_TO_DEV 0 true 0x1000).1 = some d →
      d.dma_len = (scen_sgl_2g.map (fun sg => sg.dma_length)).sum) := by
  refine ⟨⟨rfl, rfl⟩, by decide, by decide, by decide, ?_⟩
  intro h
  cases hd : (phytium_dma_prep_slave_sg (fun a => a) zero_mem scen_config scen_sgl_2g 2
      DMA_MEM_TO_DEV 0 true 0x1000).1 with
  | none =>
    revert hd
    decide
  | some d =>
    have h1 := h d hd
    have h2 : (phytium_dma_prep_slave_sg (fun a => a) zero_mem scen_config scen_sgl_2g 2
      DMA_MEM_TO_DEV 0 true 0x1000).1.map (fun d => d.dma_len) = some 0 := by decide
    rw [hd] at h2
    simp only [Option.map_some', Option.some.injEq] at h2
    rw [h2] at h1
    revert h1
    decide

/-! ## Claims C11, C12, C13: the scatter-gather chain -/

/-- What an accepted scatter-gather request went through: the checks passed, the
loop ran over the adjusted chain base, and the descriptor records its results. -/
theorem prep_slave_sg_accepted (v2p : Nat → Nat) (mem : Nat → phytium_chan_desc)
    (s : chan_state) (sgl : List scatterlist) (sg_len : Nat) (dir : dma_transfer_direction)
    (flags : Nat) (ok : Bool) (kz : Nat) (d : phytium_dma_desc)
    (h : (phytium_dma_prep_slave_sg v2p mem s sgl sg_len dir flags ok kz).1 = some d) :
    is_slave_direction dir = true ∧ sg_len ≠ 0 ∧ kz ≠ 0 ∧
    d.cdesc = kz ∧ d.chain_base = chain_base_of kz ∧
    ∃ total, sg_loop v2p mem kz sg_len (chain_base_of kz) dir sgl sg_len 0 0
      = some (d.chain, total) := by
  unfold phytium_dma_prep_slave_sg at h
  simp only at h
  split at h
  · exact absurd h (by simp)
  · rename_i h1
    split at h
    · exact absurd h (by simp)
    · split at h
      · exact absurd h (by simp)
      · rename_i desc hdesc
        split at h
        · exact absurd h (by simp)
        · rename_i hkz
          split at h
          · exact absurd h (by simp)
          · rename_i chain total hloop
            split at h
            · exact absurd h (by simp)
            · rename_i built hb
              simp only [vchan_tx_prep, Option.some.injEq] at h
              simp only [Bool.or_eq_true, Bool.not_eq_true', decide_eq_true_eq, not_or,
                Bool.not_eq_false] at h1
              refine ⟨h1.1, h1.2, hkz, ?_, ?_, total, ?_⟩
              · rw [← h]
                split at hb
                · simp only [Option.some.injEq] at hb
                  rw [← hb]
                · simp only [Option.some.injEq] at hb
                  rw [← hb]
                · exact absurd hb (by simp)
              · rw [← h]
                split at hb
                · simp only [Option.some.injEq] at hb
                  rw [← hb]
                  rfl
                · simp only [Option.some.injEq] at hb
                  rw [← hb]
                  rfl
                · exact absurd hb (by simp)
              · have hc : d.chain = chain := by
                  rw [← h]
                  split at hb
                  · simp only [Option.some.injEq] at hb
                    rw [← hb]
                  · simp only [Option.some.injEq] at hb
                    rw [← hb]
                  · exact absurd hb (by simp)
                rw [hc]
                exact hloop

theorem sg_loop_entries (v2p : Nat → Nat) (mem : Nat → phytium_chan_desc) (kz sg_len cd : Nat)
    (dir : dma_transfer_direction) (n : Nat) :
    ∀ (sgl : List scatterlist) (i t0 : Nat) (es : List phytium_chan_desc) (total : Nat),
      sg_loop v2p mem kz sg_len cd dir sgl n i t0 = some (es, total) →
      es.length = (sg_visited sgl n).length ∧
      ∀ j sg, (sg_visited sgl n)[j]? = some sg →
        ∃ e, es[j]? = some e ∧
          sg_entry v2p cd dir
            (chain_entry_before mem kz sg_len (cd + (i + j) * sizeof_phytium_chan_desc))
            (i + j) sg = some e := by
  induction n with
  | zero =>
    intro sgl i t0 es total h
    cases sgl <;>
    · simp only [sg_loop, Option.some.injEq, Prod.mk.injEq] at h
      rw [← h.1]
      simp [sg_visited]
  | succ n ih =>
    intro sgl i t0 es total h
    cases sgl with
    | nil =>
      simp only [sg_loop, Option.some.injEq, Prod.mk.injEq] at h
      rw [← h.1]
      simp [sg_visited]
    | cons sg rest =>
      simp only [sg_loop] at h
      split at h
      · exact absurd h (by simp)
      · rename_i e he
        split at h
        · exact absurd h (by simp)
        · rename_i es1 total1 hrec
          simp only [Option.some.injEq, Prod.mk.injEq] at h
          obtain ⟨i1, i2⟩ := ih _ _ _ _ _ hrec
          rw [← h.1]
          simp only [sg_visited, List.length_cons]
          refine ⟨by rw [i1], ?_⟩
          intro j sg1 hj
          cases j with
          | zero =>
            simp only [List.getElem?_cons_zero, Option.some.injEq] at hj
            subst hj
            exact ⟨e, by simp, by simpa using he⟩
          | succ j =>
            simp only [List.getElem?_cons_succ] at hj
            obtain ⟨e1, a1, a2⟩ := i2 j sg1 hj
            have hij : i + 1 + j = i + (j + 1) := by omega
            rw [hij] at a2
            exact ⟨e1, by simpa using a1, a2⟩

theorem sg_visited_last_final (n : Nat) :
    ∀ (sgl : List scatterlist) (j : Nat) (sg : scatterlist),
      (sg_visited sgl n)[j]? = some sg → sg.is_last = true →
      j + 1 = (sg_visited sgl n).length := by
  induction n with
  | zero =>
    intro sgl j sg h
    cases sgl <;> simp [sg_visited] at h
  | succ n ih =>
    intro sgl j sg h hl
    cases sgl with
    | nil => simp [sg_visited] at h
    | cons sg0 rest =>
      simp only [sg_visited] at h
      simp only [sg_visited, List.length_cons]
      cases j with
      | zero =>
        simp only [List.getElem?_cons_zero, Option.some.injEq] at h
        subst h
        simp only [sg_is_last, hl, if_true]
        cases n <;> simp [sg_visited]
      | succ j =>
        simp only [List.getElem?_cons_succ] at h
        have := ih _ j sg h hl
        omega

theorem sg_entry_spec (v2p : Nat → Nat) (cd : Nat) (dir : dma_transfer_direction)
    (before : phytium_chan_desc) (i : Nat) (sg : scatterlist) (e : phytium_chan_desc)
    (h : sg_entry v2p cd dir before i sg = some e) :
    (sg.is_last = true →
      e.desc_next_addr_l = 0x01 ∧ e.desc_next_addr_h = 0 ∧
      e.desc_control = ((sg_dma_len sg <<< 8) % 2 ^ 32) ||| 0x30) ∧
    (sg.is_last = false →
      e.desc_next_addr_l
        = ((v2p (cd + (i + 1) * sizeof_phytium_chan_desc) &&& 0xFFFFFFFF) ||| 0x10) ||| 0x02 ∧
      e.desc_next_addr_h
        = (v2p (cd + (i + 1) * sizeof_phytium_chan_desc) >>> 32) &&& 0xFFFFFFFF ∧
      e.desc_control = (sg_dma_len sg <<< 8) % 2 ^ 32) := by
  unfold sg_entry at h
  simp only at h
  split at h
  · exact absurd h (by simp)
  · rename_i e0 he0
    cases hl : sg.is_last
    · simp only [sg_is_last, hl, Bool.false_eq_true, if_false, Option.some.injEq] at h
      refine ⟨fun hc => absurd hc (by simp), fun _ => ?_⟩
      rw [← h]
      simp
    · simp only [sg_is_last, hl, if_true, Option.some.injEq] at h
      refine ⟨fun _ => ?_, fun hc => absurd hc (by simp)⟩
      rw [← h]
      simp

theorem or_and_absorb (x m : Nat) : (x ||| m) &&& m = m := by
  apply Nat.eq_of_testBit_eq
  intro i
  rw [Nat.testBit_and, Nat.testBit_or]
  cases x.testBit i <;> cases m.testBit i <;> rfl

theorem link_bits_set (y : Nat) : ((y ||| 0x10) ||| 0x02) &&& 0x12 = 0x12 := by
  have h : (0x12 : Nat) = 0x10 ||| 0x02 := by decide
  rw [h, Nat.lor_assoc]
  exact or_and_absorb y (0x10 ||| 0x02)

theorem link_ne_one (y : Nat) : (y ||| 0x10) ||| 0x02 ≠ 0x01 := by
  intro h
  have h1 := link_bits_set y
  rw [h] at h1
  revert h1
  decide

/-- An entry written by the loop carries the terminal marker exactly when its
segment carries the end mark, and a link exactly when it does not. -/
theorem sg_entry_marker (v2p : Nat → Nat) (cd : Nat) (dir : dma_transfer_direction)
    (before : phytium_chan_desc) (i : Nat) (sg : scatterlist) (e : phytium_chan_desc)
    (h : sg_entry v2p cd dir before i sg = some e) :
    (carries_terminal e ↔ sg.is_last = true) ∧ (carries_link e ↔ sg.is_last = false) := by
  obtain ⟨h1, h2⟩ := sg_entry_spec v2p cd dir before i sg e h
  unfold carries_terminal carries_link
  cases hl : sg.is_last
  · obtain ⟨a1, _, _⟩ := h2 hl
    rw [a1]
    refine ⟨⟨fun hc => absurd hc.1 (link_ne_one _), fun hc => absurd hc (by simp)⟩,
      ⟨fun _ => rfl, fun _ => link_bits_set _⟩⟩
  · obtain ⟨a1, a2, a3⟩ := h1 hl
    rw [a1, a2, a3]
    refine ⟨⟨fun _ => rfl, fun _ => ⟨rfl, rfl, or_and_absorb _ _⟩⟩,
      ⟨fun hc => ?_, fun hc => absurd hc (by simp)⟩⟩
    revert hc
    decide

theorem sg_end_marked_last :
    ∀ (sgl : List scatterlist), sg_end_marked sgl → ∀ (j : Nat) (sg : scatterlist),
      sgl[j]? = some sg → (sg.is_last = true ↔ j + 1 = sgl.length) := by
  intro sgl
  induction sgl with
  | nil =>
    intro _ j sg h
    simp at h
  | cons sg0 rest ih =>
    intro hm j sg h
    cases rest with
    | nil =>
      simp only [sg_end_marked] at hm
      cases j with
      | zero =>
        simp only [List.getElem?_cons_zero, Option.some.injEq] at h
        subst h
        simp [hm]
      | succ j => simp at h
    | cons sg1 rest1 =>
      simp only [sg_end_marked] at hm
      cases j with
      | zero =>
        simp only [List.getElem?_cons_zero, Option.some.injEq] at h
        subst h
        simp [hm.1]
      | succ j =>
        simp only [List.getElem?_cons_succ] at h
        have := ih hm.2 j sg h
        simp only [List.length_cons] at this
        simp only [List.length_cons]
        rw [this]
        omega

/-- Where `phytium_dma_prep_slave_sg` puts the terminal marker: in every chain it builds
there is one entry per visited segment; an entry carries the terminal marker exactly
when its segment carries the scatterlist end mark, such an entry is the final entry
of the chain, and every other entry carries a link. When the end mark is on the last
of the `sg_len` entries of the scatterlist, the chain has `sg_len` entries, exactly
one of them carries the terminal marker, it is the final one (index `sg_len - 1`),
and every other entry carries a link. -/
theorem chain_terminal_marker (v2p : Nat → Nat) (mem : Nat → phytium_chan_desc)
    (s : chan_state) (sgl : List scatterlist) (sg_len : Nat) (dir : dma_transfer_direction)
    (flags : Nat) (ok : Bool) (kz : Nat) (d : phytium_dma_desc)
    (h : (phytium_dma_prep_slave_sg v2p mem s sgl sg_len dir flags ok kz).1 = some d) :
    d.chain.length = (sg_visited sgl sg_len).length ∧
    (∀ j sg e, (sg_visited sgl sg_len)[j]? = some sg → d.chain[j]? = some e →
      (carries_terminal e ↔ sg.is_last = true) ∧ (carries_link e ↔ sg.is_last = false) ∧
      (carries_terminal e → j + 1 = d.chain.length)) ∧
    (sg_end_marked sgl → sg_len = sgl.length →
      0 < d.chain.length ∧ d.chain.length = sg_len ∧
      ∀ j e, d.chain[j]? = some e →
        (carries_terminal e ↔ j + 1 = sg_len) ∧ (carries_link e ↔ j + 1 ≠ sg_len)) := by
  obtain ⟨_, hn, _, _, _, total, hloop⟩ := prep_slave_sg_accepted v2p mem s sgl sg_len dir
    flags ok kz d h
  obtain ⟨l1, l2⟩ := sg_loop_entries _ _ _ _ _ _ _ _ _ _ _ _ hloop
  have key : ∀ (j : Nat) (sg : scatterlist) (e : phytium_chan_desc),
      (sg_visited sgl sg_len)[j]? = some sg → d.chain[j]? = some e →
      (carries_terminal e ↔ sg.is_last = true) ∧ (carries_link e ↔ sg.is_last = false) := by
    intro j sg e hj he
    obtain ⟨e1, b1, b2⟩ := l2 j sg hj
    rw [he] at b1
    simp only [Option.some.injEq] at b1
    subst b1
    exact sg_entry_marker _ _ _ _ _ _ _ b2
  refine ⟨l1, fun j sg e hj he => ?_, fun hm hlen => ?_⟩
  · obtain ⟨k1, k2⟩ := key j sg e hj he
    refine ⟨k1, k2, fun ht => ?_⟩
    rw [l1]
    exact sg_visited_last_final _ _ _ _ hj (k1.mp ht)
  · have hv : sg_visited sgl sg_len = sgl := by
      rw [hlen]
      exact sg_visited_all sgl hm
    rw [hv] at l1 key
    refine ⟨by omega, by omega, fun j e he => ?_⟩
    have hj : j < sgl.length := by
      rw [← l1]
      exact (List.getElem?_eq_some_iff.mp he).1
    obtain ⟨k1, k2⟩ := key j sgl[j] e (List.getElem?_eq_getElem hj) he
    have hlast := sg_end_marked_last sgl hm j sgl[j] (List.getElem?_eq_getElem hj)
    rw [hlen]
    refine ⟨k1.trans hlast, k2.trans ?_⟩
    rw [Ne, ← hlast]
    simp

/-- The two segments of `scen_sgl` (end mark on the second) passed with `sg_len` 2
give a chain of two entries, a link followed by the terminal marker. -/
theorem chain_terminal_marker_witness :
    (phytium_dma_prep_slave_sg (fun a => a) zero_mem scen_config scen_sgl 2
      DMA_MEM_TO_DEV 0 true 0x1000).1 = some scen_sg_desc ∧
    scen_sg_desc.chain.map (fun e => (e.desc_next_addr_l, e.desc_next_addr_h, e.desc_control))
      = [(0x1032, 0, 0x100000), (0x01, 0, 0x20030)] ∧
    (scen_sg_desc.chain.length = (sg_visited scen_sgl 2).length ∧
    (∀ j sg e, (sg_visited scen_sgl 2)[j]? = some sg → scen_sg_desc.chain[j]? = some e →
      (carries_terminal e ↔ sg.is_last = true) ∧ (carries_link e ↔ sg.is_last = false) ∧
      (carries_terminal e → j + 1 = scen_sg_desc.chain.length)) ∧
    (sg_end_marked scen_sgl → 2 = scen_sgl.length →
      0 < scen_sg_desc.chain.length ∧ scen_sg_desc.chain.length = 2 ∧
      ∀ j e, scen_sg_desc.chain[j]? = some e →
        (carries_terminal e ↔ j + 1 = 2) ∧ (carries_link e ↔ j + 1 ≠ 2))) :=
  ⟨by decide, by decide,
    chain_terminal_marker (fun a => a) zero_mem scen_config scen_sgl 2 DMA_MEM_TO_DEV 0 true
      0x1000 scen_sg_desc (by decide)⟩

/-- C12 (the code departs from the claim): `scen_sgl` is a scatterlist of two entries
with the end mark on the second; called with `sg_len` 1 (as after `dma_map_sg` merged
the mapping into one segment) the routine accepts the request and builds a chain of
one entry, the final entry of index `sg_len - 1`. The loop writes the terminal marker
only for a segment that passes `sg_is_last`, so this entry carries a link: no entry
of the chain carries the terminal marker and the chain is not terminated. -/
theorem chain_without_terminal_marker :
    sg_end_marked scen_sgl ∧
    (phytium_dma_prep_slave_sg (fun a => a) zero_mem scen_config scen_sgl 1
      DMA_MEM_TO_DEV 0 true 0x1000).1 = some scen_sg_short ∧
    scen_sg_short.chain.length = 1 ∧
    (∀ e ∈ scen_sg_short.chain, carries_link e ∧ ¬ carries_terminal e) ∧
    ¬ (∃ e ∈ scen_sg_short.chain, carries_terminal e) := by
  refine ⟨⟨rfl, rfl⟩, by decide, by decide, by decide, by decide⟩

/-- The alignment adjustment of `phytium_dma_prep_slave_sg` moves the pointer by a
multiple of 32 bytes, so the chain base has the low 5 address bits of the address
`kzalloc` returned. -/
theorem chain_base_low_bits (kz : Nat) : chain_base_of kz % 32 = kz % 32 := by
  unfold chain_base_of sizeof_phytium_chan_desc
  split
  · rw [Nat.mod_mod_of_dvd _ (by decide : 32 ∣ 2 ^ 64)]
    exact Nat.add_mul_mod_self_right _ _ _
  · rfl

/-- C13 (the code departs from the claim): for chain memory allocated at 0x1008, 8
bytes past a 32-byte boundary, the adjustment `chan_desc + 32 - offset` advances the
pointer by 24 entries of 32 bytes: the chain base the routine fills and programs into
the source address register is 0x1308, whose low 5 bits are still 8 (the next 32-byte
boundary is 0x1020). -/
theorem chain_base_not_aligned :
    (phytium_dma_prep_slave_sg (fun a => a) zero_mem scen_config scen_sgl 2
      DMA_MEM_TO_DEV 0 true 0x1008).1 = some scen_sg_unaligned ∧
    scen_sg_unaligned.cdesc = 0x1008 ∧
    (0x1008 &&& 0x1F) = 8 ∧
    scen_sg_unaligned.chain_base = 0x1308 ∧
    (scen_sg_unaligned.chain_base &&& 0x1F) = 8 ∧
    scen_sg_unaligned.dma_srcaddr_l = 0x1308 ∧
    scen_sg_unaligned.dma_srcaddr_h = 0 ∧
    (scen_sg_unaligned.dma_srcaddr_l &&& 0x1F) ≠ 0 := by
  decide

/-- C11 (the code departs from the claim): for chain memory allocated at 0x1008 the
chain base is 0x1308 and entry 1 lies at the physical address 0x1328. Entry 0 is
non-terminal; its link halves are 0 and 0x1328 combined with 0x12, that is 0x133A,
and masking the low 5 bits of the link gives 0x1320, not the address 0x1328 of the
following entry. -/
theorem chain_link_misses_next_entry :
    (phytium_dma_prep_slave_sg (fun a => a) zero_mem scen_config scen_sgl 2
      DMA_MEM_TO_DEV 0 true 0x1008).1 = some scen_sg_unaligned ∧
    scen_sg_unaligned.chain.length = 2 ∧
    scen_sg_unaligned.chain_base + 1 * sizeof_phytium_chan_desc = 0x1328 ∧
    scen_sg_unaligned.chain.map (fun e => (carries_link e : Bool)) = [true, false] ∧
    scen_sg_unaligned.chain.map (fun e => e.desc_next_addr_h) = [0, 0] ∧
    scen_sg_unaligned.chain.map (fun e => e.desc_next_addr_l) = [0x1328 ||| 0x12, 0x01] ∧
    (scen_sg_unaligned.chain.map chain_link_target).head? = some 0x1320 ∧
    (scen_sg_unaligned.chain.map chain_link_target).head?
      ≠ some (scen_sg_unaligned.chain_base + 1 * sizeof_phytium_chan_desc) := by
  decide

/-! ## Claims C14, C15, C16: rejected scatter-gather requests, allocate and release -/

/-- C14: `phytium_dma_prep_slave_sg` returns NULL when the direction is not a slave
direction, when the segment count is zero, when the channel is scheduled for release
(`releasing` set), when the descriptor allocation fails or when the chain allocation
fails; in each case the channel is exactly as before (queue, idle flag, registers):
`vchan_tx_prep` is not reached and nothing is handed to the queue. -/
theorem prep_slave_sg_rejects (v2p : Nat → Nat) (mem : Nat → phytium_chan_desc)
    (s : chan_state) (sgl : List scatterlist) (sg_len : Nat) (dir : dma_transfer_direction)
    (flags : Nat) (ok : Bool) (kz : Nat)
    (h : is_slave_direction dir = false ∨ sg_len = 0 ∨ s.chan.releasing ≠ 0 ∨ ok = false ∨
      kz = 0) :
    phytium_dma_prep_slave_sg v2p mem s sgl sg_len dir flags ok kz = (none, s) := by
  unfold phytium_dma_prep_slave_sg
  simp only
  split
  · rfl
  · rename_i h1
    simp only [Bool.or_eq_true, Bool.not_eq_true', decide_eq_true_eq, not_or,
      Bool.not_eq_false] at h1
    split
    · rfl
    · rename_i h2
      rcases h with h | h | h | h | h
      · rw [h1.1] at h
        exact absurd h (by simp)
      · exact absurd h h1.2
      · exact absurd h h2
      · subst h
        simp [phytium_desc_get]
      · subst h
        cases ok <;> simp [phytium_desc_get]

/-- Witness for C14: each of the five failures on channel 0 (configured, then also
with `releasing` set as `free_chan_resources` leaves it). -/
theorem prep_slave_sg_rejects_witness :
    phytium_dma_prep_slave_sg (fun a => a) zero_mem scen_config scen_sgl 2
      DMA_MEM_TO_MEM 0 true 0x1000 = (none, scen_config) ∧
    phytium_dma_prep_slave_sg (fun a => a) zero_mem scen_config scen_sgl 0
      DMA_MEM_TO_DEV 0 true 0x1000 = (none, scen_config) ∧
    phytium_dma_prep_slave_sg (fun a => a) zero_mem (phytium_dma_free_chan_resources scen_config)
      scen_sgl 2 DMA_MEM_TO_DEV 0 true 0x1000
      = (none, phytium_dma_free_chan_resources scen_config) ∧
    phytium_dma_prep_slave_sg (fun a => a) zero_mem scen_config scen_sgl 2
      DMA_MEM_TO_DEV 0 false 0x1000 = (none, scen_config) ∧
    phytium_dma_prep_slave_sg (fun a => a) zero_mem scen_config scen_sgl 2
      DMA_MEM_TO_DEV 0 true 0 = (none, scen_config) :=
  ⟨prep_slave_sg_rejects _ _ _ _ _ _ _ _ _ (Or.inl (by decide)),
   prep_slave_sg_rejects _ _ _ _ _ _ _ _ _ (Or.inr (Or.inl rfl)),
   prep_slave_sg_rejects _ _ _ _ _ _ _ _ _ (Or.inr (Or.inr (Or.inl (by decide)))),
   prep_slave_sg_rejects _ _ _ _ _ _ _ _ _ (Or.inr (Or.inr (Or.inr (Or.inl rfl)))),
   prep_slave_sg_rejects _ _ _ _ _ _ _ _ _ (Or.inr (Or.inr (Or.inr (Or.inr rfl))))⟩

/-- C15: `phytium_dma_alloc_chan_resources` returns -EBUSY (-16) and leaves the
channel as it is exactly when the channel is already marked in-use; otherwise it
returns 0, marks the channel in-use and clears `releasing`. A second allocate
directly after an allocate fails, and an allocate after a release succeeds. -/
theorem alloc_chan_resources_busy (s : chan_state) :
    phytium_dma_alloc_chan_resources s =
      (if s.chan.is_used then (-16, s)
       else (0, { s with chan := { s.chan with is_used := true, releasing := 0 } })) ∧
    ((phytium_dma_alloc_chan_resources s).1 = -16 ↔ s.chan.is_used = true) ∧
    ((phytium_dma_alloc_chan_resources s).1 = 0 ↔ s.chan.is_used = false) ∧
    (phytium_dma_alloc_chan_resources s).2.chan.is_used = true ∧
    phytium_dma_alloc_chan_resources (phytium_dma_alloc_chan_resources s).2
      = (-16, (phytium_dma_alloc_chan_resources s).2) ∧
    (phytium_dma_free_chan_resources s).chan.is_used = false ∧
    (phytium_dma_alloc_chan_resources (phytium_dma_free_chan_resources s)).1 = 0 ∧
    (phytium_dma_alloc_chan_resources (phytium_dma_free_chan_resources s)).2.chan.is_used
      = true ∧
    (phytium_dma_alloc_chan_resources (phytium_dma_free_chan_resources s)).2.chan.releasing
      = 0 := by
  have e : ∀ t : chan_state, phytium_dma_alloc_chan_resources t =
      (if t.chan.is_used then (-16, t)
       else (0, { t with chan := { t.chan with is_used := true, releasing := 0 } })) :=
    fun _ => rfl
  have f : (phytium_dma_free_chan_resources s).chan.is_used = false := rfl
  have a : (phytium_dma_alloc_chan_resources s).2.chan.is_used = true := by
    rw [e]
    cases hu : s.chan.is_used
    · rfl
    · simpa using hu
  refine ⟨e s, ?_, ?_, a, ?_, f, ?_, ?_, ?_⟩
  · rw [e]
    cases hu : s.chan.is_used <;> simp
  · rw [e]
    cases hu : s.chan.is_used <;> simp
  · rw [e (phytium_dma_alloc_chan_resources s).2, a]
    rfl
  · rw [e, f]
    rfl
  · rw [e, f]
    rfl
  · rw [e, f]
    rfl

theorem and_mod_of_lt (v m : Nat) (h : v < 2 ^ 32) : (v &&& m) % 2 ^ 32 = v &&& m :=
  Nat.mod_eq_of_lt (Nat.lt_of_le_of_lt Nat.and_le_left h)

theorem free_chan_resources_control (s : chan_state) :
    phytium_chan_ioread32 (phytium_dma_free_chan_resources s) DMA_CONTROL
      = phytium_chan_ioread32 s DMA_CONTROL &&& 0xFFFFF0FE := by
  have hv : phytium_chan_ioread32 s DMA_CONTROL < 2 ^ 32 := by
    unfold phytium_chan_ioread32 ioread32
    exact Nat.mod_lt _ (by decide)
  have e : phytium_chan_ioread32 (phytium_dma_free_chan_resources s) DMA_CONTROL
      = ((phytium_chan_ioread32 s DMA_CONTROL &&& not32 DMA_CTRL_START) % 2 ^ 32
          &&& not32 (DMA_CTRL_IRQ_MASK 0xF)) % 2 ^ 32 := by
    unfold phytium_dma_free_chan_resources vchan_free_chan_resources phytium_chan_irq_disable
      phytium_chan_disable spin_lock_irqsave spin_unlock_irqrestore
    simp only [phytium_chan_iowrite32, phytium_chan_ioread32, ioread32_iowrite32, if_true,
      Nat.mod_mod]
  rw [e, and_mod_of_lt _ _ hv, and_mod_of_lt _ _ (Nat.lt_of_le_of_lt Nat.and_le_left hv),
    Nat.land_assoc]
  have hc : not32 DMA_CTRL_START &&& not32 (DMA_CTRL_IRQ_MASK 0xF) = 0xFFFFF0FE := by decide
  rw [hc]

theorem mask_f0fe_bits (i : Nat) :
    (0xFFFFF0FE : Nat).testBit i = (decide (i < 32) && !(decide (i = 0) || (decide (8 ≤ i) && decide (i ≤ 11)))) := by
  by_cases h : i < 32
  · interval_cases i <;> rfl
  · have h1 : (0xFFFFF0FE : Nat) < 2 ^ i :=
      Nat.lt_of_lt_of_le (by decide : (0xFFFFF0FE : Nat) < 2 ^ 32)
        (Nat.pow_le_pow_right (by decide) (by omega))
    rw [Nat.testBit_lt_two_pow h1]
    simp [h]

/-- C16: `phytium_dma_free_chan_resources` always runs to its end. Afterwards the
control register of the channel is the old one with bit 0 (start) and bits 8..11 (the
four interrupt enables) cleared and every other bit as before, no other register is
written, the channel is marked not in-use (with `releasing` set) and its lists are
empty. -/
theorem free_chan_resources_effect (s : chan_state) :
    phytium_chan_ioread32 (phytium_dma_free_chan_resources s) DMA_CONTROL
      = phytium_chan_ioread32 s DMA_CONTROL &&& 0xFFFFF0FE ∧
    (phytium_chan_ioread32 (phytium_dma_free_chan_resources s) DMA_CONTROL).testBit 0 = false ∧
    (∀ i, 8 ≤ i → i ≤ 11 →
      (phytium_chan_ioread32 (phytium_dma_free_chan_resources s) DMA_CONTROL).testBit i
        = false) ∧
    (∀ i, i ≠ 0 → (i < 8 ∨ 11 < i) →
      (phytium_chan_ioread32 (phytium_dma_free_chan_resources s) DMA_CONTROL).testBit i
        = (phytium_chan_ioread32 s DMA_CONTROL).testBit i) ∧
    (∀ a, a ≠ s.chan.id * CHAN_REG_LEN + DMA_CONTROL →
      (phytium_dma_free_chan_resources s).regs a = s.regs a) ∧
    (phytium_dma_free_chan_resources s).chan.is_used = false ∧
    (phytium_dma_free_chan_resources s).chan.releasing = 1 ∧
    (phytium_dma_free_chan_resources s).chan.is_idle = s.chan.is_idle ∧
    (phytium_dma_free_chan_resources s).chan.vc.desc_allocated = [] ∧
    (phytium_dma_free_chan_resources s).chan.vc.desc_submitted = [] ∧
    (phytium_dma_free_chan_resources s).chan.vc.desc_issued = [] ∧
    (phytium_dma_free_chan_resources s).chan.vc.desc_completed = [] := by
  have hc := free_chan_resources_control s
  have hhi : ∀ i, 32 ≤ i → (phytium_chan_ioread32 s DMA_CONTROL).testBit i = false := by
    intro i hi
    apply Nat.testBit_lt_two_pow
    unfold phytium_chan_ioread32 ioread32
    exact Nat.lt_of_lt_of_le (Nat.mod_lt _ (by decide)) (Nat.pow_le_pow_right (by decide) hi)
  refine ⟨hc, ?_, ?_, ?_, ?_, rfl, rfl, rfl, rfl, rfl, rfl, rfl⟩
  · rw [hc, Nat.testBit_and, mask_f0fe_bits]
    simp
  · intro i h1 h2
    rw [hc, Nat.testBit_and, mask_f0fe_bits]
    simp [h1, h2]
  · intro i h0 h1
    rw [hc, Nat.testBit_and, mask_f0fe_bits]
    by_cases h32 : i < 32
    · simp only [h32, h0, decide_True, decide_False, Bool.false_or, Bool.true_and]
      rcases h1 with h1 | h1
      · have h8 : ¬ 8 ≤ i := by omega
        simp [h8]
      · have h11 : ¬ i ≤ 11 := by omega
        simp [h11]
    · rw [hhi i (by omega)]
      simp
  · intro a ha
    unfold phytium_dma_free_chan_resources vchan_free_chan_resources phytium_chan_irq_disable
      phytium_chan_disable spin_lock_irqsave spin_unlock_irqrestore
    simp only [phytium_chan_iowrite32, iowrite32, ha, if_false]

/-! ## Claim C20: the shared-line handler on an interrupt that is not its own -/

/-- C20: when no enabled bit is set in the chip status (`(status & 0xffff) & mask` is
zero), `phytium_dma_interrupt_intx` returns `IRQ_NONE` and the chip is exactly as
before: no chip or channel register is written and no channel has its queue, idle
flag or lock changed. -/
theorem interrupt_intx_not_mine (chip : phytium_dma_chip)
    (h : ((phytium_dma_irq_read chip.regs &&& 0xffff) &&& phytium_dma_irq_mask_read chip.regs)
      = 0) :
    phytium_dma_interrupt_intx chip = (IRQ_NONE, chip) := by
  unfold phytium_dma_interrupt_intx
  simp only [h, if_true]

/-- Witness for C20: channel 0 has raised its status bit but the chip interrupt mask
is zero (interrupts disabled), so the line was raised by another device. -/
theorem interrupt_intx_not_mine_witness :
    phytium_dma_irq_read scen_chip_masked.regs = 1 ∧
    ((phytium_dma_irq_read scen_chip_masked.regs &&& 0xffff)
      &&& phytium_dma_irq_mask_read scen_chip_masked.regs) = 0 ∧
    phytium_dma_interrupt_intx scen_chip_masked = (IRQ_NONE, scen_chip_masked) :=
  ⟨by decide, by decide, interrupt_intx_not_mine scen_chip_masked (by decide)⟩

/-! ## Claims C18 and C19: the registers after a start -/

theorem block_xfer_start_control (s : chan_state) (d : phytium_dma_desc)
    (h : phytium_chan_is_running s = false) :
    phytium_chan_ioread32 (phytium_chan_block_xfer_start s d) DMA_CONTROL
      = started_control (phytium_chan_ioread32 s DMA_CONTROL) d.dma_ctrl := by
  rw [block_xfer_start_eq, h]
  simp only [Bool.false_eq_true, if_false]
  unfold started_control phytium_chan_enable phytium_chan_irq_set
  simp only [phytium_chan_iowrite32, phytium_chan_ioread32, ioread32_iowrite32]
  simp [DMA_SRCPARAM, DMA_DESTPARAM, DMA_SRCADDR_L, DMA_SRCADDR_H, DMA_DESTADDR_L,
    DMA_DESTADDR_H, DMA_LENGTH, DMA_CONTROL]

theorem started_control_start (old ctrl i : Nat) (hi : i < 32)
    (h : DMA_CTRL_START.testBit i = true) : (started_control old ctrl).testBit i = true := by
  unfold started_control
  simp only [Nat.testBit_mod_two_pow, Nat.testBit_or, Nat.testBit_and, h, hi, decide_True,
    Bool.true_and, Bool.or_true]

theorem started_control_irq (old ctrl i : Nat) (hi : i < 32)
    (h : (DMA_CTRL_IRQ_END ||| DMA_CTRL_IRQ_EOP ||| DMA_CTRL_IRQ_ERR).testBit i = true) :
    (started_control old ctrl).testBit i = true := by
  unfold started_control
  simp only [Nat.testBit_mod_two_pow, Nat.testBit_or, Nat.testBit_and, h, hi, decide_True,
    Bool.true_and, Bool.or_true, Bool.true_or]

theorem started_control_cond (old ctrl i : Nat) (hi : i < 32)
    (h : (DMA_CTRL_COND_LEN ||| DMA_CTRL_COND_EOP ||| DMA_CTRL_COND_ERR).testBit i = true)
    (hm : (not32 (DMA_CTRL_IRQ_MASK 0xF)).testBit i = true) :
    (started_control old ctrl).testBit i = true := by
  unfold started_control
  simp only [Nat.testBit_mod_two_pow, Nat.testBit_or, Nat.testBit_and, h, hm, hi, decide_True,
    Bool.true_and, Bool.or_true, Bool.true_or, Bool.and_true]

/-- A bit of the control register outside the fields `phytium_chan_block_xfer_start`
sets is the OR of the old bit and the bit of the control word of the descriptor: a
bit left set by an earlier transfer stays set. -/
theorem started_control_or (old ctrl i : Nat) (hi : i < 32)
    (h1 : (DMA_CTRL_COND_LEN ||| DMA_CTRL_COND_EOP ||| DMA_CTRL_COND_ERR).testBit i = false)
    (h2 : (not32 (DMA_CTRL_IRQ_MASK 0xF)).testBit i = true)
    (h3 : (DMA_CTRL_IRQ_END ||| DMA_CTRL_IRQ_EOP ||| DMA_CTRL_IRQ_ERR).testBit i = false)
    (h4 : (DMA_CTRL_IRQ_ID 1).testBit i = false)
    (h5 : DMA_CTRL_START.testBit i = false) :
    (started_control old ctrl).testBit i = (old.testBit i || ctrl.testBit i) := by
  unfold started_control
  simp only [Nat.testBit_mod_two_pow, Nat.testBit_or, Nat.testBit_and, h1, h2, h3, h4, h5, hi,
    decide_True, Bool.true_and, Bool.or_false, Bool.and_true]

/-- C18: when `issue_pending` finds the channel idle with the start bit clear and a
head-of-queue descriptor `d`, afterwards the SRCPARAM, DESTPARAM, SRCADDR_L/H,
DESTADDR_L/H and LENGTH registers of the channel read the fields of `d` (as 32-bit
values), the control register has bits 5..7 (completion conditions length,
end-of-packet, error), bits 8..10 (interrupt enables END, ERR, EOP) and bit 0 (start)
set, the channel is marked not idle and `d` is the descriptor handed to the engine. -/
theorem issue_pending_programs_head (s : chan_state) (d : phytium_dma_desc)
    (rest : List phytium_dma_desc) (hidle : s.chan.is_idle = true)
    (hstop : phytium_chan_is_running s = false)
    (hq : s.chan.vc.desc_issued ++ s.chan.vc.desc_submitted = d :: rest) :
    regs_hold (phytium_dma_issue_pending s) d ∧
    (∀ i, (i = 0 ∨ (5 ≤ i ∧ i ≤ 10)) →
      (phytium_chan_ioread32 (phytium_dma_issue_pending s) DMA_CONTROL).testBit i = true) ∧
    phytium_chan_ioread32 (phytium_dma_issue_pending s) DMA_CONTROL
      = started_control (phytium_chan_ioread32 s DMA_CONTROL) d.dma_ctrl ∧
    phytium_chan_is_running (phytium_dma_issue_pending s) = true ∧
    (phytium_dma_issue_pending s).chan.is_idle = false ∧
    (phytium_dma_issue_pending s).chan.hw_active = s.chan.hw_active ++ [d] ∧
    (phytium_dma_issue_pending s).chan.vc.desc_issued = d :: rest := by
  have hr : phytium_chan_is_running
      { chan := { s.chan with
                  vc := { s.chan.vc with
                          lock := true, desc_issued := d :: rest, desc_submitted := [] } },
        regs := s.regs } = false := by
    rw [is_running_eq] at *
    rw [← hstop]
    exact start_bit_congr _ _ rfl rfl
  have hc := block_xfer_start_control _ d hr
  have hh := block_xfer_start_regs_hold _ d hr
  have hch := block_xfer_start_chan _ d hr
  obtain ⟨hrun, _, _⟩ := block_xfer_start_stopped _ d hr
  have e : phytium_dma_issue_pending s = spin_unlock_irqrestore
      (phytium_chan_block_xfer_start
        { chan := { s.chan with
                    vc := { s.chan.vc with
                            lock := true, desc_issued := d :: rest, desc_submitted := [] } },
          regs := s.regs } d) := by
    rw [issue_pending_eq, hq, hidle]
    simp only [List.isEmpty_cons, Bool.not_false, Bool.and_true, if_true]
    rfl
  rw [e]
  have hrd : ∀ r, phytium_chan_ioread32 (spin_unlock_irqrestore
      (phytium_chan_block_xfer_start
        { chan := { s.chan with
                    vc := { s.chan.vc with
                            lock := true, desc_issued := d :: rest, desc_submitted := [] } },
          regs := s.regs } d)) r
      = phytium_chan_ioread32 (phytium_chan_block_xfer_start
        { chan := { s.chan with
                    vc := { s.chan.vc with
                            lock := true, desc_issued := d :: rest, desc_submitted := [] } },
          regs := s.regs } d) r :=
    fun r => chan_ioread32_congr _ _ rfl rfl r
  have hrun1 : phytium_chan_is_running (spin_unlock_irqrestore
      (phytium_chan_block_xfer_start
        { chan := { s.chan with
                    vc := { s.chan.vc with
                            lock := true, desc_issued := d :: rest, desc_submitted := [] } },
          regs := s.regs } d)) = true := by
    rw [is_running_eq]
    rw [is_running_eq] at hrun
    exact (start_bit_congr _ _ rfl rfl).trans hrun
  have hctl : phytium_chan_ioread32 (spin_unlock_irqrestore
      (phytium_chan_block_xfer_start
        { chan := { s.chan with
                    vc := { s.chan.vc with
                            lock := true, desc_issued := d :: rest, desc_submitted := [] } },
          regs := s.regs } d)) DMA_CONTROL
      = started_control (phytium_chan_ioread32 s DMA_CONTROL) d.dma_ctrl := by
    rw [hrd, hc]
    rfl
  refine ⟨?_, ?_, hctl, hrun1, ?_, ?_, ?_⟩
  · exact regs_hold_congr _ _ d ⟨hrun1.trans hrun.symm, fun r _ _ => hrd r⟩ hh
  · intro i hi
    rw [hctl]
    rcases hi with hi | ⟨h5, h10⟩
    · subst hi
      exact started_control_start _ _ 0 (by decide) (by decide)
    · by_cases h7 : i ≤ 7
      · have : i = 5 ∨ i = 6 ∨ i = 7 := by omega
        rcases this with h | h | h <;> subst h <;>
          exact started_control_cond _ _ _ (by decide) (by decide) (by decide)
      · have : i = 8 ∨ i = 9 ∨ i = 10 := by omega
        rcases this with h | h | h <;> subst h <;>
          exact started_control_irq _ _ _ (by decide) (by decide)
  · show (phytium_chan_block_xfer_start _ d).chan.is_idle = false
    rw [hch]
  · show (phytium_chan_block_xfer_start _ d).chan.hw_active = _
    rw [hch]
  · show (phytium_chan_block_xfer_start _ d).chan.vc.desc_issued = _
    rw [hch]

/-- Witness for C18: the three submitted memcpy descriptors on idle channel 0;
`issue_pending` programs the first one (length 4096, control register 0x17E9). -/
theorem issue_pending_programs_head_witness :
    scen_submitted.chan.is_idle = true ∧
    phytium_chan_is_running scen_submitted = false ∧
    phytium_chan_ioread32 (phytium_dma_issue_pending scen_submitted) DMA_LENGTH = 4096 ∧
    phytium_chan_ioread32 (phytium_dma_issue_pending scen_submitted) DMA_SRCADDR_L
      = 0x80000000 ∧
    phytium_chan_ioread32 (phytium_dma_issue_pending scen_submitted) DMA_CONTROL = 0x17E9 ∧
    (regs_hold (phytium_dma_issue_pending scen_submitted) scen_head ∧
    (∀ i, (i = 0 ∨ (5 ≤ i ∧ i ≤ 10)) →
      (phytium_chan_ioread32 (phytium_dma_issue_pending scen_submitted) DMA_CONTROL).testBit i
        = true) ∧
    phytium_chan_ioread32 (phytium_dma_issue_pending scen_submitted) DMA_CONTROL
      = started_control (phytium_chan_ioread32 scen_submitted DMA_CONTROL) scen_head.dma_ctrl ∧
    phytium_chan_is_running (phytium_dma_issue_pending scen_submitted) = true ∧
    (phytium_dma_issue_pending scen_submitted).chan.is_idle = false ∧
    (phytium_dma_issue_pending scen_submitted).chan.hw_active
      = scen_submitted.chan.hw_active ++ [scen_head] ∧
    (phytium_dma_issue_pending scen_submitted).chan.vc.desc_issued
      = scen_head :: scen_submitted.chan.vc.desc_submitted.tail) :=
  ⟨by decide, by decide, by decide, by decide, by decide,
    issue_pending_programs_head scen_submitted scen_head
      scen_submitted.chan.vc.desc_submitted.tail (by decide) (by decide) (by decide)⟩

/-- C19 (the code departs from the claim): `phytium_chan_block_xfer_start` ORs the
control word of the descriptor into the control register and never clears the
chain-type field. After a memory-to-device scatter-gather transfer (chain type 1)
has completed on channel 0, a memcpy descriptor (chain type 0) is started with the
chain-type field of the control register still reading 1. -/
theorem chain_type_left_from_earlier_transfer :
    sg_type_field (phytium_chan_ioread32 scen_sg_issued DMA_CONTROL) = 1 ∧
    scen_sg_completed.chan.is_idle = true ∧
    scen_sg_completed.chan.vc.desc_issued = [] ∧
    phytium_chan_is_running scen_sg_completed = false ∧
    scen_memcpy_after_sg.chan.hw_active.map (fun d => sg_type_field d.dma_ctrl) = [0] ∧
    phytium_chan_is_running scen_memcpy_after_sg = true ∧
    sg_type_field (phytium_chan_ioread32 scen_memcpy_after_sg DMA_CONTROL) = 1 := by
  decide

/-! ## Claim C17: `issue_pending` starts a descriptor only on an idle channel -/

theorem idle_queue_empty_congr (s t : chan_state) (h1 : t.chan.is_idle = s.chan.is_idle)
    (h2 : t.chan.vc.desc_issued = s.chan.vc.desc_issued) (h : idle_queue_empty s) :
    idle_queue_empty t := by
  unfold idle_queue_empty at *
  rw [h1, h2]
  exact h

theorem block_xfer_start_is_idle (s : chan_state) (d : phytium_dma_desc) :
    (phytium_chan_block_xfer_start s d).chan.is_idle = false := by
  rw [block_xfer_start_eq]
  split
  · rfl
  · rfl

theorem idle_queue_empty_start_first_queued (s : chan_state) :
    idle_queue_empty (phytium_chan_start_first_queued s) := by
  unfold phytium_chan_start_first_queued vchan_next_desc
  cases hq : s.chan.vc.desc_issued with
  | nil =>
    simp only [List.head?_nil]
    intro _
    exact hq
  | cons d l =>
    simp only [List.head?_cons]
    intro hi
    rw [block_xfer_start_is_idle] at hi
    exact absurd hi (by simp)

theorem idle_queue_empty_xfer_complete (s : chan_state) :
    idle_queue_empty (phytium_chan_block_xfer_complete s).2 := by
  unfold phytium_chan_block_xfer_complete
  simp only
  split
  · rename_i hn
    intro _
    unfold vchan_next_desc at hn
    exact List.head?_eq_none_iff.mp hn
  · exact idle_queue_empty_start_first_queued _

theorem idle_queue_empty_issue_pending (s : chan_state) :
    idle_queue_empty (phytium_dma_issue_pending s) := by
  rw [issue_pending_eq]
  refine idle_queue_empty_congr _ _ rfl rfl ?_
  split
  · exact idle_queue_empty_start_first_queued _
  · rename_i hc
    intro hi
    have hi2 : s.chan.is_idle = true := hi
    rw [hi2] at hc
    have he : (s.chan.vc.desc_issued ++ s.chan.vc.desc_submitted).isEmpty = true := by
      cases hx : (s.chan.vc.desc_issued ++ s.chan.vc.desc_submitted).isEmpty
      · rw [hx] at hc
        exact absurd rfl hc
      · rfl
    exact List.isEmpty_iff.mp he

theorem idle_queue_empty_interrupt_msi (s : chan_state) (h : idle_queue_empty s) :
    idle_queue_empty (phytium_dma_interrupt_msi s).2 := by
  unfold phytium_dma_interrupt_msi
  simp only
  split
  · exact idle_queue_empty_congr s _ rfl rfl h
  · refine idle_queue_empty_congr _ _ rfl rfl ?_
    split
    · exact idle_queue_empty_congr s _ rfl rfl h
    · split
      · exact idle_queue_empty_xfer_complete _
      · exact idle_queue_empty_congr s _ rfl rfl h

theorem idle_queue_empty_interrupt_intx_chan (s : chan_state) (h : idle_queue_empty s) :
    idle_queue_empty (phytium_dma_interrupt_intx_chan s) := by
  unfold phytium_dma_interrupt_intx_chan
  simp only
  refine idle_queue_empty_congr _ _ rfl rfl ?_
  split
  · exact idle_queue_empty_congr s _ rfl rfl h
  · split
    · unfold phytium_chan_block_xfer_complete_intx
      simp only
      split
      · exact idle_queue_empty_congr _ _ rfl rfl (idle_queue_empty_xfer_complete _)
      · exact idle_queue_empty_xfer_complete _
    · exact idle_queue_empty_congr s _ rfl rfl h

theorem prep_dma_memcpy_issued (hdata : phytium_dma_hcfg) (s : chan_state)
    (dst src len flags : Nat) (ok : Bool) :
    (phytium_dma_prep_dma_memcpy hdata s dst src len flags ok).2.chan.vc.desc_issued
      = s.chan.vc.desc_issued := by
  unfold phytium_dma_prep_dma_memcpy
  simp only
  split
  · rfl
  · split
    · rfl
    · split
      · rfl
      · rfl

theorem prep_slave_sg_issued (v2p : Nat → Nat) (mem : Nat → phytium_chan_desc) (s : chan_state)
    (sgl : List scatterlist) (sg_len : Nat) (dir : dma_transfer_direction) (flags : Nat)
    (ok : Bool) (kz : Nat) :
    (phytium_dma_prep_slave_sg v2p mem s sgl sg_len dir flags ok kz).2.chan.vc.desc_issued
      = s.chan.vc.desc_issued := by
  unfold phytium_dma_prep_slave_sg
  simp only
  split
  · rfl
  · split
    · rfl
    · split
      · rfl
      · split
        · rfl
        · split
          · rfl
          · split
            · rfl
            · rfl

theorem vchan_tx_submit_issued (s : chan_state) (i : Nat) :
    (vchan_tx_submit s i).2.chan.vc.desc_issued = s.chan.vc.desc_issued := by
  unfold vchan_tx_submit
  split
  · rfl
  · rfl

theorem idle_queue_empty_step (s t : chan_state) (hst : chan_step s t)
    (h : idle_queue_empty s) : idle_queue_empty t := by
  cases hst with
  | slave_config c =>
    unfold phytium_dma_slave_config
    split
    · exact h
    · exact idle_queue_empty_congr s _ rfl rfl h
  | prep_memcpy hdata dst src len flags ok =>
    exact idle_queue_empty_congr s _ (prep_dma_memcpy_frame hdata s dst src len flags ok).2.2.2
      (prep_dma_memcpy_issued hdata s dst src len flags ok) h
  | prep_slave_sg v2p mem sgl sg_len dir flags ok kz =>
    exact idle_queue_empty_congr s _
      (prep_slave_sg_frame v2p mem s sgl sg_len dir flags ok kz).2.2.2
      (prep_slave_sg_issued v2p mem s sgl sg_len dir flags ok kz) h
  | submit i =>
    exact idle_queue_empty_congr s _ (vchan_tx_submit_frame s i).2.2.2
      (vchan_tx_submit_issued s i) h
  | issue_pending => exact idle_queue_empty_issue_pending s
  | terminate_all =>
    intro _
    rfl
  | interrupt_msi => exact idle_queue_empty_interrupt_msi s h
  | interrupt_intx => exact idle_queue_empty_interrupt_intx_chan s h
  | tasklet => exact idle_queue_empty_congr s _ rfl rfl h
  | alloc_chan_resources =>
    unfold phytium_dma_alloc_chan_resources
    split
    · exact h
    · exact idle_queue_empty_congr s _ rfl rfl h
  | free_chan_resources =>
    intro _
    rfl
  | hw regs =>
    unfold hw_move
    simp only
    split
    · exact idle_queue_empty_congr s _ rfl rfl h
    · exact idle_queue_empty_congr s _ rfl rfl h

theorem idle_queue_empty_reachable (s : chan_state) (h : chan_reachable s) :
    idle_queue_empty s := by
  induction h with
  | probe i regs h0 =>
    intro _
    rfl
  | step s t _ ht ih => exact idle_queue_empty_step s t ht ih

theorem issue_pending_nothing_queued (s : chan_state) (h1 : s.chan.vc.desc_submitted = [])
    (h2 : s.chan.vc.desc_issued = []) :
    (phytium_dma_issue_pending s).regs = s.regs ∧
    (phytium_dma_issue_pending s).chan.hw_active = s.chan.hw_active ∧
    (phytium_dma_issue_pending s).chan.is_idle = s.chan.is_idle := by
  rw [issue_pending_eq]
  simp only [h1, h2, List.append_nil, List.isEmpty_nil, Bool.not_true, Bool.false_and,
    Bool.false_eq_true, if_false]
  exact ⟨rfl, rfl, rfl⟩

/-- C17: `phytium_dma_issue_pending` starts the head of the queue only on an idle
channel. When `is_idle` is false, or when nothing has been submitted (the submitted
list is empty, on a channel whose issued list is empty, which is the case whenever
an idle channel was reached from probe through the driver's operations), it leaves
every register as it was (no register write), leaves `is_idle` as it was and hands
nothing to the engine. The prep operations `phytium_dma_prep_dma_memcpy` and
`phytium_dma_prep_slave_sg`, and the submit method of a prepared descriptor, never
change a register, `is_idle` or what the engine holds, whatever their arguments
and outcome. -/
theorem issue_pending_starts_only_when_idle (s : chan_state) :
    ((s.chan.is_idle = false ∨
        (s.chan.vc.desc_submitted = [] ∧ (s.chan.vc.desc_issued = [] ∨ chan_reachable s))) →
      (phytium_dma_issue_pending s).regs = s.regs ∧
      (phytium_dma_issue_pending s).chan.is_idle = s.chan.is_idle ∧
      (phytium_dma_issue_pending s).chan.hw_active = s.chan.hw_active) ∧
    (∀ (hdata : phytium_dma_hcfg) (dst src len flags : Nat) (ok : Bool),
      (phytium_dma_prep_dma_memcpy hdata s dst src len flags ok).2.regs = s.regs ∧
      (phytium_dma_prep_dma_memcpy hdata s dst src len flags ok).2.chan.is_idle
        = s.chan.is_idle ∧
      (phytium_dma_prep_dma_memcpy hdata s dst src len flags ok).2.chan.hw_active
        = s.chan.hw_active) ∧
    (∀ (v2p : Nat → Nat) (mem : Nat → phytium_chan_desc) (sgl : List scatterlist)
        (sg_len : Nat) (dir : dma_transfer_direction) (flags : Nat) (ok : Bool) (kz : Nat),
      (phytium_dma_prep_slave_sg v2p mem s sgl sg_len dir flags ok kz).2.regs = s.regs ∧
      (phytium_dma_prep_slave_sg v2p mem s sgl sg_len dir flags ok kz).2.chan.is_idle
        = s.chan.is_idle ∧
      (phytium_dma_prep_slave_sg v2p mem s sgl sg_len dir flags ok kz).2.chan.hw_active
        = s.chan.hw_active) ∧
    (∀ i : Nat,
      (vchan_tx_submit s i).2.regs = s.regs ∧
      (vchan_tx_submit s i).2.chan.is_idle = s.chan.is_idle ∧
      (vchan_tx_submit s i).2.chan.hw_active = s.chan.hw_active) := by
  refine ⟨?_, ?_, ?_, ?_⟩
  · intro h
    cases hi : s.chan.is_idle with
    | false =>
      obtain ⟨a, b, c⟩ := issue_pending_not_idle s hi
      exact ⟨a, c, b⟩
    | true =>
      rcases h with h | ⟨hs, h⟩
      · rw [hi] at h
        exact absurd h (by simp)
      · have hq : s.chan.vc.desc_issued = [] := by
          rcases h with h | h
          · exact h
          · exact idle_queue_empty_reachable s h hi
        obtain ⟨a, b, c⟩ := issue_pending_nothing_queued s hs hq
        exact ⟨a, c.trans hi, b⟩
  · intro hdata dst src len flags ok
    obtain ⟨a, _, b, c⟩ := prep_dma_memcpy_frame hdata s dst src len flags ok
    exact ⟨a, c, b⟩
  · intro v2p mem sgl sg_len dir flags ok kz
    obtain ⟨a, _, b, c⟩ := prep_slave_sg_frame v2p mem s sgl sg_len dir flags ok kz
    exact ⟨a, c, b⟩
  · intro i
    obtain ⟨a, _, b, c⟩ := vchan_tx_submit_frame s i
    exact ⟨a, c, b⟩

/-- Witness for C17: with the first descriptor in the engine (`is_idle` false) and
a fourth descriptor submitted behind it, `issue_pending` moves the new descriptor
to the issued list and touches neither a register nor `is_idle`. -/
theorem issue_pending_starts_only_when_idle_witness :
    scen_busy_submitted.chan.is_idle = false ∧
    scen_busy_submitted.chan.vc.desc_submitted.length = 1 ∧
    (phytium_dma_issue_pending scen_busy_submitted).chan.vc.desc_issued.length = 4 ∧
    ((phytium_dma_issue_pending scen_busy_submitted).regs = scen_busy_submitted.regs ∧
    (phytium_dma_issue_pending scen_busy_submitted).chan.is_idle
      = scen_busy_submitted.chan.is_idle ∧
    (phytium_dma_issue_pending scen_busy_submitted).chan.hw_active
      = scen_busy_submitted.chan.hw_active) :=
  ⟨by decide, by decide, by decide,
    (issue_pending_starts_only_when_idle scen_busy_submitted).1 (Or.inl (by decide))⟩

/-! ## Links of a chain whose entries are aligned -/

theorem mask_e0_bits (i : Nat) :
    (0xFFFFFFFFFFFFFFE0 : Nat).testBit i = (decide (5 ≤ i) && decide (i < 64)) := by
  by_cases h : i < 64
  · interval_cases i <;> rfl
  · have h1 : (0xFFFFFFFFFFFFFFE0 : Nat) < 2 ^ i :=
      Nat.lt_of_lt_of_le (by decide : (0xFFFFFFFFFFFFFFE0 : Nat) < 2 ^ 64)
        (Nat.pow_le_pow_right (by decide) (by omega))
    rw [Nat.testBit_lt_two_pow h1]
    simp [h]

theorem low_bits_of_aligned (p i : Nat) (ha : p % 32 = 0) (hi : i < 5) :
    p.testBit i = false := by
  have h1 : (p % 2 ^ 5).testBit i = false := by
    have : p % 2 ^ 5 = 0 := ha
    rw [this]
    exact Nat.zero_testBit i
  rw [Nat.testBit_mod_two_pow] at h1
  simpa [hi] using h1

/-- The link written for a non-terminal entry points to the following entry when
that entry lies at a 32-byte aligned physical address `p` below 2^64: masking the low
5 bits of the link word built from the two halves gives `p`. -/
theorem link_target_aligned (p : Nat) (hp : p < 2 ^ 64) (ha : p % 32 = 0) :
    (((p >>> 32) &&& 0xFFFFFFFF) * 2 ^ 32 + (((p &&& 0xFFFFFFFF) ||| 0x10) ||| 0x02))
      &&& 0xFFFFFFFFFFFFFFE0 = p := by
  have hlo : (((p &&& 0xFFFFFFFF) ||| 0x10) ||| 0x02) < 2 ^ 32 :=
    Nat.or_lt_two_pow (Nat.or_lt_two_pow (Nat.and_lt_two_pow _ (by decide)) (by decide))
      (by decide)
  have e : ((p >>> 32) &&& 0xFFFFFFFF) * 2 ^ 32 + (((p &&& 0xFFFFFFFF) ||| 0x10) ||| 0x02)
      = (((p >>> 32) &&& 0xFFFFFFFF) <<< 32) ||| (((p &&& 0xFFFFFFFF) ||| 0x10) ||| 0x02) := by
    rw [Nat.shiftLeft_eq, Nat.mul_comm _ (2 ^ 32)]
    exact Nat.mul_add_lt_is_or hlo _
  rw [e]
  apply Nat.eq_of_testBit_eq
  intro i
  have hm : (0xFFFFFFFF : Nat) = 2 ^ 32 - 1 := by decide
  rw [Nat.testBit_and, Nat.testBit_or, Nat.testBit_shiftLeft, mask_e0_bits, Nat.testBit_or,
    Nat.testBit_or, Nat.testBit_and, Nat.testBit_and, Nat.testBit_shiftRight, hm,
    Nat.testBit_two_pow_sub_one, Nat.testBit_two_pow_sub_one]
  by_cases h5 : i < 5
  · rw [low_bits_of_aligned p i ha h5]
    have : ¬ 5 ≤ i := by omega
    simp [this]
  · have h10 : (0x10 : Nat).testBit i = false :=
      Nat.testBit_lt_two_pow (Nat.lt_of_lt_of_le (by decide : (0x10 : Nat) < 2 ^ 5)
        (Nat.pow_le_pow_right (by decide) (by omega)))
    have h02 : (0x02 : Nat).testBit i = false :=
      Nat.testBit_lt_two_pow (Nat.lt_of_lt_of_le (by decide : (0x02 : Nat) < 2 ^ 5)
        (Nat.pow_le_pow_right (by decide) (by omega)))
    rw [h10, h02]
    by_cases h32 : i < 32
    · have a1 : ¬ i ≥ 32 := by omega
      have a2 : 5 ≤ i := by omega
      have a3 : i < 64 := by omega
      simp [a1, a2, a3, h32]
    · by_cases h64 : i < 64
      · have a1 : i ≥ 32 := by omega
        have a2 : 5 ≤ i := by omega
        have a4 : i - 32 < 32 := by omega
        have a5 : 32 + (i - 32) = i := by omega
        simp [a1, a2, h64, h32, a4, a5]
      · have hz : p.testBit i = false :=
          Nat.testBit_lt_two_pow (Nat.lt_of_lt_of_le hp
            (Nat.pow_le_pow_right (by decide) (by omega)))
        rw [hz]
        simp [h64]

/-- In a chain built by `phytium_dma_prep_slave_sg` the link of a non-terminal entry
`j` holds the two halves of the physical address of entry `j + 1`, the low half
combined with the validity bits 0x12; when that address is below 2^64 and 32-byte
aligned, masking the low 5 bits of the link recovers it. -/
theorem chain_link_next_entry (v2p : Nat → Nat) (mem : Nat → phytium_chan_desc)
    (s : chan_state) (sgl : List scatterlist) (sg_len : Nat) (dir : dma_transfer_direction)
    (flags : Nat) (ok : Bool) (kz : Nat) (d : phytium_dma_desc)
    (h : (phytium_dma_prep_slave_sg v2p mem s sgl sg_len dir flags ok kz).1 = some d)
    (j : Nat) (e : phytium_chan_desc) (he : d.chain[j]? = some e) (hl : ¬ carries_terminal e) :
    e.desc_next_addr_h
      = (v2p (d.chain_base + (j + 1) * sizeof_phytium_chan_desc) >>> 32) &&& 0xFFFFFFFF ∧
    e.desc_next_addr_l
      = ((v2p (d.chain_base + (j + 1) * sizeof_phytium_chan_desc) &&& 0xFFFFFFFF) ||| 0x10)
        ||| 0x02 ∧
    (v2p (d.chain_base + (j + 1) * sizeof_phytium_chan_desc) < 2 ^ 64 →
      v2p (d.chain_base + (j + 1) * sizeof_phytium_chan_desc) % 32 = 0 →
      chain_link_target e = v2p (d.chain_base + (j + 1) * sizeof_phytium_chan_desc)) := by
  obtain ⟨_, _, _, _, hb, total, hloop⟩ := prep_slave_sg_accepted v2p mem s sgl sg_len dir
    flags ok kz d h
  obtain ⟨l1, l2⟩ := sg_loop_entries _ _ _ _ _ _ _ _ _ _ _ _ hloop
  have hj : j < (sg_visited sgl sg_len).length := by
    rw [← l1]
    exact (List.getElem?_eq_some_iff.mp he).1
  obtain ⟨e1, b1, b2⟩ := l2 j _ (List.getElem?_eq_getElem hj)
  rw [he] at b1
  simp only [Option.some.injEq] at b1
  subst b1
  have hm := sg_entry_marker _ _ _ _ _ _ _ b2
  obtain ⟨s1, s2⟩ := sg_entry_spec _ _ _ _ _ _ _ b2
  have hnl : (sg_visited sgl sg_len)[j].is_last = false := by
    cases hx : (sg_visited sgl sg_len)[j].is_last
    · rfl
    · exact absurd (hm.1.mpr hx) hl
  obtain ⟨c1, c2, _⟩ := s2 hnl
  rw [hb]
  simp only [Nat.zero_add] at c1 c2
  refine ⟨c2, c1, fun hp ha => ?_⟩
  unfold chain_link_target chain_link
  rw [c1, c2]
  exact link_target_aligned _ hp ha

/-! ## Claim C30: the stored slave configuration -/

/-- C30: `phytium_dma_slave_config` returns -EINVAL (-22) with the channel left as it
was exactly when the requested direction is not a slave direction (neither
`DMA_MEM_TO_DEV` nor `DMA_DEV_TO_MEM`); otherwise it returns 0, the stored
configuration is the one passed in and nothing else of the channel changes. The
direction stored by a successful call is a slave direction. -/
theorem slave_config_direction (s : chan_state) (c : dma_slave_config) :
    (((phytium_dma_slave_config s c).1 = -22 ∧ (phytium_dma_slave_config s c).2 = s) ↔
      (c.direction ≠ DMA_MEM_TO_DEV ∧ c.direction ≠ DMA_DEV_TO_MEM)) ∧
    ((phytium_dma_slave_config s c).1 = -22 ↔ is_slave_direction c.direction = false) ∧
    ((phytium_dma_slave_config s c).1 = -22 ∨ (phytium_dma_slave_config s c).1 = 0) ∧
    ((phytium_dma_slave_config s c).1 = 0 ↔
      (c.direction = DMA_MEM_TO_DEV ∨ c.direction = DMA_DEV_TO_MEM)) ∧
    ((phytium_dma_slave_config s c).1 = 0 →
      (phytium_dma_slave_config s c).2 = { s with chan := { s.chan with dma_sconfig := c } } ∧
      (phytium_dma_slave_config s c).2.chan.dma_sconfig = c ∧
      is_slave_direction (phytium_dma_slave_config s c).2.chan.dma_sconfig.direction = true) := by
  obtain ⟨dir, sa, da⟩ := c
  cases dir <;> simp [phytium_dma_slave_config, is_slave_direction]

/-! ## Claims C28 and C29: block sizes and the committed memcpy length -/

theorem prep_dma_memcpy_over_max (hdata : phytium_dma_hcfg) (s : chan_state)
    (dst src len flags : Nat) (ok : Bool) (h : len > hdata.block_size s.chan.id % 2 ^ 32) :
    phytium_dma_prep_dma_memcpy hdata s dst src len flags ok = (none, s) := by
  unfold phytium_dma_prep_dma_memcpy
  simp only [h, if_true]

/-- On the channels 2 and 3 the table `phytium_octopus_dma_hdata` has the max block size 0, so
`phytium_dma_prep_dma_memcpy` rejects every non-empty request there. -/
theorem prep_dma_memcpy_upper_channels (s : chan_state) (dst src len flags : Nat) (ok : Bool)
    (hid : s.chan.id = 2 ∨ s.chan.id = 3) (hlen : 0 < len) :
    phytium_dma_prep_dma_memcpy phytium_octopus_dma_hdata s dst src len flags ok = (none, s) := by
  apply prep_dma_memcpy_over_max
  rcases hid with h | h <;> rw [h] <;> exact hlen

/-- C28 (the code departs from the claim): the table `phytium_octopus_dma_hdata`
declares four channels but initialises `block_size` for the channels 0 and 1 only;
the entries of the channels 2 and 3 are zero. A memcpy of 4096 bytes that channel 0
accepts is rejected for its length on the channels 2 and 3, and so is a memcpy of a
single byte. -/
theorem block_size_missing_for_upper_channels :
    phytium_octopus_dma_hdata.nr_channels = 4 ∧
    (List.range 4).map phytium_octopus_dma_hdata.block_size = [0x2000000, 0x2000000, 0, 0] ∧
    scen_config_chan2.chan.id = 2 ∧ scen_config_chan3.chan.id = 3 ∧
    (phytium_dma_prep_dma_memcpy phytium_octopus_dma_hdata scen_config 0x28000000 0x80000000
      4096 0 true).1.isSome = true ∧
    phytium_dma_prep_dma_memcpy phytium_octopus_dma_hdata scen_config_chan2 0x28000000
      0x80000000 4096 0 true = (none, scen_config_chan2) ∧
    phytium_dma_prep_dma_memcpy phytium_octopus_dma_hdata scen_config_chan3 0x28000000
      0x80000000 4096 0 true = (none, scen_config_chan3) ∧
    phytium_dma_prep_dma_memcpy phytium_octopus_dma_hdata scen_config_chan2 0x28000000
      0x80000000 1 0 true = (none, scen_config_chan2) :=
  ⟨rfl, by decide, rfl, rfl, by decide,
    prep_dma_memcpy_upper_channels _ _ _ _ _ _ (Or.inl rfl) (by decide),
    prep_dma_memcpy_upper_channels _ _ _ _ _ _ (Or.inr rfl) (by decide),
    prep_dma_memcpy_upper_channels _ _ _ _ _ _ (Or.inl rfl) (by decide)⟩

theorem shift_round_16 (len : Nat) (h : len < 2 ^ 32) :
    ((len >>> DMA_SLAVE_BUSWIDTH_4_BYTES <<< DMA_SLAVE_BUSWIDTH_4_BYTES) % 2 ^ 64) % 2 ^ 32
      = 16 * (len / 16) := by
  unfold DMA_SLAVE_BUSWIDTH_4_BYTES
  rw [Nat.shiftLeft_eq, Nat.shiftRight_eq_div_pow]
  simp only [Nat.reducePow] at *
  omega

/-- The descriptor `phytium_dma_prep_dma_memcpy` builds for an accepted request: it is queued at
the tail of `desc_allocated` and its length is `len` rounded down to a multiple of 16. -/
theorem prep_dma_memcpy_built (hdata : phytium_dma_hcfg) (s : chan_state)
    (dst src len flags : Nat) (hlen : len ≤ hdata.block_size s.chan.id % 2 ^ 32)
    (hdir : is_slave_direction s.chan.dma_sconfig.direction = true) :
    ∃ d, (phytium_dma_prep_dma_memcpy hdata s dst src len flags true).1 = some d ∧
      d.dma_len = 16 * (len / 16) ∧
      (phytium_dma_prep_dma_memcpy hdata s dst src len flags true).2.chan.vc.desc_allocated
        = s.chan.vc.desc_allocated ++ [d] := by
  have hlt : len < 2 ^ 32 := Nat.lt_of_le_of_lt hlen (Nat.mod_lt _ (by decide))
  have hr := shift_round_16 len hlt
  obtain ⟨⟨id, rel, vc, ⟨dir, sa, da⟩, used, idle, paused, act⟩, regs⟩ := s
  have hn : ¬ (hdata.block_size id % 4294967296 < len) := by
    simp only [Nat.reducePow] at hlen
    omega
  simp only [Nat.reducePow] at hr
  cases dir <;>
    simp [phytium_dma_prep_dma_memcpy, hn, phytium_desc_get, vchan_tx_prep, spin_lock_irqsave,
      spin_unlock_irqrestore, is_slave_direction, hr] at hdir ⊢

/-- C29: for a request that `phytium_dma_prep_dma_memcpy` accepts (length within the max block
size, slave direction configured, descriptor allocated) the length committed to the
descriptor is `16 * (len / 16)`, the shift count being `DMA_SLAVE_BUSWIDTH_4_BYTES = 4`.
The mapping drops at most 15 bytes, is idempotent (the committed length submitted
again is committed unchanged) and monotone, and a request with `len < 16` is still
built and queued, with length 0. -/
theorem memcpy_committed_length (hdata : phytium_dma_hcfg) (s : chan_state)
    (dst src len flags : Nat) (hlen : len ≤ hdata.block_size s.chan.id % 2 ^ 32)
    (hdir : is_slave_direction s.chan.dma_sconfig.direction = true) :
    DMA_SLAVE_BUSWIDTH_4_BYTES = 4 ∧
    (∃ d, (phytium_dma_prep_dma_memcpy hdata s dst src len flags true).1 = some d ∧
      (phytium_dma_prep_dma_memcpy hdata s dst src len flags true).2.chan.vc.desc_allocated
        = s.chan.vc.desc_allocated ++ [d] ∧
      d.dma_len = 16 * (len / 16) ∧ d.dma_len ≤ len ∧ len - d.dma_len ≤ 15 ∧
      (len < 16 → d.dma_len = 0) ∧
      (phytium_dma_prep_dma_memcpy hdata s dst src d.dma_len flags true).1.map
        (fun e => e.dma_len) = some d.dma_len ∧
      (∀ len2 e, len ≤ len2 →
        (phytium_dma_prep_dma_memcpy hdata s dst src len2 flags true).1 = some e →
        d.dma_len ≤ e.dma_len)) := by
  refine ⟨rfl, ?_⟩
  obtain ⟨d, h1, h2, h3⟩ := prep_dma_memcpy_built hdata s dst src len flags hlen hdir
  refine ⟨d, h1, h3, h2, ?_, ?_, ?_, ?_, ?_⟩
  · rw [h2]
    omega
  · rw [h2]
    omega
  · intro h16
    rw [h2]
    omega
  · have hle : d.dma_len ≤ hdata.block_size s.chan.id % 2 ^ 32 := by
      rw [h2]
      omega
    obtain ⟨e, e1, e2, _⟩ := prep_dma_memcpy_built hdata s dst src d.dma_len flags hle hdir
    rw [e1]
    simp only [Option.map_some', Option.some.injEq]
    rw [e2, h2]
    omega
  · intro len2 e hle he
    by_cases hbig : len2 > hdata.block_size s.chan.id % 2 ^ 32
    · rw [prep_dma_memcpy_over_max hdata s dst src len2 flags true hbig] at he
      exact absurd he (by simp)
    · obtain ⟨e0, e1, e2, _⟩ := prep_dma_memcpy_built hdata s dst src len2 flags
        (by omega) hdir
      rw [e1] at he
      simp only [Option.some.injEq] at he
      subst he
      rw [h2, e2]
      omega

/-- Witness for C29: on channel 0 (max block size 0x2000000, memory-to-device) a
memcpy of 4111 bytes is committed with 4096 bytes, and one of 15 bytes is built and
queued with length 0. -/
theorem memcpy_committed_length_witness :
    (phytium_dma_prep_dma_memcpy phytium_octopus_dma_hdata scen_config 0x28000000 0x80000000
      4111 0 true).1.map (fun d => d.dma_len) = some 4096 ∧
    (phytium_dma_prep_dma_memcpy phytium_octopus_dma_hdata scen_config 0x28000000 0x80000000
      15 0 true).1.map (fun d => d.dma_len) = some 0 ∧
    (phytium_dma_prep_dma_memcpy phytium_octopus_dma_hdata scen_config 0x28000000 0x80000000
      15 0 true).2.chan.vc.desc_allocated.length = 1 ∧
    (DMA_SLAVE_BUSWIDTH_4_BYTES = 4 ∧
    (∃ d, (phytium_dma_prep_dma_memcpy phytium_octopus_dma_hdata scen_config 0x28000000
        0x80000000 15 0 true).1 = some d ∧
      (phytium_dma_prep_dma_memcpy phytium_octopus_dma_hdata scen_config 0x28000000
        0x80000000 15 0 true).2.chan.vc.desc_allocated
        = scen_config.chan.vc.desc_allocated ++ [d] ∧
      d.dma_len = 16 * (15 / 16) ∧ d.dma_len ≤ 15 ∧ 15 - d.dma_len ≤ 15 ∧
      (15 < 16 → d.dma_len = 0) ∧
      (phytium_dma_prep_dma_memcpy phytium_octopus_dma_hdata scen_config 0x28000000
        0x80000000 d.dma_len 0 true).1.map (fun e => e.dma_len) = some d.dma_len ∧
      (∀ len2 e, 15 ≤ len2 →
        (phytium_dma_prep_dma_memcpy phytium_octopus_dma_hdata scen_config 0x28000000
          0x80000000 len2 0 true).1 = some e →
        d.dma_len ≤ e.dma_len))) :=
  ⟨by decide, by decide, by decide,
    memcpy_committed_length phytium_octopus_dma_hdata scen_config 0x28000000 0x80000000 15 0
      (by decide) (by decide)⟩

/-! ## Claim C27: the chain entries and the allocated buffer -/

theorem chain_alloc_size_le (sg_len : Nat) :
    chain_alloc_size sg_len ≤ (sg_len + 1) * sizeof_phytium_chan_desc := by
  unfold chain_alloc_size
  exact Nat.le_trans (Nat.mod_le _ _) (Nat.mul_le_mul_right _ (Nat.mod_le _ _))

/-- When `kzalloc` returns an address that is not 32-byte aligned (offset below 31),
the entries written for `sg_len ≥ 1` segments end past the bytes allocated. -/
theorem chain_past_allocation (kz sg_len : Nat) (h0 : (kz &&& 0x1F) ≠ 0)
    (h31 : (kz &&& 0x1F) < 31) (hkz : kz + 32 * 32 < 2 ^ 64) :
    kz + chain_alloc_size sg_len
      < chain_base_of kz + sg_len * sizeof_phytium_chan_desc := by
  have hle := chain_alloc_size_le sg_len
  unfold chain_base_of
  unfold sizeof_phytium_chan_desc at hle ⊢
  simp only [h0, ne_eq, not_false_eq_true, if_true]
  have hlt : kz + (32 - (kz &&& 0x1F)) * 32 < 2 ^ 64 := by
    have : (32 - (kz &&& 0x1F)) * 32 ≤ 32 * 32 := Nat.mul_le_mul_right _ (by omega)
    omega
  rw [Nat.mod_eq_of_lt hlt]
  have : 2 * 32 ≤ (32 - (kz &&& 0x1F)) * 32 := Nat.mul_le_mul_right _ (by omega)
  omega

/-- C27 (the code departs from the claim): for chain memory allocated at 0x1008 and
two segments the allocation is the 96 bytes from 0x1008 up to 0x1068, while the
adjusted base is 0x1308 and the two entries are written at 0x1308 and 0x1328: none
of them lies inside the allocated buffer. -/
theorem chain_entries_outside_allocation :
    (phytium_dma_prep_slave_sg (fun a => a) zero_mem scen_config scen_sgl 2
      DMA_MEM_TO_DEV 0 true 0x1008).1 = some scen_sg_unaligned ∧
    scen_sg_unaligned.cdesc = 0x1008 ∧
    scen_sg_unaligned.cdesc + (2 + 1) * sizeof_phytium_chan_desc = 0x1068 ∧
    scen_sg_unaligned.chain_base = 0x1308 ∧
    scen_sg_unaligned.chain.length = 2 ∧
    (List.range 2).map (fun i => scen_sg_unaligned.chain_base + i * sizeof_phytium_chan_desc)
      = [0x1308, 0x1328] ∧
    (∀ i, i < 2 →
      ¬ (scen_sg_unaligned.cdesc ≤ scen_sg_unaligned.chain_base + i * sizeof_phytium_chan_desc ∧
        scen_sg_unaligned.chain_base + i * sizeof_phytium_chan_desc + sizeof_phytium_chan_desc
          ≤ scen_sg_unaligned.cdesc + (2 + 1) * sizeof_phytium_chan_desc)) := by
  decide

/-! ## Claim C26: the channel lock at the return of the handlers -/

/-- On the path of `phytium_dma_interrupt_msi` that returns `IRQ_NONE` the lock taken at entry is
still held. -/
theorem interrupt_msi_none_lock (s : chan_state)
    (h : (phytium_dma_interrupt_msi s).1 = IRQ_NONE) :
    (phytium_dma_interrupt_msi s).2.chan.vc.lock = true := by
  unfold phytium_dma_interrupt_msi at h ⊢
  simp only at h ⊢
  split
  · rfl
  · rename_i hc
    rw [if_neg hc] at h
    have h1 : IRQ_HANDLED = IRQ_NONE := h
    exact absurd h1 (by decide)

/-- The routine `phytium_chan_block_xfer_complete_intx` returns with the lock held when the
issued list is empty. -/
theorem xfer_complete_intx_empty_lock (s : chan_state) (h : s.chan.vc.desc_issued = []) :
    (phytium_chan_block_xfer_complete_intx s).chan.vc.lock = true := by
  have e : phytium_chan_block_xfer_complete (spin_lock_irqsave s) =
      (false, xfer_stop (spin_lock_irqsave s)) := by
    rw [xfer_complete_eq]
    unfold xfer_retire vchan_next_desc
    have hq : (xfer_stop (spin_lock_irqsave s)).chan.vc.desc_issued = [] := by
      unfold xfer_stop
      simp only
      split
      · exact h
      · exact h
    rw [hq]
    rfl
  unfold phytium_chan_block_xfer_complete_intx
  simp only [e, Bool.false_eq_true, if_false]
  unfold xfer_stop
  simp only
  split
  · rfl
  · rfl

/-- C26 (the code departs from the claim): two handler paths return with the channel
lock held. The vectored handler on channel 0 as probe leaves it, with no bit in the
chip status and none in the channel status, returns `IRQ_NONE` straight after
taking the lock. The shared-line handler, servicing channel 0 whose status shows END
while its issued list is empty, returns handled with the lock of channel 0 still
held: `phytium_chan_block_xfer_complete_intx` leaves on its early return. -/
theorem handlers_return_with_lock_held :
    scen_probe.chan.vc.lock = false ∧
    (phytium_dma_interrupt_msi scen_probe).1 = IRQ_NONE ∧
    (phytium_dma_interrupt_msi scen_probe).2.chan.vc.lock = true ∧
    scen_chip_spurious.chan.map (fun c => c.vc.lock) = [false, false, false, false] ∧
    scen_chip_spurious.chan.map (fun c => c.vc.desc_issued.length) = [0, 0, 0, 0] ∧
    (phytium_dma_interrupt_intx scen_chip_spurious).1 = IRQ_HANDLED ∧
    (phytium_dma_interrupt_intx scen_chip_spurious).2.chan.map (fun c => c.vc.lock)
      = [true, false, false, false] := by
  decide

/-! ## Claim C25: what a chain entry records of its segment -/

theorem split_addr_64 (a : Nat) (ha : a < 2 ^ 64) :
    (a &&& 0xFFFFFFFF) + ((a >>> 32) &&& 0xFFFFFFFF) * 2 ^ 32 = a := by
  have hm : (0xFFFFFFFF : Nat) = 2 ^ 32 - 1 := by decide
  rw [hm, Nat.and_pow_two_sub_one_eq_mod, Nat.and_pow_two_sub_one_eq_mod,
    Nat.shiftRight_eq_div_pow]
  simp only [Nat.reducePow] at *
  omega

theorem length_field_shift (l : Nat) : ((l <<< 8) % 2 ^ 32) >>> 8 = l % 2 ^ 24 := by
  rw [Nat.shiftLeft_eq, Nat.shiftRight_eq_div_pow]
  simp only [Nat.reducePow]
  omega

theorem length_field_shift_marked (l : Nat) :
    (((l <<< 8) % 2 ^ 32) ||| 0x30) >>> 8 = l % 2 ^ 24 := by
  rw [← length_field_shift l]
  apply Nat.eq_of_testBit_eq
  intro i
  have h48 : (0x30 : Nat).testBit (8 + i) = false :=
    Nat.testBit_lt_two_pow (Nat.lt_of_lt_of_le (by decide : (0x30 : Nat) < 2 ^ 8)
      (Nat.pow_le_pow_right (by decide) (by omega)))
  rw [Nat.testBit_shiftRight, Nat.testBit_or, h48, Bool.or_false, Nat.testBit_shiftRight]

theorem sg_entry_addr (v2p : Nat → Nat) (cd : Nat) (dir : dma_transfer_direction)
    (before : phytium_chan_desc) (i : Nat) (sg : scatterlist) (e : phytium_chan_desc)
    (h : sg_entry v2p cd dir before i sg = some e) :
    (dir = DMA_MEM_TO_DEV ∨ dir = DMA_DEV_TO_MEM) ∧
    (dir = DMA_MEM_TO_DEV →
      e.desc_src_addr_l = sg_dma_address sg &&& 0xFFFFFFFF ∧
      e.desc_src_addr_h = (sg_dma_address sg >>> 32) &&& 0xFFFFFFFF ∧
      e.desc_dst_addr_l = before.desc_dst_addr_l ∧
      e.desc_dst_addr_h = before.desc_dst_addr_h) ∧
    (dir = DMA_DEV_TO_MEM →
      e.desc_dst_addr_l = sg_dma_address sg &&& 0xFFFFFFFF ∧
      e.desc_dst_addr_h = (sg_dma_address sg >>> 32) &&& 0xFFFFFFFF ∧
      e.desc_src_addr_l = before.desc_src_addr_l ∧
      e.desc_src_addr_h = before.desc_src_addr_h) := by
  unfold sg_entry at h
  cases dir <;> cases hl : sg.is_last <;>
    simp [sg_is_last, hl] at h <;> subst h <;> simp

theorem sg_visited_length_le (n : Nat) :
    ∀ sgl : List scatterlist, (sg_visited sgl n).length ≤ n := by
  induction n with
  | zero =>
    intro sgl
    cases sgl <;> simp [sg_visited]
  | succ n ih =>
    intro sgl
    cases sgl with
    | nil => simp [sg_visited]
    | cons sg rest =>
      simp only [sg_visited, List.length_cons]
      exact Nat.succ_le_succ (ih _)

/-- C25 as amended: in a chain built by `phytium_dma_prep_slave_sg` the entry of a
segment with DMA address `a` and length `L` has, on the memory side (source for
memory-to-device, destination for device-to-memory), an address pair with
`low + high * 2^32 = a`; its length field (bits 8 and above of `desc_control`) is
`L mod 2^24`, which is `L` when `L < 2^24`; the address pair of the other side is
what the entry held before the loop, which is zero when the chain memory was
allocated at a 32-byte aligned address and `sg_len + 1` did not wrap in the
computation of the allocation size (`sg_len < 0xFFFFFFFF`). -/
theorem chain_entry_records_segment (v2p : Nat → Nat) (mem : Nat → phytium_chan_desc)
    (s : chan_state) (sgl : List scatterlist) (sg_len : Nat) (dir : dma_transfer_direction)
    (flags : Nat) (ok : Bool) (kz : Nat) (d : phytium_dma_desc)
    (h : (phytium_dma_prep_slave_sg v2p mem s sgl sg_len dir flags ok kz).1 = some d)
    (j : Nat) (sg : scatterlist) (e : phytium_chan_desc)
    (hsg : (sg_visited sgl sg_len)[j]? = some sg) (he : d.chain[j]? = some e) :
    memory_side_addr dir e = sg_dma_address sg ∧
    desc_length_field e = sg_dma_len sg % 2 ^ 24 ∧
    (sg_dma_len sg < 2 ^ 24 → desc_length_field e = sg_dma_len sg) ∧
    (dir = DMA_MEM_TO_DEV →
      e.desc_dst_addr_l
        = (chain_entry_before mem kz sg_len
            (d.chain_base + j * sizeof_phytium_chan_desc)).desc_dst_addr_l ∧
      e.desc_dst_addr_h
        = (chain_entry_before mem kz sg_len
            (d.chain_base + j * sizeof_phytium_chan_desc)).desc_dst_addr_h) ∧
    (dir = DMA_DEV_TO_MEM →
      e.desc_src_addr_l
        = (chain_entry_before mem kz sg_len
            (d.chain_base + j * sizeof_phytium_chan_desc)).desc_src_addr_l ∧
      e.desc_src_addr_h
        = (chain_entry_before mem kz sg_len
            (d.chain_base + j * sizeof_phytium_chan_desc)).desc_src_addr_h) ∧
    ((kz &&& 0x1F) = 0 → sg_len + 1 < 2 ^ 32 → other_side_zero dir e) := by
  obtain ⟨_, _, _, _, hb, total, hloop⟩ := prep_slave_sg_accepted v2p mem s sgl sg_len dir
    flags ok kz d h
  obtain ⟨l1, l2⟩ := sg_loop_entries _ _ _ _ _ _ _ _ _ _ _ _ hloop
  obtain ⟨e1, b1, b2⟩ := l2 j sg hsg
  rw [he] at b1
  simp only [Option.some.injEq] at b1
  subst b1
  simp only [Nat.zero_add] at b2
  rw [← hb] at b2
  obtain ⟨a0, a1, a2⟩ := sg_entry_addr _ _ _ _ _ _ _ b2
  obtain ⟨s1, s2⟩ := sg_entry_spec _ _ _ _ _ _ _ b2
  have hlt : sg_dma_address sg < 2 ^ 64 := Nat.mod_lt _ (by decide)
  have hfield : desc_length_field e = sg_dma_len sg % 2 ^ 24 := by
    unfold desc_length_field
    cases hl : sg.is_last
    · rw [(s2 hl).2.2]
      exact length_field_shift _
    · rw [(s1 hl).2.2]
      exact length_field_shift_marked _
  have hj : j < sg_len := by
    have h1 : j < (sg_visited sgl sg_len).length := (List.getElem?_eq_some_iff.mp hsg).1
    exact Nat.lt_of_lt_of_le h1 (sg_visited_length_le sg_len sgl)
  refine ⟨?_, hfield, ?_, ?_, ?_, ?_⟩
  · unfold memory_side_addr
    rcases a0 with hd | hd
    · obtain ⟨c1, c2, _, _⟩ := a1 hd
      rw [if_pos hd, c1, c2]
      exact split_addr_64 _ hlt
    · obtain ⟨c1, c2, _, _⟩ := a2 hd
      have hne : dir ≠ DMA_MEM_TO_DEV := by
        rw [hd]
        decide
      rw [if_neg hne, c1, c2]
      exact split_addr_64 _ hlt
  · intro hL
    rw [hfield]
    exact Nat.mod_eq_of_lt hL
  · intro hd
    exact ⟨(a1 hd).2.2.1, (a1 hd).2.2.2⟩
  · intro hd
    exact ⟨(a2 hd).2.2.1, (a2 hd).2.2.2⟩
  · intro hal hwrap
    have hbase : d.chain_base = kz := by
      rw [hb]
      unfold chain_base_of
      simp [hal]
    have hz : chain_entry_before mem kz sg_len (d.chain_base + j * sizeof_phytium_chan_desc)
        = { desc_status := 0, desc_control := 0, desc_next_addr_l := 0, desc_next_addr_h := 0,
            desc_src_addr_l := 0, desc_src_addr_h := 0, desc_dst_addr_l := 0,
            desc_dst_addr_h := 0 } := by
      have hsize : chain_alloc_size sg_len = (sg_len + 1) * 32 := by
        unfold chain_alloc_size sizeof_phytium_chan_desc
        rw [Nat.mod_eq_of_lt hwrap]
        simp only [Nat.reducePow] at hwrap ⊢
        omega
      unfold chain_entry_before
      rw [hbase, hsize, if_pos]
      unfold sizeof_phytium_chan_desc
      constructor
      · omega
      · have : (j + 1) * 32 ≤ (sg_len + 1) * 32 := Nat.mul_le_mul_right _ (by omega)
        omega
    unfold other_side_zero
    refine ⟨fun hd => ?_, fun hd => ?_⟩
    · obtain ⟨_, _, c3, c4⟩ := a1 hd
      rw [c3, c4, hz]
      exact ⟨rfl, rfl⟩
    · obtain ⟨_, _, c3, c4⟩ := a2 hd
      rw [c3, c4, hz]
      exact ⟨rfl, rfl⟩

/-- Witness for C25 as amended: the first of the two segments of `scen_sgl` (address
0x80000000, 4096 bytes) in the memory-to-device chain built at 0x1000. -/
theorem chain_entry_records_segment_witness :
    scen_sg_desc.chain[0]? = some scen_sg_entry0 ∧
    (sg_visited scen_sgl 2)[0]?
      = some { dma_address := 0x80000000, dma_length := 4096, is_last := false } ∧
    (memory_side_addr DMA_MEM_TO_DEV scen_sg_entry0 = sg_dma_address
        { dma_address := 0x80000000, dma_length := 4096, is_last := false } ∧
      desc_length_field scen_sg_entry0 = sg_dma_len
        { dma_address := 0x80000000, dma_length := 4096, is_last := false } % 2 ^ 24 ∧
      (sg_dma_len { dma_address := 0x80000000, dma_length := 4096, is_last := false } < 2 ^ 24 →
        desc_length_field scen_sg_entry0 = sg_dma_len
          { dma_address := 0x80000000, dma_length := 4096, is_last := false }) ∧
      (DMA_MEM_TO_DEV = DMA_MEM_TO_DEV →
        scen_sg_entry0.desc_dst_addr_l
          = (chain_entry_before zero_mem 0x1000 2
              (scen_sg_desc.chain_base + 0 * sizeof_phytium_chan_desc)).desc_dst_addr_l ∧
        scen_sg_entry0.desc_dst_addr_h
          = (chain_entry_before zero_mem 0x1000 2
              (scen_sg_desc.chain_base + 0 * sizeof_phytium_chan_desc)).desc_dst_addr_h) ∧
      (DMA_MEM_TO_DEV = DMA_DEV_TO_MEM →
        scen_sg_entry0.desc_src_addr_l
          = (chain_entry_before zero_mem 0x1000 2
              (scen_sg_desc.chain_base + 0 * sizeof_phytium_chan_desc)).desc_src_addr_l ∧
        scen_sg_entry0.desc_src_addr_h
          = (chain_entry_before zero_mem 0x1000 2
              (scen_sg_desc.chain_base + 0 * sizeof_phytium_chan_desc)).desc_src_addr_h) ∧
      ((0x1000 &&& 0x1F) = 0 → 2 + 1 < 2 ^ 32 →
        other_side_zero DMA_MEM_TO_DEV scen_sg_entry0)) :=
  ⟨by decide, by decide,
    chain_entry_records_segment (fun a => a) zero_mem scen_config scen_sgl 2 DMA_MEM_TO_DEV 0
      true 0x1000 scen_sg_desc (by decide) 0
      { dma_address := 0x80000000, dma_length := 4096, is_last := false } scen_sg_entry0
      (by decide) (by decide)⟩

/-- Counterexample to C25 as stated: a single segment of 16 MiB (length 0x1000000)
gives a chain entry whose `desc_control` is 0x30, so its length field is 0, not the
length of the segment: `sg_dma_len(sg) << 8` is computed in 32 bits and the field has
24 bits. -/
theorem chain_entry_length_truncated :
    (phytium_dma_prep_slave_sg (fun a => a) zero_mem scen_config scen_sgl_16m 1
      DMA_MEM_TO_DEV 0 true 0x1000).1 = some scen_sg_16m ∧
    scen_sgl_16m.map sg_dma_len = [0x1000000] ∧
    scen_sg_16m.chain.map (fun e => e.desc_control) = [0x30] ∧
    scen_sg_16m.chain.map desc_length_field = [0] ∧
    scen_sg_16m.chain.map desc_length_field ≠ scen_sgl_16m.map sg_dma_len := by
  decide

/-! ## Claim C22: the vectored handler when the chip status shows nothing -/

theorem or_eq_zero_both (a b : Nat) : a ||| b = 0 ↔ a = 0 ∧ b = 0 := by
  constructor
  · intro h
    refine ⟨or_eq_zero_left a b h, ?_⟩
    rw [Nat.lor_comm] at h
    exact or_eq_zero_left b a h
  · rintro ⟨rfl, rfl⟩
    rfl

/-- The vectored handler returns `IRQ_NONE` exactly when the chip status shows no bit in its
low 16 bits and the channel status shows none of END, EOP, EOC, ERR. -/
theorem interrupt_msi_none_iff (s : chan_state) :
    (phytium_dma_interrupt_msi s).1 = IRQ_NONE ↔
      ((phytium_dma_irq_read s.regs &&& 0xffff) = 0 ∧
       (phytium_chan_status_read s &&& DMA_STAT_END) = 0 ∧
       (phytium_chan_status_read s &&& DMA_STAT_EOP) = 0 ∧
       (phytium_chan_status_read s &&& DMA_STAT_EOC) = 0 ∧
       (phytium_chan_status_read s &&& DMA_STAT_ERR) = 0) := by
  have e0 : phytium_chan_status_read (spin_lock_irqsave s) = phytium_chan_status_read s := rfl
  have e1 : (spin_lock_irqsave s).regs = s.regs := rfl
  unfold phytium_dma_interrupt_msi
  simp only [e0, e1]
  split
  · rename_i hc
    simp only [Bool.and_eq_true, decide_eq_true_eq, Bool.not_eq_true', decide_eq_false_iff_not,
      ne_eq, not_not, or_eq_zero_both] at hc
    obtain ⟨h1, ⟨⟨h2, h3⟩, h4⟩, h5⟩ := hc
    exact ⟨fun _ => ⟨h1, h2, h3, h4, h5⟩, fun _ => rfl⟩
  · rename_i hc
    simp only [Bool.and_eq_true, decide_eq_true_eq, Bool.not_eq_true', decide_eq_false_iff_not,
      ne_eq, not_not, or_eq_zero_both] at hc
    constructor
    · intro h
      have h1 : IRQ_HANDLED = IRQ_NONE := h
      exact absurd h1 (by decide)
    · rintro ⟨h1, h2, h3, h4, h5⟩
      exact absurd ⟨h1, ⟨⟨h2, h3⟩, h4⟩, h5⟩ hc

/-- C22: when the status register of the channel shows END, EOP or EOC and not ERR,
`phytium_dma_interrupt_msi` processes the completion whatever the chip status shows, in
particular when it shows no bit in its low 16 bits: it retires the head descriptor
and starts the next queued one if any, re-enables the chip interrupts, releases the
lock and returns `IRQ_HANDLED`. On any channel it returns `IRQ_NONE` only when the
chip status shows no bit in its low 16 bits and the channel status shows none of
END, EOP, EOC, ERR. -/
theorem interrupt_msi_quirk (s : chan_state) (hc : reports_completion s)
    (hinv : phytium_chan_is_running s = false → s.chan.hw_active = []) :
    (phytium_dma_interrupt_msi s).1 = IRQ_HANDLED ∧
    retires_head s (phytium_dma_interrupt_msi s).2 ∧
    phytium_dma_irq_mask_read (phytium_dma_interrupt_msi s).2.regs = 0x4077FFFF ∧
    (phytium_dma_interrupt_msi s).2.chan.vc.lock = false ∧
    (∀ t : chan_state, (phytium_dma_interrupt_msi t).1 = IRQ_NONE ↔
      ((phytium_dma_irq_read t.regs &&& 0xffff) = 0 ∧
       (phytium_chan_status_read t &&& DMA_STAT_END) = 0 ∧
       (phytium_chan_status_read t &&& DMA_STAT_EOP) = 0 ∧
       (phytium_chan_status_read t &&& DMA_STAT_EOC) = 0 ∧
       (phytium_chan_status_read t &&& DMA_STAT_ERR) = 0)) := by
  obtain ⟨a, b, c⟩ := interrupt_msi_retires s hc hinv
  refine ⟨a, b, ?_, c, interrupt_msi_none_iff⟩
  rw [interrupt_msi_done s hc]
  exact ioread32_iowrite32_same 0x4077FFFF DMA_IRQ_MASK
    (phytium_chan_block_xfer_complete_msi (interrupt_msi_pre s)).regs

/-- Witness for C22: the first of the three memcpy transfers has ended (channel
status END, start bit clear) while the chip status reads 0; the handler retires
descriptor 2 and starts descriptor 3. -/
theorem interrupt_msi_quirk_witness :
    (phytium_dma_irq_read scen_quirk.regs &&& 0xffff) = 0 ∧
    phytium_chan_status_read scen_quirk = 1 ∧
    scen_quirk.chan.vc.desc_issued.map (fun d => d.cookie) = [2, 3, 4] ∧
    (phytium_dma_interrupt_msi scen_quirk).2.chan.vc.desc_issued.map (fun d => d.cookie)
      = [3, 4] ∧
    (phytium_dma_interrupt_msi scen_quirk).2.chan.hw_active.map (fun d => d.cookie) = [3] ∧
    ((phytium_dma_interrupt_msi scen_quirk).1 = IRQ_HANDLED ∧
    retires_head scen_quirk (phytium_dma_interrupt_msi scen_quirk).2 ∧
    phytium_dma_irq_mask_read (phytium_dma_interrupt_msi scen_quirk).2.regs = 0x4077FFFF ∧
    (phytium_dma_interrupt_msi scen_quirk).2.chan.vc.lock = false ∧
    (∀ t : chan_state, (phytium_dma_interrupt_msi t).1 = IRQ_NONE ↔
      ((phytium_dma_irq_read t.regs &&& 0xffff) = 0 ∧
       (phytium_chan_status_read t &&& DMA_STAT_END) = 0 ∧
       (phytium_chan_status_read t &&& DMA_STAT_EOP) = 0 ∧
       (phytium_chan_status_read t &&& DMA_STAT_EOC) = 0 ∧
       (phytium_chan_status_read t &&& DMA_STAT_ERR) = 0))) :=
  ⟨by decide, by decide, by decide, by decide, by decide,
    interrupt_msi_quirk scen_quirk ⟨by decide, by decide⟩ (fun _ => by decide)⟩

/-! ## Probe: the interrupt negotiation -/

theorem probe_request_msi_spec (env : probe_env) :
    ∀ (l : List Nat) (st : probe_state),
      (probe_request_msi env l st).1 = l.all (fun i => decide (env.request_irq_msi i = 0)) ∧
      (probe_request_msi env l st).2.handlers.msi
        = st.handlers.msi ++ l.takeWhile (fun i => decide (env.request_irq_msi i = 0)) ∧
      (probe_request_msi env l st).2.handlers.intx = st.handlers.intx ∧
      (probe_request_msi env l st).2.chip = st.chip ∧
      (probe_request_msi env l st).2.registered = st.registered ∧
      ∃ k, (probe_request_msi env l st).2.calls
        = st.calls ++ (l.take k).map probe_call.request_irq_msi := by
  intro l
  induction l with
  | nil =>
    intro st
    exact ⟨rfl, by simp [probe_request_msi], rfl, rfl, rfl, 0, by simp [probe_request_msi]⟩
  | cons i rest ih =>
    intro st
    by_cases h : env.request_irq_msi i = 0
    · obtain ⟨a, b, c, d, e, k, f⟩ := ih
        { st with calls := st.calls ++ [probe_call.request_irq_msi i],
                  handlers.msi := st.handlers.msi ++ [i] }
      simp only [probe_request_msi, h, ne_eq, not_true_eq_false, if_false, List.all_cons,
        decide_True, Bool.true_and, List.takeWhile_cons, if_true]
      refine ⟨a, ?_, c, d, e, k + 1, ?_⟩
      · rw [b]
        simp
      · rw [f]
        simp
    · simp only [probe_request_msi, h, ne_eq, not_false_eq_true, if_true, List.all_cons,
        decide_False, Bool.false_and, List.takeWhile_cons, Bool.false_eq_true, if_false,
        List.append_nil]
      exact ⟨trivial, trivial, trivial, trivial, trivial, 1, by simp⟩

theorem probe_reaches_irq (env : probe_env) (regs : Regs)
    (h1 : env.dmac_alloc = true) (h2 : env.hdata_alloc = true) (h3 : env.chan_alloc = true)
    (h4 : env.device_register = 0) :
    phytium_dma_probe env regs =
      probe_irq env
        { chip := phytium_dma_hw_init (probe_chip regs), registered := true,
          handlers := { msi := [], intx := false },
          calls := [probe_call.hw_init, probe_call.dma_async_device_register] } := by
  unfold phytium_dma_probe
  rw [h1, h2, h3, h4]
  simp only [Bool.not_true, Bool.false_eq_true, if_false, ne_eq, not_true_eq_false]

theorem chan_window_disjoint (i j a : Nat) (hi : chan_window i a) (hj : chan_window j a) :
    i = j := by
  unfold chan_window CHAN_REG_LEN DMA_SRCPARAM DMA_STATUS at *
  omega

theorem chan_window_high (i a : Nat) (h : chan_window i a) : DMA_SRCPARAM ≤ a := by
  unfold chan_window at h
  omega

theorem chan_window_reg (id reg : Nat) (h1 : DMA_SRCPARAM ≤ reg) (h2 : reg ≤ DMA_STATUS) :
    chan_window id (id * CHAN_REG_LEN + reg) := by
  unfold chan_window
  omega

theorem chan_local_id : chan_local (fun s => s) := fun _ => ⟨rfl, fun _ _ => rfl⟩

theorem chan_local_comp (f g : chan_state → chan_state) (hf : chan_local f) (hg : chan_local g) :
    chan_local (fun s => g (f s)) := by
  intro s
  obtain ⟨a1, a2⟩ := hf s
  obtain ⟨b1, b2⟩ := hg (f s)
  refine ⟨b1.trans a1, fun a ha => ?_⟩
  rw [b2 a (by rw [a1]; exact ha), a2 a ha]

theorem chan_local_ite (c : chan_state → Prop) [DecidablePred c] (f g : chan_state → chan_state)
    (hf : chan_local f) (hg : chan_local g) :
    chan_local (fun s => if c s then f s else g s) := by
  intro s
  by_cases h : c s
  · simp only [h, if_true]
    exact hf s
  · simp only [h, if_false]
    exact hg s

theorem chan_local_soft (f : chan_state → chan_state) (h1 : ∀ s, (f s).chan.id = s.chan.id)
    (h2 : ∀ s, (f s).regs = s.regs) : chan_local f := by
  intro s
  refine ⟨h1 s, fun a _ => ?_⟩
  rw [h2 s]

theorem chan_local_write (reg : Nat) (v : chan_state → Nat) (h1 : DMA_SRCPARAM ≤ reg)
    (h2 : reg ≤ DMA_STATUS) : chan_local (fun s => phytium_chan_iowrite32 s reg (v s)) := by
  intro s
  refine ⟨rfl, fun a ha => ?_⟩
  unfold phytium_chan_iowrite32 iowrite32
  simp only
  split
  · rename_i he
    rw [he] at ha
    exact absurd (chan_window_reg s.chan.id reg h1 h2) ha
  · rfl

theorem chan_local_irq_disable (m : Nat) : chan_local (fun s => phytium_chan_irq_disable s m) :=
  chan_local_write DMA_CONTROL (fun s => phytium_chan_ioread32 s DMA_CONTROL &&& not32 m)
    (by decide) (by decide)

theorem chan_local_irq_set (m : Nat) : chan_local (fun s => phytium_chan_irq_set s m) :=
  chan_local_write DMA_CONTROL
    (fun s => phytium_chan_ioread32 s DMA_CONTROL &&& not32 (DMA_CTRL_IRQ_MASK 0xF) ||| m
      ||| DMA_CTRL_IRQ_ID 1)
    (by decide) (by decide)

theorem chan_local_enable : chan_local phytium_chan_enable :=
  chan_local_write DMA_CONTROL (fun s => phytium_chan_ioread32 s DMA_CONTROL ||| DMA_CTRL_START)
    (by decide) (by decide)

theorem chan_local_disable : chan_local phytium_chan_disable :=
  chan_local_comp
    (fun s => phytium_chan_iowrite32 s DMA_CONTROL
      (phytium_chan_ioread32 s DMA_CONTROL &&& not32 DMA_CTRL_START))
    (fun s => { s with chan.hw_active := [] })
    (chan_local_write DMA_CONTROL
      (fun s => phytium_chan_ioread32 s DMA_CONTROL &&& not32 DMA_CTRL_START)
      (by decide) (by decide))
    (chan_local_soft _ (fun _ => rfl) (fun _ => rfl))

theorem chan_local_hw_reset : chan_local hw_reset_chan :=
  chan_local_comp (fun s => phytium_chan_irq_disable s (DMA_CTRL_IRQ_MASK 0xF))
    phytium_chan_disable (chan_local_irq_disable _) chan_local_disable

theorem chan_local_block_xfer_start (d : phytium_dma_desc) :
    chan_local (fun s => phytium_chan_block_xfer_start s d) := by
  have hw : chan_local (fun s =>
      phytium_chan_enable (phytium_chan_irq_set
        (phytium_chan_iowrite32
          (phytium_chan_iowrite32
            (phytium_chan_iowrite32
              (phytium_chan_iowrite32
                (phytium_chan_iowrite32
                  (phytium_chan_iowrite32
                    (phytium_chan_iowrite32
                      (phytium_chan_iowrite32 s DMA_SRCPARAM d.dma_srcparam)
                      DMA_DESTPARAM d.dma_destparam)
                    DMA_SRCADDR_L d.dma_srcaddr_l)
                  DMA_SRCADDR_H d.dma_srcaddr_h)
                DMA_DESTADDR_L d.dma_destaddr_l)
              DMA_DESTADDR_H d.dma_destaddr_h)
            DMA_LENGTH d.dma_len)
          DMA_CONTROL
          (phytium_chan_ioread32
            (phytium_chan_iowrite32
              (phytium_chan_iowrite32
                (phytium_chan_iowrite32
                  (phytium_chan_iowrite32
                    (phytium_chan_iowrite32
                      (phytium_chan_iowrite32
                        (phytium_chan_iowrite32 s DMA_SRCPARAM d.dma_srcparam)
                        DMA_DESTPARAM d.dma_destparam)
                      DMA_SRCADDR_L d.dma_srcaddr_l)
                    DMA_SRCADDR_H d.dma_srcaddr_h)
                  DMA_DESTADDR_L d.dma_destaddr_l)
                DMA_DESTADDR_H d.dma_destaddr_h)
              DMA_LENGTH d.dma_len) DMA_CONTROL ||| d.dma_ctrl |||
            (DMA_CTRL_COND_LEN ||| DMA_CTRL_COND_EOP ||| DMA_CTRL_COND_ERR)))
        (DMA_CTRL_IRQ_END ||| DMA_CTRL_IRQ_EOP ||| DMA_CTRL_IRQ_ERR))) := by
    refine chan_local_comp _ _ (chan_local_comp _ _ ?_ (chan_local_irq_set _)) chan_local_enable
    refine chan_local_comp _ (fun t => phytium_chan_iowrite32 t DMA_CONTROL
      (phytium_chan_ioread32 t DMA_CONTROL ||| d.dma_ctrl |||
        (DMA_CTRL_COND_LEN ||| DMA_CTRL_COND_EOP ||| DMA_CTRL_COND_ERR))) ?_
      (chan_local_write DMA_CONTROL _ (by decide) (by decide))
    refine chan_local_comp _ (fun t => phytium_chan_iowrite32 t DMA_LENGTH d.dma_len) ?_
      (chan_local_write DMA_LENGTH _ (by decide) (by decide))
    refine chan_local_comp _ (fun t => phytium_chan_iowrite32 t DMA_DESTADDR_H d.dma_destaddr_h)
      ?_ (chan_local_write DMA_DESTADDR_H _ (by decide) (by decide))
    refine chan_local_comp _ (fun t => phytium_chan_iowrite32 t DMA_DESTADDR_L d.dma_destaddr_l)
      ?_ (chan_local_write DMA_DESTADDR_L _ (by decide) (by decide))
    refine chan_local_comp _ (fun t => phytium_chan_iowrite32 t DMA_SRCADDR_H d.dma_srcaddr_h)
      ?_ (chan_local_write DMA_SRCADDR_H _ (by decide) (by decide))
    refine chan_local_comp _ (fun t => phytium_chan_iowrite32 t DMA_SRCADDR_L d.dma_srcaddr_l)
      ?_ (chan_local_write DMA_SRCADDR_L _ (by decide) (by decide))
    refine chan_local_comp _ (fun t => phytium_chan_iowrite32 t DMA_DESTPARAM d.dma_destparam)
      ?_ (chan_local_write DMA_DESTPARAM _ (by decide) (by decide))
    exact chan_local_write DMA_SRCPARAM _ (by decide) (by decide)
  intro s
  simp only
  rw [block_xfer_start_eq]
  split
  · exact ⟨rfl, fun _ _ => rfl⟩
  · obtain ⟨_, h2⟩ := hw { s with chan.is_idle := false }
    exact ⟨rfl, fun a ha => h2 a ha⟩

theorem chan_local_start_first_queued : chan_local phytium_chan_start_first_queued := by
  intro s
  unfold phytium_chan_start_first_queued
  cases vchan_next_desc s.chan.vc with
  | none => exact ⟨rfl, fun _ _ => rfl⟩
  | some d => exact chan_local_block_xfer_start d s

theorem chan_local_xfer_complete :
    chan_local (fun s => (phytium_chan_block_xfer_complete s).2) := by
  have h1 : chan_local xfer_stop := by
    unfold xfer_stop
    exact chan_local_comp (fun s => { s with chan.is_idle := true })
      (fun s => if phytium_chan_is_running s then phytium_chan_disable s else s)
      (chan_local_soft _ (fun _ => rfl) (fun _ => rfl))
      (chan_local_ite (fun s => phytium_chan_is_running s = true) _ _ chan_local_disable
        chan_local_id)
  have h2 : chan_local (fun s => (xfer_retire s).2) := by
    intro s
    unfold xfer_retire
    simp only
    cases vchan_next_desc s.chan.vc with
    | none => exact ⟨rfl, fun _ _ => rfl⟩
    | some d => exact chan_local_start_first_queued _
  intro s
  simp only
  rw [xfer_complete_eq]
  exact chan_local_comp xfer_stop (fun s => (xfer_retire s).2) h1 h2 s

theorem chan_local_xfer_complete_intx : chan_local phytium_chan_block_xfer_complete_intx := by
  intro s
  obtain ⟨a1, a2⟩ := chan_local_xfer_complete (spin_lock_irqsave s)
  unfold phytium_chan_block_xfer_complete_intx
  simp only
  split
  · exact ⟨a1, a2⟩
  · exact ⟨a1, a2⟩

theorem chan_local_interrupt_intx_chan : chan_local phytium_dma_interrupt_intx_chan := by
  have h : chan_local (fun s => phytium_chan_irq_set
      ((fun x : Nat × chan_state =>
        if (x.1 &&& DMA_STAT_ERR) ≠ 0 then x.2
        else if chan_status_done x.1 then phytium_chan_block_xfer_complete_intx x.2
        else x.2)
        (phytium_chan_status_read s,
          phytium_chan_irq_disable s (DMA_CTRL_IRQ_END ||| DMA_CTRL_IRQ_EOP ||| DMA_CTRL_IRQ_ERR)))
      (DMA_CTRL_IRQ_END ||| DMA_CTRL_IRQ_EOP ||| DMA_CTRL_IRQ_ERR)) := by
    intro s
    obtain ⟨a1, a2⟩ := chan_local_irq_disable
      (DMA_CTRL_IRQ_END ||| DMA_CTRL_IRQ_EOP ||| DMA_CTRL_IRQ_ERR) s
    obtain ⟨b1, b2⟩ := chan_local_xfer_complete_intx
      (phytium_chan_irq_disable s (DMA_CTRL_IRQ_END ||| DMA_CTRL_IRQ_EOP ||| DMA_CTRL_IRQ_ERR))
    simp only
    split
    · obtain ⟨c1, c2⟩ := chan_local_irq_set
        (DMA_CTRL_IRQ_END ||| DMA_CTRL_IRQ_EOP ||| DMA_CTRL_IRQ_ERR)
        (phytium_chan_irq_disable s (DMA_CTRL_IRQ_END ||| DMA_CTRL_IRQ_EOP ||| DMA_CTRL_IRQ_ERR))
      exact ⟨c1.trans a1, fun a ha => (c2 a (by rw [a1]; exact ha)).trans (a2 a ha)⟩
    · split
      · obtain ⟨c1, c2⟩ := chan_local_irq_set
          (DMA_CTRL_IRQ_END ||| DMA_CTRL_IRQ_EOP ||| DMA_CTRL_IRQ_ERR)
          (phytium_chan_block_xfer_complete_intx (phytium_chan_irq_disable s
            (DMA_CTRL_IRQ_END ||| DMA_CTRL_IRQ_EOP ||| DMA_CTRL_IRQ_ERR)))
        refine ⟨c1.trans (b1.trans a1), fun a ha => ?_⟩
        rw [c2 a (by rw [b1, a1]; exact ha), b2 a (by rw [a1]; exact ha), a2 a ha]
      · obtain ⟨c1, c2⟩ := chan_local_irq_set
          (DMA_CTRL_IRQ_END ||| DMA_CTRL_IRQ_EOP ||| DMA_CTRL_IRQ_ERR)
          (phytium_chan_irq_disable s (DMA_CTRL_IRQ_END ||| DMA_CTRL_IRQ_EOP ||| DMA_CTRL_IRQ_ERR))
        exact ⟨c1.trans a1, fun a ha => (c2 a (by rw [a1]; exact ha)).trans (a2 a ha)⟩
  exact h

/-! ## A channel loop services each selected channel once -/

theorem chip_on_chan_at (chip : phytium_dma_chip) (i : Nat) (f : chan_state → chan_state)
    (c : phytium_dma_chan) (hc : chip.chan[i]? = some c) :
    chip_on_chan chip i f =
      { chip with regs := (f { chan := c, regs := chip.regs }).regs,
                  chan := chip.chan.set i (f { chan := c, regs := chip.regs }).chan } := by
  unfold chip_on_chan
  rw [hc]

theorem chip_on_chan_comp (chip : phytium_dma_chip) (i : Nat) (f g : chan_state → chan_state) :
    chip_on_chan (chip_on_chan chip i f) i g = chip_on_chan chip i (fun s => g (f s)) := by
  cases hc : chip.chan[i]? with
  | none =>
    have e : ∀ h : chan_state → chan_state, chip_on_chan chip i h = chip := by
      intro h
      unfold chip_on_chan
      rw [hc]
    rw [e f, e g, e]
  | some c =>
    have hi : i < chip.chan.length := (List.getElem?_eq_some_iff.mp hc).1
    rw [chip_on_chan_at chip i f c hc, chip_on_chan_at chip i (fun s => g (f s)) c hc]
    have h2 : (chip.chan.set i (f { chan := c, regs := chip.regs }).chan)[i]?
        = some (f { chan := c, regs := chip.regs }).chan := by
      rw [List.getElem?_set_self hi]
    rw [chip_on_chan_at _ i g _ h2]
    simp only [List.set_set]

theorem poll_fold_spec (sel : Nat → Bool) (body : chan_state → chan_state)
    (hloc : chan_local body) (chip : phytium_dma_chip) (n : Nat) (hids : chan_indexed chip n) :
    ∀ k, k ≤ n →
      ((List.range k).foldl (poll_step sel body) chip).hdata = chip.hdata ∧
      (∀ i, k ≤ i → ((List.range k).foldl (poll_step sel body) chip).chan[i]? = chip.chan[i]?) ∧
      (∀ a, (∀ i, i < k → sel i = true → ¬ chan_window i a) →
        ((List.range k).foldl (poll_step sel body) chip).regs a = chip.regs a) ∧
      (∀ i, i < k → sel i = false →
        ((List.range k).foldl (poll_step sel body) chip).chan[i]? = chip.chan[i]?) ∧
      (∀ i, i < k → sel i = true →
        serviced body chip ((List.range k).foldl (poll_step sel body) chip) i) := by
  intro k
  induction k with
  | zero =>
    intro _
    refine ⟨rfl, fun _ _ => rfl, fun _ _ => rfl, fun i hi => ?_, fun i hi => ?_⟩
    · omega
    · omega
  | succ k ih =>
    intro hk
    obtain ⟨i1, i2, i3, i4, i5⟩ := ih (by omega)
    rw [List.range_succ, List.foldl_append]
    simp only [List.foldl_cons, List.foldl_nil]
    generalize (List.range k).foldl (poll_step sel body) chip = ck at i1 i2 i3 i4 i5 ⊢
    cases hs : sel k with
    | false =>
      have e : poll_step sel body ck k = ck := by
        unfold poll_step
        rw [hs]
        rfl
      rw [e]
      refine ⟨i1, fun i hi => i2 i (by omega), fun a ha => i3 a (fun i hi => ha i (by omega)),
        fun i hi hsi => ?_, fun i hi hsi => ?_⟩
      · by_cases hik : i = k
        · subst hik
          exact i2 i (Nat.le_refl _)
        · exact i4 i (by omega) hsi
      · have hik : i ≠ k := by
          intro h
          subst h
          rw [hs] at hsi
          exact absurd hsi (by simp)
        exact i5 i (by omega) hsi
    | true =>
      obtain ⟨c, hc0, hcid⟩ := hids k (by omega)
      have hc : ck.chan[k]? = some c := by
        rw [i2 k (Nat.le_refl _)]
        exact hc0
      have hklen : k < ck.chan.length := (List.getElem?_eq_some_iff.mp hc).1
      have e : poll_step sel body ck k =
          { ck with regs := (body { chan := c, regs := ck.regs }).regs,
                    chan := ck.chan.set k (body { chan := c, regs := ck.regs }).chan } := by
        unfold poll_step
        rw [hs]
        exact chip_on_chan_at ck k body c hc
      rw [e]
      obtain ⟨b1, b2⟩ := hloc { chan := c, regs := ck.regs }
      simp only [hcid] at b2
      have hwin : ∀ a, chan_window k a → ck.regs a = chip.regs a := by
        intro a ha
        apply i3
        intro j hj _ hw
        have := chan_window_disjoint j k a hw ha
        omega
      refine ⟨i1, fun i hi => ?_, fun a ha => ?_, fun i hi hsi => ?_, fun i hi hsi => ?_⟩
      · simp only
        rw [List.getElem?_set_ne (by omega)]
        exact i2 i (by omega)
      · simp only
        rw [b2 a (ha k (by omega) hs)]
        exact i3 a (fun i hi => ha i (by omega))
      · have hik : i ≠ k := by
          intro h
          subst h
          rw [hs] at hsi
          exact absurd hsi (by simp)
        simp only
        rw [List.getElem?_set_ne (by omega)]
        exact i4 i (by omega) hsi
      · by_cases hik : i = k
        · subst hik
          intro c1 hc1
          rw [hc0] at hc1
          simp only [Option.some.injEq] at hc1
          subst hc1
          refine ⟨ck.regs, hwin, ?_, fun _ _ => rfl⟩
          simp only
          rw [List.getElem?_set_self hklen]
        · intro c1 hc1
          obtain ⟨R, r1, r2, r3⟩ := i5 i (by omega) hsi c1 hc1
          refine ⟨R, r1, ?_, fun a ha => ?_⟩
          · simp only
            rw [List.getElem?_set_ne (by omega)]
            exact r2
          · simp only
            have hnk : ¬ chan_window k a := by
              intro hw
              exact hik (chan_window_disjoint i k a ha hw)
            rw [b2 a hnk]
            exact r3 a ha

/-! ## Claim C24: the channel reset -/

theorem hw_init_chan_eq_poll :
    phytium_dma_hw_init_chan = poll_step (fun _ => true) hw_reset_chan := by
  funext chip i
  unfold phytium_dma_hw_init_chan poll_step
  simp only [if_true]
  exact chip_on_chan_comp chip i _ _

theorem hw_reset_chan_chan (s : chan_state) :
    (hw_reset_chan s).chan = { s.chan with hw_active := [] } := rfl

theorem hw_reset_chan_control (s : chan_state) :
    (hw_reset_chan s).regs (s.chan.id * CHAN_REG_LEN + DMA_CONTROL)
      = ioread32 (s.chan.id * CHAN_REG_LEN + DMA_CONTROL) s.regs &&& 0xFFFFF0FE := by
  have hv : ioread32 (s.chan.id * CHAN_REG_LEN + DMA_CONTROL) s.regs < 2 ^ 32 := by
    unfold ioread32
    exact Nat.mod_lt _ (by decide)
  have e : (hw_reset_chan s).regs (s.chan.id * CHAN_REG_LEN + DMA_CONTROL)
      = ((ioread32 (s.chan.id * CHAN_REG_LEN + DMA_CONTROL) s.regs
            &&& not32 (DMA_CTRL_IRQ_MASK 0xF)) % 2 ^ 32 &&& not32 DMA_CTRL_START) % 2 ^ 32 := by
    unfold hw_reset_chan phytium_chan_disable phytium_chan_irq_disable
    simp only [phytium_chan_iowrite32, phytium_chan_ioread32, ioread32_iowrite32, if_true]
    simp only [iowrite32, if_true]
  rw [e, and_mod_of_lt _ _ hv, and_mod_of_lt _ _ (Nat.lt_of_le_of_lt Nat.and_le_left hv),
    Nat.land_assoc]
  have hc : not32 (DMA_CTRL_IRQ_MASK 0xF) &&& not32 DMA_CTRL_START = 0xFFFFF0FE := by decide
  rw [hc]

theorem hw_reset_chan_other (s : chan_state) (a : Nat)
    (ha : a ≠ s.chan.id * CHAN_REG_LEN + DMA_CONTROL) : (hw_reset_chan s).regs a = s.regs a := by
  unfold hw_reset_chan phytium_chan_disable phytium_chan_irq_disable
  simp only [phytium_chan_iowrite32, iowrite32, ha, if_false]

theorem and_f0fe_bits (x : Nat) :
    (x &&& 0xFFFFF0FE).testBit 0 = false ∧
    (∀ b, 8 ≤ b → b ≤ 11 → (x &&& 0xFFFFF0FE).testBit b = false) ∧
    (∀ b, b ≠ 0 → (b < 8 ∨ 11 < b) → b < 32 → (x &&& 0xFFFFF0FE).testBit b = x.testBit b) := by
  refine ⟨?_, fun b h1 h2 => ?_, fun b h0 h1 h32 => ?_⟩
  · rw [Nat.testBit_and, mask_f0fe_bits]
    simp
  · rw [Nat.testBit_and, mask_f0fe_bits]
    simp [h1, h2]
  · rw [Nat.testBit_and, mask_f0fe_bits]
    simp only [h32, h0, decide_True, decide_False, Bool.false_or, Bool.true_and]
    rcases h1 with h1 | h1
    · have h8 : ¬ 8 ≤ b := by omega
      simp [h8]
    · have h11 : ¬ b ≤ 11 := by omega
      simp [h11]

/-- What `phytium_dma_hw_init` does to a chip whose channel `i` has id `i`: channel `i` keeps
its software state (the engine holds nothing any more), its control register becomes
the old value with bit 0 and bits 8..11 cleared, and no other register changes. -/
theorem hw_init_spec (chip : phytium_dma_chip)
    (hids : chan_indexed chip chip.hdata.nr_channels) :
    (phytium_dma_hw_init chip).hdata = chip.hdata ∧
    (∀ i, chip.hdata.nr_channels ≤ i → (phytium_dma_hw_init chip).chan[i]? = chip.chan[i]?) ∧
    (∀ i, i < chip.hdata.nr_channels → ∀ c, chip.chan[i]? = some c →
      (phytium_dma_hw_init chip).chan[i]? = some { c with hw_active := [] } ∧
      (phytium_dma_hw_init chip).regs (i * CHAN_REG_LEN + DMA_CONTROL)
        = ioread32 (i * CHAN_REG_LEN + DMA_CONTROL) chip.regs &&& 0xFFFFF0FE) ∧
    (∀ a, (∀ i, i < chip.hdata.nr_channels → a ≠ i * CHAN_REG_LEN + DMA_CONTROL) →
      (phytium_dma_hw_init chip).regs a = chip.regs a) := by
  unfold phytium_dma_hw_init
  rw [hw_init_chan_eq_poll]
  obtain ⟨p1, p2, p3, _, p5⟩ := poll_fold_spec (fun _ => true) hw_reset_chan chan_local_hw_reset
    chip chip.hdata.nr_channels hids chip.hdata.nr_channels (Nat.le_refl _)
  refine ⟨p1, p2, fun i hi c hc => ?_, fun a ha => ?_⟩
  · obtain ⟨c0, hc0, hid⟩ := hids i hi
    rw [hc0] at hc
    simp only [Option.some.injEq] at hc
    subst hc
    obtain ⟨R, r1, r2, r3⟩ := p5 i hi rfl c0 hc0
    have hw : chan_window i (i * CHAN_REG_LEN + DMA_CONTROL) :=
      chan_window_reg i DMA_CONTROL (by decide) (by decide)
    refine ⟨r2, ?_⟩
    rw [r3 _ hw]
    have h := hw_reset_chan_control { chan := c0, regs := R }
    simp only [hid] at h
    rw [h]
    unfold ioread32
    rw [r1 _ hw]
  · by_cases hex : ∃ i, i < chip.hdata.nr_channels ∧ chan_window i a
    · obtain ⟨i, hi, hw⟩ := hex
      obtain ⟨c0, hc0, hid⟩ := hids i hi
      obtain ⟨R, r1, _, r3⟩ := p5 i hi rfl c0 hc0
      rw [r3 a hw, hw_reset_chan_other _ a (by simp only [hid]; exact ha i hi)]
      exact r1 a hw
    · apply p3
      intro i hi _ hw
      exact hex ⟨i, hi, hw⟩

theorem chip_ext (a b : phytium_dma_chip) (h1 : a.regs = b.regs) (h2 : a.hdata = b.hdata)
    (h3 : a.chan = b.chan) : a = b := by
  cases a
  cases b
  simp only at h1 h2 h3
  subst h1 h2 h3
  rfl

theorem hw_init_idempotent (chip : phytium_dma_chip)
    (hids : chan_indexed chip chip.hdata.nr_channels) :
    phytium_dma_hw_init (phytium_dma_hw_init chip) = phytium_dma_hw_init chip := by
  obtain ⟨a1, a2, a3, a4⟩ := hw_init_spec chip hids
  have hids2 : chan_indexed (phytium_dma_hw_init chip)
      (phytium_dma_hw_init chip).hdata.nr_channels := by
    intro i hi
    rw [a1] at hi
    obtain ⟨c, hc, hid⟩ := hids i hi
    exact ⟨_, (a3 i hi c hc).1, hid⟩
  obtain ⟨b1, b2, b3, b4⟩ := hw_init_spec (phytium_dma_hw_init chip) hids2
  rw [a1] at b2 b3 b4
  apply chip_ext
  · funext a
    by_cases hex : ∃ i, i < chip.hdata.nr_channels ∧ a = i * CHAN_REG_LEN + DMA_CONTROL
    · obtain ⟨i, hi, ha⟩ := hex
      subst ha
      obtain ⟨c, hc, _⟩ := hids i hi
      obtain ⟨k1, k2⟩ := a3 i hi c hc
      obtain ⟨_, k4⟩ := b3 i hi _ k1
      rw [k4]
      unfold ioread32
      rw [k2]
      have hv : ioread32 (i * CHAN_REG_LEN + DMA_CONTROL) chip.regs < 2 ^ 32 := by
        unfold ioread32
        exact Nat.mod_lt _ (by decide)
      rw [and_mod_of_lt _ _ hv, Nat.land_assoc, Nat.and_self]
    · apply b4
      intro i hi ha
      exact hex ⟨i, hi, ha⟩
  · exact b1
  · apply List.ext_getElem?
    intro i
    by_cases hi : i < chip.hdata.nr_channels
    · obtain ⟨c, hc, _⟩ := hids i hi
      obtain ⟨k1, _⟩ := a3 i hi c hc
      obtain ⟨k3, _⟩ := b3 i hi _ k1
      rw [k3, k1]
    · exact b2 i (by omega)

theorem probe_chip_indexed (regs : Regs) :
    chan_indexed (probe_chip regs) (probe_chip regs).hdata.nr_channels := by
  intro i hi
  have h4 : i < 4 := hi
  have e : (probe_chip regs).chan = [probe_chan 0, probe_chan 1, probe_chan 2, probe_chan 3] := by
    unfold probe_chip
    rfl
  rw [e]
  interval_cases i
  · exact ⟨_, rfl, rfl⟩
  · exact ⟨_, rfl, rfl⟩
  · exact ⟨_, rfl, rfl⟩
  · exact ⟨_, rfl, rfl⟩

theorem probe_intx_frame (env : probe_env) (st st1 : probe_state)
    (h : (probe_intx env st).2 = some st1) :
    st1.chip = st.chip ∧ st1.calls = st.calls ++ [probe_call.request_irq_intx] := by
  unfold probe_intx at h
  simp only at h
  split at h
  · simp only [Option.some.injEq] at h
    rw [← h]
    exact ⟨rfl, rfl⟩
  · simp only [Option.some.injEq] at h
    rw [← h]
    exact ⟨rfl, rfl⟩

theorem probe_irq_frame (env : probe_env) (st st1 : probe_state)
    (h : (probe_irq env st).2 = some st1) :
    st1.chip = st.chip ∧ ∃ l, st1.calls = st.calls ++ l := by
  obtain ⟨_, _, _, q1, _, k, q2⟩ := probe_request_msi_spec env
    (List.range st.chip.hdata.nr_channels)
    { st with calls := st.calls ++ [probe_call.pci_alloc_irq_vectors] }
  unfold probe_irq at h
  simp only at h
  split at h
  · obtain ⟨f1, f2⟩ := probe_intx_frame env _ st1 h
    refine ⟨f1, [probe_call.pci_alloc_irq_vectors] ++ [probe_call.request_irq_intx], ?_⟩
    rw [f2, List.append_assoc]
  · split at h
    · simp only [Option.some.injEq] at h
      rw [← h]
      refine ⟨q1, [probe_call.pci_alloc_irq_vectors] ++
        ((List.range st.chip.hdata.nr_channels).take k).map probe_call.request_irq_msi, ?_⟩
      rw [q2, List.append_assoc]
    · obtain ⟨f1, f2⟩ := probe_intx_frame env _ st1 h
      refine ⟨f1.trans q1, [probe_call.pci_alloc_irq_vectors] ++
        (((List.range st.chip.hdata.nr_channels).take k).map probe_call.request_irq_msi ++
          [probe_call.request_irq_intx]), ?_⟩
      rw [f2, q2, List.append_assoc, List.append_assoc]

theorem probe_alloc_failed (env : probe_env) (regs : Regs)
    (h : env.dmac_alloc = false ∨ env.hdata_alloc = false ∨ env.chan_alloc = false) :
    phytium_dma_probe env regs = (-12, none) := by
  unfold phytium_dma_probe
  rcases h with h | h | h
  · simp [h]
  · simp [h]
  · simp [h]

theorem probe_register_failed (env : probe_env) (regs : Regs)
    (h1 : env.dmac_alloc = true) (h2 : env.hdata_alloc = true) (h3 : env.chan_alloc = true)
    (h4 : env.device_register ≠ 0) :
    phytium_dma_probe env regs =
      (env.device_register,
        some { chip := phytium_dma_hw_init (probe_chip regs), registered := false,
               handlers := { msi := [], intx := false },
               calls := [probe_call.hw_init, probe_call.dma_async_device_register] }) := by
  unfold phytium_dma_probe
  rw [h1, h2, h3]
  simp only [Bool.not_true, Bool.false_eq_true, if_false, ne_eq, h4, not_false_eq_true, if_true]

/-- In every run of `phytium_dma_probe` that sets up the chip, the chip at the return is the one
`phytium_dma_hw_init` left, and the first two recorded calls are `phytium_dma_hw_init` and then
`dma_async_device_register`. -/
theorem probe_resets_before_register (env : probe_env) (regs : Regs) (st : probe_state)
    (h : (phytium_dma_probe env regs).2 = some st) :
    st.chip = phytium_dma_hw_init (probe_chip regs) ∧
    ∃ rest, st.calls
      = probe_call.hw_init :: probe_call.dma_async_device_register :: rest := by
  cases h1 : env.dmac_alloc with
  | false =>
    rw [probe_alloc_failed env regs (Or.inl h1)] at h
    exact absurd h (by simp)
  | true =>
    cases h2 : env.hdata_alloc with
    | false =>
      rw [probe_alloc_failed env regs (Or.inr (Or.inl h2))] at h
      exact absurd h (by simp)
    | true =>
      cases h3 : env.chan_alloc with
      | false =>
        rw [probe_alloc_failed env regs (Or.inr (Or.inr h3))] at h
        exact absurd h (by simp)
      | true =>
        by_cases h4 : env.device_register = 0
        · rw [probe_reaches_irq env regs h1 h2 h3 h4] at h
          obtain ⟨f1, l, f2⟩ := probe_irq_frame env _ st h
          simp only at f1 f2
          refine ⟨f1, l, ?_⟩
          rw [f2]
          rfl
        · rw [probe_register_failed env regs h1 h2 h3 h4] at h
          simp only [Option.some.injEq] at h
          subst h
          simp only
          exact ⟨trivial, [], rfl⟩

/-- C24: on a chip whose channel `i` has id `i` (as probe sets the channels up),
`phytium_dma_hw_init` leaves the control register of every channel `i < nr_channels` equal to
the old value with the start bit (bit 0) and the four interrupt-enable bits (bits
8..11) cleared and every other bit as before, writes no other register, and is
idempotent. Suspend-prepare, late suspend and early resume run it. In probe it is
called before `dma_async_device_register`, and the chip probe returns is the one it
left. -/
theorem hw_init_resets_channels (chip : phytium_dma_chip)
    (hids : chan_indexed chip chip.hdata.nr_channels) :
    (∀ i, i < chip.hdata.nr_channels →
      ioread32 (i * CHAN_REG_LEN + DMA_CONTROL) (phytium_dma_hw_init chip).regs
        = ioread32 (i * CHAN_REG_LEN + DMA_CONTROL) chip.regs &&& 0xFFFFF0FE ∧
      (ioread32 (i * CHAN_REG_LEN + DMA_CONTROL) (phytium_dma_hw_init chip).regs).testBit 0
        = false ∧
      (∀ b, 8 ≤ b → b ≤ 11 →
        (ioread32 (i * CHAN_REG_LEN + DMA_CONTROL) (phytium_dma_hw_init chip).regs).testBit b
          = false) ∧
      (∀ b, b ≠ 0 → (b < 8 ∨ 11 < b) →
        (ioread32 (i * CHAN_REG_LEN + DMA_CONTROL) (phytium_dma_hw_init chip).regs).testBit b
          = (ioread32 (i * CHAN_REG_LEN + DMA_CONTROL) chip.regs).testBit b)) ∧
    (∀ a, (∀ i, i < chip.hdata.nr_channels → a ≠ i * CHAN_REG_LEN + DMA_CONTROL) →
      (phytium_dma_hw_init chip).regs a = chip.regs a) ∧
    phytium_dma_hw_init (phytium_dma_hw_init chip) = phytium_dma_hw_init chip ∧
    (phytium_pci_prepare chip).2 = phytium_dma_hw_init chip ∧
    (phytium_pci_suspend_late chip).2 = phytium_dma_hw_init chip ∧
    (phytium_pci_resume_early chip).2 = phytium_dma_hw_init chip ∧
    (∀ (env : probe_env) (regs : Regs) (st : probe_state),
      (phytium_dma_probe env regs).2 = some st →
      st.chip = phytium_dma_hw_init (probe_chip regs) ∧
      chan_indexed (probe_chip regs) (probe_chip regs).hdata.nr_channels ∧
      ∃ rest, st.calls
        = probe_call.hw_init :: probe_call.dma_async_device_register :: rest) := by
  obtain ⟨a1, a2, a3, a4⟩ := hw_init_spec chip hids
  refine ⟨fun i hi => ?_, a4, hw_init_idempotent chip hids, ?_, rfl, rfl,
    fun env regs st h => ?_⟩
  · obtain ⟨c, hc, _⟩ := hids i hi
    obtain ⟨_, k2⟩ := a3 i hi c hc
    have hv : ioread32 (i * CHAN_REG_LEN + DMA_CONTROL) chip.regs < 2 ^ 32 := by
      unfold ioread32
      exact Nat.mod_lt _ (by decide)
    have e : ioread32 (i * CHAN_REG_LEN + DMA_CONTROL) (phytium_dma_hw_init chip).regs
        = ioread32 (i * CHAN_REG_LEN + DMA_CONTROL) chip.regs &&& 0xFFFFF0FE := by
      have e0 : ioread32 (i * CHAN_REG_LEN + DMA_CONTROL) (phytium_dma_hw_init chip).regs
          = (phytium_dma_hw_init chip).regs (i * CHAN_REG_LEN + DMA_CONTROL) % 2 ^ 32 := rfl
      rw [e0, k2, and_mod_of_lt _ _ hv]
    obtain ⟨m1, m2, m3⟩ := and_f0fe_bits (ioread32 (i * CHAN_REG_LEN + DMA_CONTROL) chip.regs)
    rw [e]
    refine ⟨rfl, m1, m2, fun b h0 h1 => ?_⟩
    by_cases h32 : b < 32
    · exact m3 b h0 h1 h32
    · have hb : ∀ y, y < 2 ^ 32 → y.testBit b = false := fun y hy =>
        Nat.testBit_lt_two_pow (Nat.lt_of_lt_of_le hy
          (Nat.pow_le_pow_right (by decide) (by omega)))
      rw [hb _ hv, hb _ (Nat.lt_of_le_of_lt Nat.and_le_left hv)]
  · unfold phytium_pci_prepare
    simp only
    split
    · rfl
    · rfl
  · obtain ⟨p1, p2⟩ := probe_resets_before_register env regs st h
    exact ⟨p1, probe_chip_indexed regs, p2⟩

theorem scen_chip_busy_indexed :
    chan_indexed scen_chip_busy scen_chip_busy.hdata.nr_channels := by
  intro i hi
  have h4 : i < 4 := hi
  have e : scen_chip_busy.chan
      = [{ probe_chan 0 with is_idle := false }, probe_chan 1, probe_chan 2, probe_chan 3] := rfl
  rw [e]
  interval_cases i
  · exact ⟨_, rfl, rfl⟩
  · exact ⟨_, rfl, rfl⟩
  · exact ⟨_, rfl, rfl⟩
  · exact ⟨_, rfl, rfl⟩

/-- Witness for C24: on a chip whose channel 0 runs with its interrupts enabled
(control 0x17E9) and whose channel 1 has control 0xF01, the reset leaves the control
registers 0x10E8 and 0, 0, 0. -/
theorem hw_init_resets_channels_witness :
    (List.range 4).map (fun i => ioread32 (i * CHAN_REG_LEN + DMA_CONTROL) scen_chip_busy.regs)
      = [0x17E9, 0xF01, 0, 0] ∧
    (List.range 4).map
        (fun i => ioread32 (i * CHAN_REG_LEN + DMA_CONTROL)
          (phytium_dma_hw_init scen_chip_busy).regs)
      = [0x10E8, 0, 0, 0] ∧
    ((∀ i, i < scen_chip_busy.hdata.nr_channels →
      ioread32 (i * CHAN_REG_LEN + DMA_CONTROL) (phytium_dma_hw_init scen_chip_busy).regs
        = ioread32 (i * CHAN_REG_LEN + DMA_CONTROL) scen_chip_busy.regs &&& 0xFFFFF0FE ∧
      (ioread32 (i * CHAN_REG_LEN + DMA_CONTROL)
        (phytium_dma_hw_init scen_chip_busy).regs).testBit 0 = false ∧
      (∀ b, 8 ≤ b → b ≤ 11 →
        (ioread32 (i * CHAN_REG_LEN + DMA_CONTROL)
          (phytium_dma_hw_init scen_chip_busy).regs).testBit b = false) ∧
      (∀ b, b ≠ 0 → (b < 8 ∨ 11 < b) →
        (ioread32 (i * CHAN_REG_LEN + DMA_CONTROL)
          (phytium_dma_hw_init scen_chip_busy).regs).testBit b
          = (ioread32 (i * CHAN_REG_LEN + DMA_CONTROL) scen_chip_busy.regs).testBit b)) ∧
    (∀ a, (∀ i, i < scen_chip_busy.hdata.nr_channels → a ≠ i * CHAN_REG_LEN + DMA_CONTROL) →
      (phytium_dma_hw_init scen_chip_busy).regs a = scen_chip_busy.regs a) ∧
    phytium_dma_hw_init (phytium_dma_hw_init scen_chip_busy) = phytium_dma_hw_init scen_chip_busy ∧
    (phytium_pci_prepare scen_chip_busy).2 = phytium_dma_hw_init scen_chip_busy ∧
    (phytium_pci_suspend_late scen_chip_busy).2 = phytium_dma_hw_init scen_chip_busy ∧
    (phytium_pci_resume_early scen_chip_busy).2 = phytium_dma_hw_init scen_chip_busy ∧
    (∀ (env : probe_env) (regs : Regs) (st : probe_state),
      (phytium_dma_probe env regs).2 = some st →
      st.chip = phytium_dma_hw_init (probe_chip regs) ∧
      chan_indexed (probe_chip regs) (probe_chip regs).hdata.nr_channels ∧
      ∃ rest, st.calls
        = probe_call.hw_init :: probe_call.dma_async_device_register :: rest)) :=
  ⟨by decide, by decide, hw_init_resets_channels scen_chip_busy scen_chip_busy_indexed⟩

/-! ## Claim C23: the channel loop of the shared-line handler -/

theorem interrupt_intx_poll_eq (st : Nat) :
    phytium_dma_interrupt_intx_poll st
      = poll_step (chan_irq_pending st) phytium_dma_interrupt_intx_chan := by
  funext chip i
  unfold phytium_dma_interrupt_intx_poll poll_step chan_irq_pending
  by_cases h : (st &&& BIT i) = 0 ∧ (st &&& BIT (i + 8)) = 0
  · simp [h]
  · simp only [h, if_false, decide_False, Bool.not_false, if_true]

theorem dma_write_window (reg v : Nat) (h : reg < DMA_SRCPARAM) (r : Regs) (a : Nat)
    (ha : DMA_SRCPARAM ≤ a) : phytium_dma_iowrite32 r reg v a = r a := by
  unfold phytium_dma_iowrite32 iowrite32
  have : a ≠ reg := by omega
  simp [this]

theorem interrupt_intx_accepted (chip : phytium_dma_chip)
    (hacc : ((phytium_dma_irq_read chip.regs &&& 0xffff)
      &&& phytium_dma_irq_mask_read chip.regs) ≠ 0) :
    phytium_dma_interrupt_intx chip =
      (IRQ_HANDLED,
        { interrupt_intx_polled chip with
          regs := phytium_dma_irq_enable (interrupt_intx_polled chip).regs }) := by
  unfold phytium_dma_interrupt_intx interrupt_intx_polled interrupt_intx_pre
  simp only [hacc, if_false, interrupt_intx_poll_eq]

theorem interrupt_intx_chan_done (s : chan_state) (hc : reports_completion s) :
    phytium_dma_interrupt_intx_chan s =
      phytium_chan_irq_set
        (phytium_chan_block_xfer_complete_intx
          (phytium_chan_irq_disable s (DMA_CTRL_IRQ_END ||| DMA_CTRL_IRQ_EOP ||| DMA_CTRL_IRQ_ERR)))
        (DMA_CTRL_IRQ_END ||| DMA_CTRL_IRQ_EOP ||| DMA_CTRL_IRQ_ERR) := by
  obtain ⟨h1, h2⟩ := hc
  unfold phytium_dma_interrupt_intx_chan
  simp only [h1, h2, ne_eq, not_true_eq_false, if_false, if_true]

/-- The per-channel body of the shared-line handler on a channel whose status reports
a completion and no error: the head of the issued list is retired and the next
descriptor started, as by the vectored handler. -/
theorem interrupt_intx_chan_retires (s : chan_state) (hc : reports_completion s)
    (hinv : phytium_chan_is_running s = false → s.chan.hw_active = []) :
    retires_head s (phytium_dma_interrupt_intx_chan s) := by
  rw [interrupt_intx_chan_done s hc]
  have hrun : phytium_chan_is_running (spin_lock_irqsave (phytium_chan_irq_disable s
      (DMA_CTRL_IRQ_END ||| DMA_CTRL_IRQ_EOP ||| DMA_CTRL_IRQ_ERR)))
      = phytium_chan_is_running s := by
    rw [is_running_eq, is_running_eq]
    have k := (keeps_chan_irq_disable (DMA_CTRL_IRQ_END ||| DMA_CTRL_IRQ_EOP ||| DMA_CTRL_IRQ_ERR)
      irq_mask_bit0 s).1
    exact (start_bit_congr
      (phytium_chan_irq_disable s (DMA_CTRL_IRQ_END ||| DMA_CTRL_IRQ_EOP ||| DMA_CTRL_IRQ_ERR))
      (spin_lock_irqsave (phytium_chan_irq_disable s
        (DMA_CTRL_IRQ_END ||| DMA_CTRL_IRQ_EOP ||| DMA_CTRL_IRQ_ERR))) rfl rfl).trans k
  have hp : phytium_chan_is_running (spin_lock_irqsave (phytium_chan_irq_disable s
      (DMA_CTRL_IRQ_END ||| DMA_CTRL_IRQ_EOP ||| DMA_CTRL_IRQ_ERR))) = false →
      (spin_lock_irqsave (phytium_chan_irq_disable s
        (DMA_CTRL_IRQ_END ||| DMA_CTRL_IRQ_EOP ||| DMA_CTRL_IRQ_ERR))).chan.hw_active = [] := by
    intro h
    rw [hrun] at h
    exact hinv h
  have A := xfer_complete_spec _ hp
  have hw : ∀ (b : Bool) (t : chan_state),
      same_queue t (phytium_chan_irq_set (if b then spin_unlock_irqrestore t else t)
        (DMA_CTRL_IRQ_END ||| DMA_CTRL_IRQ_EOP ||| DMA_CTRL_IRQ_ERR)) ∧
      same_xfer_regs t (phytium_chan_irq_set (if b then spin_unlock_irqrestore t else t)
        (DMA_CTRL_IRQ_END ||| DMA_CTRL_IRQ_EOP ||| DMA_CTRL_IRQ_ERR)) := by
    intro b t
    cases b
    · simp only [Bool.false_eq_true, if_false]
      refine ⟨⟨rfl, rfl, rfl, rfl, rfl, rfl, rfl, rfl, rfl⟩, ?_, ?_⟩
      · rw [is_running_eq, is_running_eq]
        exact (keeps_chan_irq_set (DMA_CTRL_IRQ_END ||| DMA_CTRL_IRQ_EOP ||| DMA_CTRL_IRQ_ERR)
          irq_bits_bit0 t).1
      · intro r _ hr
        exact chan_ioread32_irq_set t
          (DMA_CTRL_IRQ_END ||| DMA_CTRL_IRQ_EOP ||| DMA_CTRL_IRQ_ERR) r (by omega)
    · simp only [if_true]
      refine ⟨⟨rfl, rfl, rfl, rfl, rfl, rfl, rfl, rfl, rfl⟩, ?_, ?_⟩
      · rw [is_running_eq, is_running_eq]
        exact ((keeps_chan_irq_set (DMA_CTRL_IRQ_END ||| DMA_CTRL_IRQ_EOP ||| DMA_CTRL_IRQ_ERR)
          irq_bits_bit0 (spin_unlock_irqrestore t)).1).trans
          (start_bit_congr t (spin_unlock_irqrestore t) rfl rfl)
      · intro r _ hr
        exact (chan_ioread32_irq_set (spin_unlock_irqrestore t)
          (DMA_CTRL_IRQ_END ||| DMA_CTRL_IRQ_EOP ||| DMA_CTRL_IRQ_ERR) r (by omega)).trans
          (chan_ioread32_congr t (spin_unlock_irqrestore t) rfl rfl r)
  unfold phytium_chan_block_xfer_complete_intx
  simp only
  obtain ⟨w1, w2⟩ := hw (phytium_chan_block_xfer_complete (spin_lock_irqsave
    (phytium_chan_irq_disable s (DMA_CTRL_IRQ_END ||| DMA_CTRL_IRQ_EOP ||| DMA_CTRL_IRQ_ERR)))).1
    (phytium_chan_block_xfer_complete (spin_lock_irqsave
    (phytium_chan_irq_disable s (DMA_CTRL_IRQ_END ||| DMA_CTRL_IRQ_EOP ||| DMA_CTRL_IRQ_ERR)))).2
  exact retires_head_congr _ _ _ _ A ⟨rfl, rfl, rfl, rfl, rfl, rfl, rfl, rfl, rfl⟩ w1 w2
theorem chan_ioread32_window (a b : chan_state) (hid : b.chan.id = a.chan.id)
    (h : ∀ x, chan_window a.chan.id x → b.regs x = a.regs x) (r : Nat)
    (h1 : DMA_SRCPARAM ≤ r) (h2 : r ≤ DMA_STATUS) :
    phytium_chan_ioread32 b r = phytium_chan_ioread32 a r := by
  unfold phytium_chan_ioread32 ioread32
  rw [hid, h _ (chan_window_reg a.chan.id r h1 h2)]

theorem same_xfer_regs_of_window (a b : chan_state) (hid : b.chan.id = a.chan.id)
    (h : ∀ x, chan_window a.chan.id x → b.regs x = a.regs x) : same_xfer_regs a b := by
  refine ⟨?_, fun r h1 h2 => ?_⟩
  · unfold phytium_chan_is_running
    simp only
    rw [chan_ioread32_window a b hid h DMA_CONTROL (by decide) (by decide)]
  · exact chan_ioread32_window a b hid h r h1
      (Nat.le_trans (Nat.le_of_lt h2) (by decide))

theorem same_xfer_regs_mk (a : chan_state) (r : Regs)
    (h : ∀ x, chan_window a.chan.id x → r x = a.regs x) :
    same_xfer_regs a { chan := a.chan, regs := r } :=
  same_xfer_regs_of_window a { chan := a.chan, regs := r } rfl h

theorem retires_head_same_queue (u t1 t2 : chan_state) (h1 : retires_head u t1)
    (h2 : retires_head u t2) : same_queue t1 t2 := by
  obtain ⟨a1, a2, a3, a4, a5, a6, a7, a8, a9, a10, _, _⟩ := h1
  obtain ⟨b1, b2, b3, b4, b5, b6, b7, b8, b9, b10, _, _⟩ := h2
  refine ⟨b1.trans a1.symm, b2.trans a2.symm, b4.trans a4.symm, b5.trans a5.symm,
    b6.trans a6.symm, ?_, b7.trans a7.symm, b10.trans a10.symm, b3.trans a3.symm⟩
  cases hq : u.chan.vc.desc_issued with
  | nil => exact (b9 hq).trans (a9 hq).symm
  | cons d rest => exact (b8 d rest hq).trans (a8 d rest hq).symm

theorem interrupt_intx_pre_window (chip : phytium_dma_chip) (a : Nat) (ha : DMA_SRCPARAM ≤ a) :
    (interrupt_intx_pre chip).regs a = chip.regs a := by
  unfold interrupt_intx_pre phytium_dma_irq_clear phytium_dma_irq_disable
  simp only
  rw [dma_write_window DMA_IRQ_STATUS _ (by decide) _ a ha,
    dma_write_window DMA_IRQ_MASK _ (by decide) _ a ha]

theorem irq_enable_window (r : Regs) (a : Nat) (ha : DMA_SRCPARAM ≤ a) :
    phytium_dma_irq_enable r a = r a := by
  unfold phytium_dma_irq_enable
  exact dma_write_window DMA_IRQ_MASK _ (by decide) r a ha

/-- C23: when `phytium_dma_interrupt_intx` accepts an interrupt on a chip whose channel `i` has
id `i`, it returns `IRQ_HANDLED` and, for each channel `i < nr_channels`: if neither bit
`i` nor bit `i + 8` of the chip status read at entry is set, channel `i` (its queue,
idle flag and the rest of its software state) and the registers of channel `i` are
as before; if one of the two bits is set, the per-channel body ran on channel `i`
with the registers of the channel as at entry, and when the channel status reports
a completion without error the head of the issued list is retired and the next
descriptor started, which leaves the queue, the cookie counters, the idle flag and
the engine exactly as the vectored handler leaves them on that channel. -/
theorem interrupt_intx_services (chip : phytium_dma_chip)
    (hids : chan_indexed chip chip.hdata.nr_channels)
    (hacc : ((phytium_dma_irq_read chip.regs &&& 0xffff)
      &&& phytium_dma_irq_mask_read chip.regs) ≠ 0) :
    (phytium_dma_interrupt_intx chip).1 = IRQ_HANDLED ∧
    (∀ i, i < chip.hdata.nr_channels →
      (chan_irq_pending (phytium_dma_irq_read chip.regs &&& 0xffff) i = false →
        untouched chip (phytium_dma_interrupt_intx chip).2 i) ∧
      (chan_irq_pending (phytium_dma_irq_read chip.regs &&& 0xffff) i = true →
        serviced phytium_dma_interrupt_intx_chan chip (phytium_dma_interrupt_intx chip).2 i ∧
        ∀ c, chip.chan[i]? = some c →
          reports_completion { chan := c, regs := chip.regs } →
          (phytium_chan_is_running { chan := c, regs := chip.regs } = false →
            c.hw_active = []) →
          ∃ c1, (phytium_dma_interrupt_intx chip).2.chan[i]? = some c1 ∧
            retires_head { chan := c, regs := chip.regs }
              { chan := c1, regs := (phytium_dma_interrupt_intx chip).2.regs } ∧
            same_queue (phytium_dma_interrupt_msi { chan := c, regs := chip.regs }).2
              { chan := c1, regs := (phytium_dma_interrupt_intx chip).2.regs })) := by
  rw [interrupt_intx_accepted chip hacc]
  have hidsP : chan_indexed (interrupt_intx_pre chip) chip.hdata.nr_channels := hids
  obtain ⟨_, _, p3, p4, p5⟩ := poll_fold_spec
    (chan_irq_pending (phytium_dma_irq_read chip.regs &&& 0xffff))
    phytium_dma_interrupt_intx_chan chan_local_interrupt_intx_chan (interrupt_intx_pre chip)
    chip.hdata.nr_channels hidsP chip.hdata.nr_channels (Nat.le_refl _)
  have hC : (List.range chip.hdata.nr_channels).foldl
      (poll_step (chan_irq_pending (phytium_dma_irq_read chip.regs &&& 0xffff))
        phytium_dma_interrupt_intx_chan) (interrupt_intx_pre chip)
      = interrupt_intx_polled chip := rfl
  rw [hC] at p3 p4 p5
  have hserv : ∀ i, i < chip.hdata.nr_channels →
      chan_irq_pending (phytium_dma_irq_read chip.regs &&& 0xffff) i = true →
      serviced phytium_dma_interrupt_intx_chan chip
        { interrupt_intx_polled chip with
          regs := phytium_dma_irq_enable (interrupt_intx_polled chip).regs } i := by
    intro i hi hs c hc
    obtain ⟨R, r1, r2, r3⟩ := p5 i hi hs c hc
    refine ⟨R, fun a ha => ?_, r2, fun a ha => ?_⟩
    · rw [r1 a ha]
      exact interrupt_intx_pre_window chip a (chan_window_high i a ha)
    · simp only
      rw [irq_enable_window _ a (chan_window_high i a ha)]
      exact r3 a ha
  refine ⟨rfl, fun i hi => ⟨fun hs => ?_, fun hs => ⟨hserv i hi hs, fun c hc hrc hinv => ?_⟩⟩⟩
  · refine ⟨p4 i hi hs, fun a ha => ?_⟩
    simp only
    rw [irq_enable_window _ a (chan_window_high i a ha), p3 a ?_]
    · exact interrupt_intx_pre_window chip a (chan_window_high i a ha)
    · intro j _ hsj hw
      have := chan_window_disjoint j i a hw ha
      subst this
      rw [hs] at hsj
      exact absurd hsj (by simp)
  · obtain ⟨c0, hc0, hid⟩ := hids i hi
    rw [hc] at hc0
    simp only [Option.some.injEq] at hc0
    subst hc0
    obtain ⟨R, r1, r2, r3⟩ := hserv i hi hs c hc
    have hwR : ∀ x, chan_window c.id x → R x = chip.regs x := by
      rw [hid]
      exact r1
    have hsame : same_xfer_regs { chan := c, regs := chip.regs } { chan := c, regs := R } :=
      same_xfer_regs_of_window { chan := c, regs := chip.regs } { chan := c, regs := R } rfl hwR
    have hst : phytium_chan_status_read { chan := c, regs := R }
        = phytium_chan_status_read { chan := c, regs := chip.regs } :=
      chan_ioread32_window { chan := c, regs := chip.regs } { chan := c, regs := R } rfl hwR
        DMA_STATUS (by decide) (by decide)
    have hrcR : reports_completion { chan := c, regs := R } := by
      unfold reports_completion at hrc ⊢
      rw [hst]
      exact hrc
    have hinvR : phytium_chan_is_running { chan := c, regs := R } = false →
        ({ chan := c, regs := R } : chan_state).chan.hw_active = [] := by
      intro h
      rw [hsame.1] at h
      exact hinv h
    have A := interrupt_intx_chan_retires { chan := c, regs := R } hrcR hinvR
    have hidb : (phytium_dma_interrupt_intx_chan { chan := c, regs := R }).chan.id = i :=
      ((chan_local_interrupt_intx_chan { chan := c, regs := R }).1).trans hid
    have hfin : same_xfer_regs (phytium_dma_interrupt_intx_chan { chan := c, regs := R })
        { chan := (phytium_dma_interrupt_intx_chan { chan := c, regs := R }).chan,
          regs := phytium_dma_irq_enable (interrupt_intx_polled chip).regs } := by
      refine same_xfer_regs_mk (phytium_dma_interrupt_intx_chan { chan := c, regs := R })
        (phytium_dma_irq_enable (interrupt_intx_polled chip).regs) ?_
      rw [hidb]
      exact r3
    have B : retires_head { chan := c, regs := chip.regs }
        { chan := (phytium_dma_interrupt_intx_chan { chan := c, regs := R }).chan,
          regs := phytium_dma_irq_enable (interrupt_intx_polled chip).regs } :=
      retires_head_congr _ _ _ _ A ⟨rfl, rfl, rfl, rfl, rfl, rfl, rfl, rfl, rfl⟩
        ⟨rfl, rfl, rfl, rfl, rfl, rfl, rfl, rfl, rfl⟩ hfin
    refine ⟨_, r2, B, ?_⟩
    exact retires_head_same_queue _ _ _
      (interrupt_msi_retires { chan := c, regs := chip.regs } hrc hinv).2.1 B
theorem scen_chip_done_indexed :
    chan_indexed scen_chip_done scen_chip_done.hdata.nr_channels := by
  intro i hi
  have h4 : i < 4 := hi
  have e : scen_chip_done.chan
      = [{ scen_issued.chan with hw_active := [] }, probe_chan 1, probe_chan 2,
          probe_chan 3] := rfl
  rw [e]
  interval_cases i
  · exact ⟨_, rfl, by decide⟩
  · exact ⟨_, rfl, rfl⟩
  · exact ⟨_, rfl, rfl⟩
  · exact ⟨_, rfl, rfl⟩

/-- Witness for C23: channel 0 holds the three issued memcpy descriptors, the first
one ended (chip status bit 0); the handler services channel 0 only, retires
descriptor 2 and starts descriptor 3, and leaves the channels 1 to 3 and their
control registers as they were. -/
theorem interrupt_intx_services_witness :
    (List.range 4).map (chan_irq_pending (phytium_dma_irq_read scen_chip_done.regs &&& 0xffff))
      = [true, false, false, false] ∧
    (phytium_dma_interrupt_intx scen_chip_done).2.chan.map
        (fun c => (c.vc.desc_issued.map (fun d => d.cookie), c.hw_active.map (fun d => d.cookie)))
      = [([3, 4], [3]), ([], []), ([], []), ([], [])] ∧
    ((phytium_dma_interrupt_intx scen_chip_done).1 = IRQ_HANDLED ∧
    (∀ i, i < scen_chip_done.hdata.nr_channels →
      (chan_irq_pending (phytium_dma_irq_read scen_chip_done.regs &&& 0xffff) i = false →
        untouched scen_chip_done (phytium_dma_interrupt_intx scen_chip_done).2 i) ∧
      (chan_irq_pending (phytium_dma_irq_read scen_chip_done.regs &&& 0xffff) i = true →
        serviced phytium_dma_interrupt_intx_chan scen_chip_done
          (phytium_dma_interrupt_intx scen_chip_done).2 i ∧
        ∀ c, scen_chip_done.chan[i]? = some c →
          reports_completion { chan := c, regs := scen_chip_done.regs } →
          (phytium_chan_is_running { chan := c, regs := scen_chip_done.regs } = false →
            c.hw_active = []) →
          ∃ c1, (phytium_dma_interrupt_intx scen_chip_done).2.chan[i]? = some c1 ∧
            retires_head { chan := c, regs := scen_chip_done.regs }
              { chan := c1, regs := (phytium_dma_interrupt_intx scen_chip_done).2.regs } ∧
            same_queue (phytium_dma_interrupt_msi { chan := c, regs := scen_chip_done.regs }).2
              { chan := c1, regs := (phytium_dma_interrupt_intx scen_chip_done).2.regs }))) :=
  ⟨by decide, by decide,
    interrupt_intx_services scen_chip_done scen_chip_done_indexed (by decide)⟩

/-! ## Claim C21: one interrupt strategy after probe -/

end PhytiumDma
